import Mathlib

/-!
# zotero-AI-script: a shallow embedding of the summary pipeline

The script (`zotero_ai_script.js`, and `zotero_ai_script_cn.js`, whose code is the same
up to the texts of comments and prompts) is embedded function by function: the
placeholder substitution `formatString`, the prompt, the Markdown renderer
`formatSummaryAsHtml`, the target resolution and the main program.

A JavaScript string is modelled as a `List Char`, one `Char` for each code point.  The
regexes and built-ins used by the script (`replace`, `split`, `trim`, `match`, `join`,
`startsWith`) only tell apart characters of the Basic Multilingual Plane, so they act on
code points as they act on UTF-16 code units; `length`, which counts code units, is
`utf16Length`.  Strings with unpaired surrogates are outside the model.
-/

namespace ZoteroAI

/-- A JavaScript string. -/
abbrev Str := List Char

/-! ## Character classes of the regular expressions -/

/-- Line terminators of ECMAScript: LF, CR, LS, PS.  The regex atom `.` (without the
`s` flag) matches every character except these. -/
def isLineTerminator (c : Char) : Bool :=
  c.toNat == 0x0A || c.toNat == 0x0D || c.toNat == 0x2028 || c.toNat == 0x2029

/-- The class `\s` of ECMAScript regexes, which is also the set of characters removed by
`String.prototype.trim`: WhiteSpace (TAB, VT, FF, SP, NBSP, ZWNBSP and the space
separators) and the line terminators. -/
def isSpace (c : Char) : Bool :=
  c.toNat == 0x09 || c.toNat == 0x0A || c.toNat == 0x0B || c.toNat == 0x0C ||
  c.toNat == 0x0D || c.toNat == 0x20 || c.toNat == 0xA0 || c.toNat == 0x1680 ||
  (0x2000 ≤ c.toNat && c.toNat ≤ 0x200A) ||
  c.toNat == 0x2028 || c.toNat == 0x2029 || c.toNat == 0x202F ||
  c.toNat == 0x205F || c.toNat == 0x3000 || c.toNat == 0xFEFF

/-- The class `\d`: the ten ASCII digits. -/
def isDigit (c : Char) : Bool :=
  0x30 ≤ c.toNat && c.toNat ≤ 0x39

/-- The class `[^{}]` of the placeholder regex. -/
def isBrace (c : Char) : Bool :=
  c == '{' || c == '}'

/-! ## String built-ins -/

/-- `str.replace(re, ...)` for a regex `re` with the `g` flag that never matches the
empty string.  `m s` tries the regex at the start of `s` and returns the replacement
text and the length of the match.  Matches are searched from left to right; after a
match the search resumes behind it (`skip` counts the characters of the current match
that are still to be passed over), and the replacement is not scanned again. -/
def replaceAll (m : Str → Option (Str × Nat)) : Nat → Str → Str
  | _, [] => []
  | skip + 1, _ :: cs => replaceAll m skip cs
  | 0, c :: cs =>
    match m (c :: cs) with
    | some (rep, len) => rep ++ replaceAll m (len - 1) cs
    | none => c :: replaceAll m 0 cs

/-- The regex of a single literal character `ch`, replaced by the text `rep`. -/
def matchChar (ch : Char) (rep : Str) : Str → Option (Str × Nat)
  | c :: _ => if c = ch then some (rep, 1) else none
  | [] => none

/-- `str.split(sep)` for a one-character separator. -/
def splitOn (sep : Char) : Str → List Str
  | [] => [[]]
  | c :: cs =>
    if c = sep then [] :: splitOn sep cs
    else
      match splitOn sep cs with
      | l :: ls => (c :: l) :: ls
      | [] => [[c]]

/-- `arr.join(sep)` for a one-character separator. -/
def join (sep : Char) : List Str → Str
  | [] => []
  | [l] => l
  | l :: l2 :: ls => l ++ sep :: join sep (l2 :: ls)

/-- `str.trimStart()`. -/
def trimStart (s : Str) : Str := s.dropWhile isSpace

/-- `str.trimEnd()`. -/
def trimEnd (s : Str) : Str := (s.reverse.dropWhile isSpace).reverse

/-- `str.trim()`. -/
def trim (s : Str) : Str := trimEnd (trimStart s)

/-- `str.startsWith(p)`. -/
def startsWith : Str → Str → Bool
  | _, [] => true
  | [], _ :: _ => false
  | c :: cs, p :: ps => c == p && startsWith cs ps

/-! ## `formatSummaryAsHtml` -/

/-- The three chained replacements `.replace(/&/g, '&amp;').replace(/</g, '&lt;')
.replace(/>/g, '&gt;')`. -/
def escapeHtml (s : Str) : Str :=
  replaceAll (matchChar '>' ['&', 'g', 't', ';']) 0
    (replaceAll (matchChar '<' ['&', 'l', 't', ';']) 0
      (replaceAll (matchChar '&' ['&', 'a', 'm', 'p', ';']) 0 s))

/-- The tail `.+?\*\*` of the bold regex after its first character has been taken:
the lazy quantifier stops at the first position followed by `**`, and otherwise takes
one more character that is not a line terminator.  Returns the rest of the group. -/
def boldRest : Str → Option Str
  | [] => none
  | c :: cs =>
    if startsWith (c :: cs) ['*', '*'] then some []
    else if isLineTerminator c then none
    else (boldRest cs).map (c :: ·)

/-- The regex `/\*\*(.+?)\*\*/` tried at the start of the string: the captured group. -/
def boldGroup (s : Str) : Option Str :=
  if startsWith s ['*', '*'] then
    match s.drop 2 with
    | [] => none
    | c :: cs => if isLineTerminator c then none else (boldRest cs).map (c :: ·)
  else none

/-- The bold regex with its replacement `'<strong>$1</strong>'`: the replacement text
and the length of the match. -/
def matchBold (s : Str) : Option (Str × Nat) :=
  (boldGroup s).map fun g =>
    (['<', 's', 't', 'r', 'o', 'n', 'g', '>'] ++ g ++
      ['<', '/', 's', 't', 'r', 'o', 'n', 'g', '>'], g.length + 4)

/-- The tail `\s+(.+)$` shared by the four line patterns, tried at the start of the
string: `\s+` is greedy and gives characters back one at a time, `(.+)` must then reach
the end of the line without meeting a line terminator.  Returns the group. -/
def spacesThenText : Str → Option Str
  | [] => none
  | c :: cs =>
    if isSpace c then
      match spacesThenText cs with
      | some g => some g
      | none =>
        if !cs.isEmpty && cs.all (fun d => !isLineTerminator d) then some cs else none
    else none

/-- The regex `/^###\s+(.+)$/`: the captured group. -/
def h3Match (line : Str) : Option Str :=
  if startsWith line ['#', '#', '#'] then spacesThenText (line.drop 3) else none

/-- The regex `/^##\s+(.+)$/`: the captured group. -/
def h2Match (line : Str) : Option Str :=
  if startsWith line ['#', '#'] then spacesThenText (line.drop 2) else none

/-- The regex `/^\-\s+(.+)$/`: the captured group. -/
def ulMatch (line : Str) : Option Str :=
  if startsWith line ['-'] then spacesThenText (line.drop 1) else none

/-- The part `\d*\.\s+(.+)$` of the ordered-list regex, after a first digit: `\d+` is
greedy, and a digit it gave back could not match the dot. -/
def digitsDotText : Str → Option Str
  | [] => none
  | c :: cs =>
    if isDigit c then digitsDotText cs
    else if c = '.' then spacesThenText cs
    else none

/-- The regex `/^\d+\.\s+(.+)$/`: the captured group. -/
def olMatch : Str → Option Str
  | [] => none
  | c :: cs => if isDigit c then digitsDotText cs else none

/-- The regex `/\s{2,}/` tried at the start of the string, with the replacement `' '`:
a greedy run of two or more whitespace characters. -/
def matchSpaces (s : Str) : Option (Str × Nat) :=
  if 2 ≤ (s.takeWhile isSpace).length then some ([' '], (s.takeWhile isSpace).length)
  else none

/-- `line.replace(/\s{2,}/g, ' ')`. -/
def collapseSpaces (s : Str) : Str := replaceAll matchSpaces 0 s

/-- The local variables `html`, `inUl`, `inOl` of `formatSummaryAsHtml`. -/
structure RenderState where
  html : List Str
  inUl : Bool
  inOl : Bool
deriving DecidableEq, Repr

/-- The inner function `closeLists`. -/
def closeLists (st : RenderState) : RenderState :=
  let st1 : RenderState :=
    if st.inUl then { st with html := st.html ++ [['<', '/', 'u', 'l', '>']], inUl := false }
    else st
  if st1.inOl then { st1 with html := st1.html ++ [['<', '/', 'o', 'l', '>']], inOl := false }
  else st1

/-- One iteration of the loop `for (let rawLine of lines)`. -/
def renderLine (st : RenderState) (rawLine : Str) : RenderState :=
  let line := trim rawLine
  if line.isEmpty then closeLists st
  else
    match h3Match line with
    | some g =>
      let st1 := closeLists st
      { st1 with html := st1.html ++ [['<', 'h', '3', '>'] ++ g ++ ['<', '/', 'h', '3', '>']] }
    | none =>
    match h2Match line with
    | some g =>
      let st1 := closeLists st
      { st1 with html := st1.html ++ [['<', 'h', '2', '>'] ++ g ++ ['<', '/', 'h', '2', '>']] }
    | none =>
    match ulMatch line with
    | some g =>
      let st1 : RenderState :=
        if st.inOl then { st with html := st.html ++ [['<', '/', 'o', 'l', '>']], inOl := false }
        else st
      let st2 : RenderState :=
        if !st1.inUl then { st1 with html := st1.html ++ [['<', 'u', 'l', '>']], inUl := true }
        else st1
      { st2 with html := st2.html ++ [['<', 'l', 'i', '>'] ++ g ++ ['<', '/', 'l', 'i', '>']] }
    | none =>
    match olMatch line with
    | some g =>
      let st1 : RenderState :=
        if st.inUl then { st with html := st.html ++ [['<', '/', 'u', 'l', '>']], inUl := false }
        else st
      let st2 : RenderState :=
        if !st1.inOl then { st1 with html := st1.html ++ [['<', 'o', 'l', '>']], inOl := true }
        else st1
      { st2 with html := st2.html ++ [['<', 'l', 'i', '>'] ++ g ++ ['<', '/', 'l', 'i', '>']] }
    | none =>
      let st1 := closeLists st
      { st1 with html := st1.html ++ [['<', 'p', '>'] ++ collapseSpaces line ++ ['<', '/', 'p', '>']] }

/-- The array `html` at the end of `formatSummaryAsHtml`, for the lines of the escaped
and bolded text: the loop from the empty state, then the final `closeLists()`. -/
def renderLines (lines : List Str) : List Str :=
  (closeLists (lines.foldl renderLine { html := [], inUl := false, inOl := false })).html

/-- The text after the escaping and the bold replacement. -/
def markBold (summaryText : Str) : Str :=
  replaceAll matchBold 0 (escapeHtml summaryText)

/-- `formatSummaryAsHtml(summaryText)`. -/
def formatSummaryAsHtml (summaryText : Str) : Str :=
  if summaryText.isEmpty then []
  else join '\n' (renderLines (splitOn '\n' (markBold summaryText)))

/-! ## `formatString` and the prompt -/

/-- The regex `/{([^{}]*)}/` tried at the start of the string: the captured key.  The
class `[^{}]*` is greedy, and a character it gave back could not match the closing
brace, so the key is the whole run of non-brace characters. -/
def tokenKey : Str → Option Str
  | [] => none
  | c :: cs =>
    if c = '{' then
      if startsWith (cs.dropWhile (fun d => !isBrace d)) ['}'] then
        some (cs.takeWhile (fun d => !isBrace d))
      else none
    else none

/-- The placeholder regex with the replacer `(match, key) => params[key] ?? match`.
`params key` is the value of the property access `params[key]`, `none` when that value
is `undefined` or `null`. -/
def matchToken (params : Str → Option Str) (s : Str) : Option (Str × Nat) :=
  (tokenKey s).map fun key =>
    ((params key).getD ('{' :: key ++ ['}']), key.length + 2)

/-- `formatString(str, params)`. -/
def formatString (str : Str) (params : Str → Option Str) : Str :=
  replaceAll (matchToken params) 0 str

/-- The text of the template literal of `buildSummaryPrompt` before `{title}`. -/
def promptBeforeTitle : Str :=
  "Below is the full text from a research paper titled \"".toList

/-- The text of the template literal between `{title}` and `{text}`. -/
def promptBeforeText : Str :=
  "\".\n--- START OF PAPER ---\n".toList

/-- The text of the template literal between `{text}` and `${userPromptInstructions}`. -/
def promptAfterText : Str :=
  "\n--- END OF PAPER ---\n\n".toList

/-- The fixed part of the template literal of `buildSummaryPrompt`, before
`${userPromptInstructions}`. -/
def promptSkeleton : Str :=
  promptBeforeTitle ++ ['{', 't', 'i', 't', 'l', 'e', '}'] ++ promptBeforeText ++
    ['{', 't', 'e', 'x', 't', '}'] ++ promptAfterText

/-- `buildSummaryPrompt()`, with the global `userPromptInstructions` as argument. -/
def buildSummaryPrompt (userPromptInstructions : Str) : Str :=
  promptSkeleton ++ userPromptInstructions

/-- The object literal `{ title: title, text: fulltext }` of the main program, as the
property access `params[key]`.  A key that is not an own property is looked up on
`Object.prototype`; `inherited key` is the text of what is found there, `none` when
nothing is. -/
def promptParams (inherited : Str → Option Str) (title fulltext : Str) : Str → Option Str :=
  fun key =>
    if key = ['t', 'i', 't', 'l', 'e'] then some title
    else if key = ['t', 'e', 'x', 't'] then some fulltext
    else inherited key

/-- The prompt handed to `openaiRequest` by the main program. -/
def summaryPrompt (inherited : Str → Option Str) (userPromptInstructions title fulltext : Str) :
    Str :=
  formatString (buildSummaryPrompt userPromptInstructions) (promptParams inherited title fulltext)

/-- `str.endsWith(p)`. -/
def endsWith (s p : Str) : Bool := startsWith s.reverse p.reverse

/-- A string contains a placeholder token: an opening brace, a run of characters that
are not braces, a closing brace. -/
def HasToken (s : Str) : Prop :=
  ∃ pre key post, s = pre ++ '{' :: key ++ '}' :: post ∧ ∀ c ∈ key, isBrace c = false

/-! ## A view of the line loop -/

/-- The branch that the loop of `formatSummaryAsHtml` takes for a trimmed line, with the
group captured by the regex of that branch. -/
inductive Block where
  | blank
  | heading3 (g : Str)
  | heading2 (g : Str)
  | ulItem (g : Str)
  | olItem (g : Str)
  | para (line : Str)
deriving DecidableEq, Repr

/-- The order of the tests in the loop body: blank, `h3Match`, `h2Match`, `ulMatch`,
`olMatch`, paragraph. -/
def classify (line : Str) : Block :=
  if line.isEmpty then .blank
  else
    match h3Match line with
    | some g => .heading3 g
    | none =>
    match h2Match line with
    | some g => .heading2 g
    | none =>
    match ulMatch line with
    | some g => .ulItem g
    | none =>
    match olMatch line with
    | some g => .olItem g
    | none => .para line

/-- `html.push(l)`. -/
def pushLine (st : RenderState) (l : Str) : RenderState :=
  { st with html := st.html ++ [l] }

/-- The effect of each branch of the loop body on the state. -/
def emit (st : RenderState) : Block → RenderState
  | .blank => closeLists st
  | .heading3 g => pushLine (closeLists st) (['<', 'h', '3', '>'] ++ g ++ ['<', '/', 'h', '3', '>'])
  | .heading2 g => pushLine (closeLists st) (['<', 'h', '2', '>'] ++ g ++ ['<', '/', 'h', '2', '>'])
  | .ulItem g =>
    let st1 : RenderState :=
      if st.inOl then { pushLine st ['<', '/', 'o', 'l', '>'] with inOl := false } else st
    let st2 : RenderState :=
      if !st1.inUl then { pushLine st1 ['<', 'u', 'l', '>'] with inUl := true } else st1
    pushLine st2 (['<', 'l', 'i', '>'] ++ g ++ ['<', '/', 'l', 'i', '>'])
  | .olItem g =>
    let st1 : RenderState :=
      if st.inUl then { pushLine st ['<', '/', 'u', 'l', '>'] with inUl := false } else st
    let st2 : RenderState :=
      if !st1.inOl then { pushLine st1 ['<', 'o', 'l', '>'] with inOl := true } else st1
    pushLine st2 (['<', 'l', 'i', '>'] ++ g ++ ['<', '/', 'l', 'i', '>'])
  | .para line =>
    pushLine (closeLists st) (['<', 'p', '>'] ++ collapseSpaces line ++ ['<', '/', 'p', '>'])

/-! ## Readers of the output, for the properties of its shape -/

/-- What a reader of the output lines knows about lists: none is open, or one is open,
ordered or not, with or without an item so far. -/
inductive ListMode where
  | closed
  | opened (ordered : Bool) (hasItem : Bool)
deriving DecidableEq, Repr

/-- One line read.  `none` is a malformed output: a list opened inside an open list, a
closing tag that does not close the open list or closes a list without item, an item
outside a list. -/
def readLine : Option ListMode → Str → Option ListMode
  | none, _ => none
  | some m, line =>
    if line = ['<', 'u', 'l', '>'] then
      (match m with
        | .closed => some (.opened false false)
        | .opened _ _ => none)
    else if line = ['<', 'o', 'l', '>'] then
      (match m with
        | .closed => some (.opened true false)
        | .opened _ _ => none)
    else if line = ['<', '/', 'u', 'l', '>'] then
      (if m = .opened false true then some .closed else none)
    else if line = ['<', '/', 'o', 'l', '>'] then
      (if m = .opened true true then some .closed else none)
    else if startsWith line ['<', 'l', 'i', '>'] then
      (match m with
        | .closed => none
        | .opened o _ => some (.opened o true))
    else some m

/-- The lists of an output are well formed: read line by line from the start, the
output is never malformed and ends with no list open. -/
def listsWellFormed (out : Str) : Bool :=
  (splitOn '\n' out).foldl readLine (some .closed) == some .closed

/-- The three entities written by the escaping. -/
def entities : List Str :=
  [['&', 'a', 'm', 'p', ';'], ['&', 'l', 't', ';'], ['&', 'g', 't', ';']]

/-- The tags written by `formatSummaryAsHtml`. -/
def tags : List Str :=
  [['<', 'h', '2', '>'], ['<', '/', 'h', '2', '>'], ['<', 'h', '3', '>'], ['<', '/', 'h', '3', '>'],
   ['<', 'p', '>'], ['<', '/', 'p', '>'], ['<', 'u', 'l', '>'], ['<', '/', 'u', 'l', '>'],
   ['<', 'o', 'l', '>'], ['<', '/', 'o', 'l', '>'], ['<', 'l', 'i', '>'], ['<', '/', 'l', 'i', '>'],
   ['<', 's', 't', 'r', 'o', 'n', 'g', '>'], ['<', '/', 's', 't', 'r', 'o', 'n', 'g', '>']]

/-- A tag of `tags` at the start of the string, replaced by nothing. -/
def matchTag (s : Str) : Option (Str × Nat) :=
  (tags.find? (fun t => startsWith s t)).map fun t => ([], t.length)

/-- The output with every occurrence of a tag of `tags` deleted, from left to right. -/
def stripTags (out : Str) : Str := replaceAll matchTag 0 out

/-- Every `&` of the string begins one of the entities `&amp;`, `&lt;`, `&gt;`. -/
def ampOk : Str → Bool
  | [] => true
  | c :: cs => (c != '&' || entities.any (fun e => startsWith (c :: cs) e)) && ampOk cs

/-- The function `esc` of the specification: `&`, `<`, `>` become `&amp;`, `&lt;`,
`&gt;`, character by character. -/
def escapeSpec (s : Str) : Str :=
  s.flatMap fun c =>
    if c = '&' then ['&', 'a', 'm', 'p', ';']
    else if c = '<' then ['&', 'l', 't', ';']
    else if c = '>' then ['&', 'g', 't', ';']
    else [c]

/-- A text that the renderer copies as it is: not empty, no whitespace at its ends,
none of the characters `&`, `<`, `>`, `*`, no line terminator. -/
def PlainText (t : Str) : Prop :=
  t ≠ [] ∧ trim t = t ∧
    ∀ c ∈ t, c ≠ '&' ∧ c ≠ '<' ∧ c ≠ '>' ∧ c ≠ '*' ∧ isLineTerminator c = false

/-- What a reader of `st.html` knows at its end, if the flags of `st` tell the truth. -/
def modeOf (st : RenderState) : ListMode :=
  if st.inUl then .opened false true
  else if st.inOl then .opened true true
  else .closed

/-- The characters that the line patterns take off in front of the group. -/
def isMarker (c : Char) : Bool :=
  c == '#' || c == '-' || c == '.' || isDigit c || isSpace c

/-- The text that a branch of the loop puts between its tags. -/
def blockText : Block → Str
  | .blank => []
  | .heading3 g => g
  | .heading2 g => g
  | .ulItem g => g
  | .olItem g => g
  | .para line => collapseSpaces line

/-- The element line that a branch of the loop pushes, if it pushes one. -/
def elementOf : Block → Option Str
  | .blank => none
  | .heading3 g => some (['<', 'h', '3', '>'] ++ g ++ ['<', '/', 'h', '3', '>'])
  | .heading2 g => some (['<', 'h', '2', '>'] ++ g ++ ['<', '/', 'h', '2', '>'])
  | .ulItem g => some (['<', 'l', 'i', '>'] ++ g ++ ['<', '/', 'l', 'i', '>'])
  | .olItem g => some (['<', 'l', 'i', '>'] ++ g ++ ['<', '/', 'l', 'i', '>'])
  | .para line => some (['<', 'p', '>'] ++ collapseSpaces line ++ ['<', '/', 'p', '>'])

/-- The lines that open and close the lists. -/
def listTags : List Str :=
  [['<', 'u', 'l', '>'], ['<', '/', 'u', 'l', '>'], ['<', 'o', 'l', '>'], ['<', '/', 'o', 'l', '>']]

/-- A text made of characters other than `<`, `>`, `&`, of whole entities and of whole
tags, one after the other. -/
inductive Marked : Str → Prop
  | nil : Marked []
  | chr (c : Char) (t : Str) : c ≠ '<' → c ≠ '>' → c ≠ '&' → Marked t → Marked (c :: t)
  | tok (e t : Str) : e ∈ entities ++ tags → Marked t → Marked (e ++ t)

/-! ## The host objects and the main program -/

/-- `str.length`: the number of UTF-16 code units. -/
def utf16Length (s : Str) : Nat :=
  (s.map fun c => if c.toNat < 0x10000 then 1 else 2).sum

/-- The part `$...` of a replacement text of `str.replace(pattern, replacement)` for a
string pattern: `$$` is a dollar sign, `$&` the matched text, a dollar sign with a
backtick the text before the match, a dollar sign with an apostrophe the text after it.
A string pattern has no capture group, so every other text stands for itself. -/
def expandReplacement (before matched after : Str) : Str → Str
  | [] => []
  | [c] => [c]
  | c :: d :: r =>
    if c = '$' then
      if d = '$' then '$' :: expandReplacement before matched after r
      else if d = '&' then matched ++ expandReplacement before matched after r
      else if d = Char.ofNat 96 then before ++ expandReplacement before matched after r
      else if d = Char.ofNat 39 then after ++ expandReplacement before matched after r
      else c :: expandReplacement before matched after (d :: r)
    else c :: expandReplacement before matched after (d :: r)

/-- The first occurrence of `pat` in the string: the texts before and after it. -/
def findFirst (pat : Str) : Str → Option (Str × Str)
  | [] => if pat.isEmpty then some ([], []) else none
  | c :: cs =>
    if startsWith (c :: cs) pat then some ([], (c :: cs).drop pat.length)
    else (findFirst pat cs).map fun p => (c :: p.1, p.2)

/-- `str.replace(pat, rep)` for a string pattern: the first occurrence only. -/
def replaceFirst (s pat rep : Str) : Str :=
  match findFirst pat s with
  | none => s
  | some (before, after) => before ++ expandReplacement before pat after rep ++ after

/-- The configuration variables read by the main program.  `skipExistingCheck` is
`none` when the variable is not declared or is not a boolean. -/
structure Config where
  modelName : Str
  headerTemplate : Str
  userPromptInstructions : Str
  skipExistingCheck : Option Bool

/-- `headerTemplate.replace("{{modelName}}", modelName)`. -/
def headerOf (cfg : Config) : Str :=
  replaceFirst cfg.headerTemplate
    ['{', '{', 'm', 'o', 'd', 'e', 'l', 'N', 'a', 'm', 'e', '}', '}'] cfg.modelName

/-- What the script reads of a Zotero item.  `attachmentText` is the outcome of awaiting
`attachment.attachmentText`: an error when the promise is rejected, the text otherwise
(the empty text also for `null` and `undefined`).  `parentID` is
`parentID || parentItemID` when that is a number, `none` when it is `undefined`, `null`
or `false`; the number 0 is falsy like these.  `note` is `getNote()` when that is a
string. -/
structure Item where
  id : Nat
  libraryID : Nat
  isRegularItem : Bool
  isTopLevelItem : Bool
  isAttachment : Bool
  attachments : List Nat
  attachmentContentType : Str
  attachmentText : Except Str Str
  parentID : Option Nat
  title : Str
  notes : List Nat
  note : Option Str

/-- The object returned by `resolveTargetAndFulltext`. -/
structure Target where
  attachment : Item
  noteParent : Item
  fulltext : Str

/-- `isSupportedAttachment(attachment)`. -/
def isSupportedAttachment (attachment : Option Item) : Bool :=
  match attachment with
  | none => false
  | some a =>
    a.attachmentContentType = "application/pdf".toList ||
      a.attachmentContentType = "text/html".toList

/-- `getAttachmentFulltext(attachment)`; `none` is `null`. -/
def getAttachmentFulltext (attachment : Option Item) : Option Str :=
  if !isSupportedAttachment attachment then none
  else
    match attachment with
    | none => none
    | some a =>
      match a.attachmentText with
      | .ok text =>
        if !text.isEmpty && 0 < utf16Length (trim text) then some (trim text) else none
      | .error _ => none

/-- The loop `for (let id of attachmentIDs)` of `resolveTargetAndFulltext`: the first
attachment that is supported and has text, with its text. -/
def firstWithText (get : Nat → Option Item) : List Nat → Option (Item × Str)
  | [] => none
  | id :: ids =>
    match get id with
    | none => firstWithText get ids
    | some a =>
      if !isSupportedAttachment (some a) then firstWithText get ids
      else
        match getAttachmentFulltext (some a) with
        | none => firstWithText get ids
        | some text => if text.isEmpty then firstWithText get ids else some (a, text)

/-- `resolveTargetAndFulltext(selectedItem)`; `get` is `Zotero.Items.get`, an error is
the message of the `Error` thrown.  `parentItem` is
`parentID ? Zotero.Items.get(parentID) : null`: no look-up for a falsy `parentID`. -/
def resolveTargetAndFulltext (get : Nat → Option Item) (selectedItem : Option Item) :
    Except Str Target :=
  match selectedItem with
  | none => .error "No item selected.".toList
  | some sel =>
    if sel.isRegularItem && sel.isTopLevelItem then
      if sel.attachments.isEmpty then
        .error "No attachments found on the selected item.".toList
      else
        match firstWithText get sel.attachments with
        | some (a, text) => .ok { attachment := a, noteParent := sel, fulltext := text }
        | none => .error "No extractable PDF/HTML text found on the selected item.".toList
    else if sel.isAttachment then
      if !isSupportedAttachment (some sel) then
        .error "Please select a PDF/HTML attachment or a top-level regular item.".toList
      else
        let parentItem : Option Item :=
          match sel.parentID with
          | some pid => if pid = 0 then none else get pid
          | none => none
        match getAttachmentFulltext (some sel) with
        | some text =>
          if text.isEmpty then
            .error ("No extractable text found in the selected attachment. " ++
              "It may not be indexed yet by Zotero.").toList
          else .ok { attachment := sel, noteParent := parentItem.getD sel, fulltext := text }
        | none =>
          .error ("No extractable text found in the selected attachment. " ++
            "It may not be indexed yet by Zotero.").toList
    else .error "Please select a top-level regular item or a PDF/HTML attachment.".toList

/-- The title put into the prompt: the title of the note parent, else the title of the
attachment, else `Untitled Item`. -/
def pickTitle (noteParent attachment : Item) : Str :=
  let t1 := noteParent.title
  let t2 := if t1.isEmpty || (trim t1).isEmpty then attachment.title else t1
  if t2.isEmpty || (trim t2).isEmpty then "Untitled Item".toList else t2

/-- The loop of the duplicate check: some note of `noteIds` has a content that starts
with `header`. -/
def summaryExists (get : Nat → Option Item) (header : Str) (noteIds : List Nat) : Bool :=
  noteIds.any fun id =>
    match get id with
    | none => false
    | some note =>
      match note.note with
      | none => false
      | some content => startsWith content header

/-- The note given to `saveTx`. -/
structure NewNote where
  content : Str
  parentID : Nat
  libraryID : Nat
deriving DecidableEq

/-- How a run of the script ends. -/
inductive Outcome where
  | notRun
  | alreadyExists
  | done
  | failed (message : Str)
deriving DecidableEq

/-- What a run of the script does: how it ends, the prompts given to `openaiRequest`,
the notes saved. -/
structure Run where
  outcome : Outcome
  prompts : List Str
  notes : List NewNote
deriving DecidableEq

/-- The `catch` of the main program: the message shown is `Error: ` and the message of
the error. -/
def failWith (message : Str) (prompts : List Str) : Run :=
  { outcome := .failed ("Error: ".toList ++ message), prompts := prompts, notes := [] }

/-- The main program.  `item` is the selected item, `get` is `Zotero.Items.get`,
`openaiRequest prompt` is the outcome of the call `openaiRequest(prompt)`: the text
returned or the message of the error thrown.  The progress window is left out. -/
def mainProgram (cfg : Config) (inherited : Str → Option Str) (get : Nat → Option Item)
    (openaiRequest : Str → Except Str Str) (item : Option Item) : Run :=
  match item with
  | none => { outcome := .notRun, prompts := [], notes := [] }
  | some _ =>
    match resolveTargetAndFulltext get item with
    | .error message => failWith message []
    | .ok target =>
      let title := pickTitle target.noteParent target.attachment
      let summaryExist :=
        if cfg.skipExistingCheck = some true then false
        else summaryExists get (headerOf cfg) target.noteParent.notes
      if summaryExist then { outcome := .alreadyExists, prompts := [], notes := [] }
      else if target.fulltext.isEmpty || utf16Length (trim target.fulltext) = 0 then
        failWith ("No PDF text found. The PDF may not have been indexed yet by Zotero. " ++
          "Please wait a few minutes and try again.").toList []
      else if utf16Length (trim target.fulltext) < 100 then
        failWith ("Extracted text is too short (".toList ++
          (Nat.repr (utf16Length target.fulltext)).toList ++
          (" characters). The PDF may not have been properly indexed by Zotero yet. " ++
            "Please wait a few minutes and try again.").toList) []
      else
        let prompt := summaryPrompt inherited cfg.userPromptInstructions title target.fulltext
        match openaiRequest prompt with
        | .error message => failWith message [prompt]
        | .ok summaryText =>
          { outcome := .done, prompts := [prompt],
            notes := [{ content := headerOf cfg ++ '\n' :: formatSummaryAsHtml summaryText,
                        parentID := target.noteParent.id,
                        libraryID := target.noteParent.libraryID }] }

/-! ## The LLM client -/

/-- A JavaScript number.  The script only copies numbers and puts them into texts, so a
number is given by the text that `Number.prototype.toString` writes for it (`0.3`,
`4096`, `NaN`). -/
structure JsNumber where
  text : Str
deriving DecidableEq

/-- A value made by `JSON.parse`, or given to `JSON.stringify`.  The properties of an
object are listed with their names. -/
inductive Json where
  | null
  | bool (b : Bool)
  | num (n : JsNumber)
  | str (s : Str)
  | arr (items : List Json)
  | obj (props : List (Str × Json))

/-- The property access `v.key` for a value `v` that is not `null` and a name `key` that
no prototype has (`choices`, `message`, `content`, `detail`, `error`): the own property
of an object, `undefined` (here `none`) on every other value. -/
def Json.prop (key : Str) : Json → Option Json
  | .obj props => props.lookup key
  | _ => none

/-- The optional chaining `v?.key`: `undefined` when `v` is `undefined` or `null`. -/
def Json.optProp (key : Str) : Option Json → Option Json
  | none => none
  | some .null => none
  | some v => v.prop key

/-- The truthiness of a value. -/
def Json.truthy : Json → Bool
  | .null => false
  | .bool b => b
  | .num n => n.text != ['0'] && n.text != ['N', 'a', 'N']
  | .str s => !s.isEmpty
  | .arr _ => true
  | .obj _ => true

mutual
/-- The conversion of a value to a string in a template literal; `none` is the
`TypeError` for an object that cannot be converted (it has an own property
`toString`, which is not a function). -/
def Json.toStr : Json → Option Str
  | .null => some ['n', 'u', 'l', 'l']
  | .bool b => some (if b then ['t', 'r', 'u', 'e'] else ['f', 'a', 'l', 's', 'e'])
  | .num n => some n.text
  | .str s => some s
  | .arr items => Json.joinStr items
  | .obj props =>
    if props.any (fun p => p.1 == ['t', 'o', 'S', 't', 'r', 'i', 'n', 'g']) then none
    else some "[object Object]".toList
/-- The text of `Array.prototype.join` with a comma: `null` gives the empty text. -/
def Json.joinStr : List Json → Option Str
  | [] => some []
  | [.null] => some []
  | [x] => Json.toStr x
  | .null :: y :: r => (Json.joinStr (y :: r)).map (',' :: ·)
  | x :: y :: r =>
    match Json.toStr x, Json.joinStr (y :: r) with
    | some a, some b => some (a ++ ',' :: b)
    | _, _ => none
end

/-- The configuration variables read by `openaiRequest`, besides `modelName`.  The
optional ones are `none` when the variable is not declared or is not a number. -/
structure LlmConfig where
  openaiBaseUrl : Str
  apiKey : Str
  temperature : Option JsNumber
  maxTokens : Option JsNumber
  topP : Option JsNumber

/-- The assignment `o.key = v` on the properties of an object: the value of an existing
property is replaced, a new property is added at the end. -/
def setProp (key : Str) (v : Json) : List (Str × Json) → List (Str × Json)
  | [] => [(key, v)]
  | p :: ps => if p.1 = key then (key, v) :: ps else p :: setProp key v ps

/-- The object `payload` of `openaiRequest` at the time of the `fetch`: the object
literal, then the three conditional assignments. -/
def buildPayload (modelName : Str) (llm : LlmConfig) (message : Str) : List (Str × Json) :=
  let payload : List (Str × Json) :=
    [("model".toList, .str modelName),
     ("messages".toList,
       .arr [.obj [("role".toList, .str "user".toList), ("content".toList, .str message)]]),
     ("temperature".toList, .num ⟨"0.3".toList⟩)]
  let payload1 :=
    match llm.temperature with
    | some t => setProp "temperature".toList (.num t) payload
    | none => payload
  let payload2 :=
    match llm.maxTokens with
    | some n => setProp "max_tokens".toList (.num n) payload1
    | none => payload1
  match llm.topP with
  | some p => setProp "top_p".toList (.num p) payload2
  | none => payload2

/-- The arguments of the call of `fetch`; `body` is the value given to
`JSON.stringify`. -/
structure FetchRequest where
  url : Str
  method : Str
  headers : List (Str × Str)
  body : Json

/-- What the script reads of the response: `json` is the outcome of `response.json()`,
an error when the body is not valid JSON. -/
structure FetchResponse where
  ok : Bool
  status : Nat
  statusText : Str
  json : Except Str Json

/-- A value thrown by `openaiRequest`: an `Error` made by the script, with its message,
or a `TypeError` raised by the engine. -/
inductive Thrown where
  | error (message : Str)
  | typeError

/-- The request that `openaiRequest(message)` sends. -/
def requestOf (cfg : Config) (llm : LlmConfig) (message : Str) : FetchRequest :=
  { url := llm.openaiBaseUrl ++ "/chat/completions".toList,
    method := "POST".toList,
    headers := [("Authorization".toList, "Bearer ".toList ++ llm.apiKey),
                ("Content-Type".toList, "application/json".toList)],
    body := .obj (buildPayload cfg.modelName llm message) }

/-- The variable `message` of the branch `!response.ok`:
`data.detail || data.error?.message`, `undefined` (here `none`) when `response.json()`
or the property access fails. -/
def errorDetail (json : Except Str Json) : Option Json :=
  match json with
  | .error _ => none
  | .ok .null => none
  | .ok data =>
    match data.prop "detail".toList with
    | some d =>
      if d.truthy then some d
      else Json.optProp "message".toList (data.prop "error".toList)
    | none => Json.optProp "message".toList (data.prop "error".toList)

/-- The validation of the parsed body, from `Array.isArray(result.choices)` on. -/
def contentOf (result : Json) : Except Thrown Str :=
  match result with
  | .null => .error .typeError
  | _ =>
    match result.prop "choices".toList with
    | some (.arr (first :: _)) =>
      match Json.optProp "content".toList (Json.optProp "message".toList (some first)) with
      | some (.str content) =>
        if utf16Length (trim content) = 0 then
          .error (.error "Invalid LLM response: missing choices[0].message.content.".toList)
        else .ok content
      | _ => .error (.error "Invalid LLM response: missing choices[0].message.content.".toList)
    | _ => .error (.error "Invalid LLM response: missing choices.".toList)

/-- `openaiRequest(message)`; `fetch` is the outcome of the call of `fetch`, an error
with its message when the promise is rejected. -/
def openaiRequest (cfg : Config) (llm : LlmConfig)
    (fetch : FetchRequest → Except Str FetchResponse) (message : Str) : Except Thrown Str :=
  match fetch (requestOf cfg llm message) with
  | .error e =>
    .error (.error ("Network error while calling ".toList ++ llm.openaiBaseUrl ++
      ": ".toList ++ e))
  | .ok response =>
    if !response.ok then
      let head := llm.openaiBaseUrl ++ " HTTP Error: ".toList ++
        (Nat.repr response.status).toList ++ ' ' :: response.statusText
      match errorDetail response.json with
      | none => .error (.error head)
      | some d =>
        if d.truthy then
          match d.toStr with
          | some text => .error (.error (head ++ " - ".toList ++ text))
          | none => .error .typeError
        else .error (.error head)
    else
      match response.json with
      | .error e =>
        .error (.error ("Error when parsing json of ".toList ++ llm.openaiBaseUrl ++
          "/chat/completions: ".toList ++ e))
      | .ok result => contentOf result

/-- A candidate of the attachment loop that gives no text: its id names no item, or its
content type is neither pdf nor html, or its extracted text is empty or all whitespace,
or the extraction raises. -/
def NoText (get : Nat → Option Item) (id : Nat) : Prop :=
  ∀ a, get id = some a →
    ¬ (a.attachmentContentType = "application/pdf".toList ∨
        a.attachmentContentType = "text/html".toList) ∨
    (∃ t, a.attachmentText = .ok t ∧ trim t = []) ∨
    (∃ e, a.attachmentText = .error e)

/-! ## Items for the examples -/

/-- An attachment that is not supported, for the examples. -/
def exampleOther : Item :=
  { id := 11, libraryID := 1, isRegularItem := false, isTopLevelItem := false,
    isAttachment := true, attachments := [], attachmentContentType := "image/png".toList,
    attachmentText := .ok "ignored".toList, parentID := some 1, title := [], notes := [],
    note := none }

/-- A pdf attachment with an empty text, for the examples. -/
def exampleEmptyPdf : Item :=
  { id := 12, libraryID := 1, isRegularItem := false, isTopLevelItem := false,
    isAttachment := true, attachments := [], attachmentContentType := "application/pdf".toList,
    attachmentText := .ok [], parentID := some 1, title := [], notes := [], note := none }

/-- A pdf attachment with a text, for the examples. -/
def examplePdf : Item :=
  { id := 13, libraryID := 1, isRegularItem := false, isTopLevelItem := false,
    isAttachment := true, attachments := [], attachmentContentType := "application/pdf".toList,
    attachmentText := .ok " hello world... ".toList, parentID := some 1, title := [],
    notes := [], note := none }

/-- A top-level record with the attachments `ids`, for the examples. -/
def exampleRecord (ids : List Nat) : Item :=
  { id := 1, libraryID := 1, isRegularItem := true, isTopLevelItem := true,
    isAttachment := false, attachments := ids, attachmentContentType := [],
    attachmentText := .ok [], parentID := none, title := "A paper".toList, notes := [],
    note := none }

/-- The items of the examples by their ids. -/
def exampleItems (id : Nat) : Option Item :=
  if id = 11 then some exampleOther
  else if id = 12 then some exampleEmptyPdf
  else if id = 13 then some examplePdf
  else none

/-- A configuration for the examples: the header template of the script. -/
def exampleConfig : Config :=
  { modelName := "qwen-flash".toList,
    headerTemplate := "<h2>AI Generated Summary (\x7b\x7bmodelName\x7d\x7d)</h2>".toList,
    userPromptInstructions := "Please summarise.".toList,
    skipExistingCheck := none }

/-- A note with the given content, for the examples. -/
def exampleNote (content : Str) : Item :=
  { id := 21, libraryID := 1, isRegularItem := false, isTopLevelItem := false,
    isAttachment := false, attachments := [], attachmentContentType := [],
    attachmentText := .ok [], parentID := some 2, title := [], notes := [],
    note := some content }

/-- A top-level record with the pdf attachment of the examples and one note, for the
examples. -/
def exampleRecordWithNote : Item :=
  { id := 2, libraryID := 1, isRegularItem := true, isTopLevelItem := true,
    isAttachment := false, attachments := [13], attachmentContentType := [],
    attachmentText := .ok [], parentID := none, title := "A paper".toList, notes := [21],
    note := none }

/-- The items of the examples, with a note of the given content. -/
def exampleItemsWithNote (content : Str) (id : Nat) : Option Item :=
  if id = 21 then some (exampleNote content) else exampleItems id

/-- A pdf attachment with a text of 120 characters, for the examples. -/
def exampleLongPdf : Item :=
  { id := 14, libraryID := 1, isRegularItem := false, isTopLevelItem := false,
    isAttachment := true, attachments := [], attachmentContentType := "application/pdf".toList,
    attachmentText := .ok (List.replicate 120 'x'), parentID := some 3, title := [],
    notes := [], note := none }

/-- A top-level record with the long pdf attachment and the notes `notes`, for the
examples. -/
def exampleLongRecord (notes : List Nat) : Item :=
  { id := 3, libraryID := 1, isRegularItem := true, isTopLevelItem := true,
    isAttachment := false, attachments := [14], attachmentContentType := [],
    attachmentText := .ok [], parentID := none, title := "A paper".toList, notes := notes,
    note := none }

/-- The items of the examples with the long pdf attachment and, when a content is
given, a note of that content. -/
def exampleLongItems (content : Option Str) (id : Nat) : Option Item :=
  if id = 14 then some exampleLongPdf
  else if id = 21 then content.map exampleNote
  else none

/-! ## The script as a whole -/

/-- The first statement of the main program on the base URL:
`if (openaiBaseUrl.endsWith('/')) openaiBaseUrl = openaiBaseUrl.slice(0, -1)`. -/
def normalizeBaseUrl (openaiBaseUrl : Str) : Str :=
  if endsWith openaiBaseUrl ['/'] then openaiBaseUrl.dropLast else openaiBaseUrl

/-- The text that the `catch` of the main program shows for a thrown value:
`error.message` when it is not empty, `String(error)` otherwise.  `typeErrorMessage` is
the message that the engine gives to its `TypeError`. -/
def Thrown.shown (typeErrorMessage : Str) : Thrown → Str
  | .error message => if message.isEmpty then "Error".toList else message
  | .typeError =>
    if typeErrorMessage.isEmpty then "TypeError".toList else typeErrorMessage

/-- The configuration that `openaiRequest` reads once the main program has normalised
the base URL. -/
def normalizedLlm (llm : LlmConfig) : LlmConfig :=
  { llm with openaiBaseUrl := normalizeBaseUrl llm.openaiBaseUrl }

/-- The script: the main program with the base URL normalised and with the function
`openaiRequest` of the script as LLM client; `fetch` is the network. -/
def runScript (cfg : Config) (llm : LlmConfig) (typeErrorMessage : Str)
    (inherited : Str → Option Str) (get : Nat → Option Item)
    (fetch : FetchRequest → Except Str FetchResponse) (item : Option Item) : Run :=
  mainProgram cfg inherited get
    (fun prompt =>
      match openaiRequest cfg (normalizedLlm llm) fetch prompt with
      | .ok summaryText => .ok summaryText
      | .error thrown => .error (thrown.shown typeErrorMessage))
    item

/-! ## Readers of the output, for the paragraph rule and the count of lines -/

/-- The words of the specification for the paragraph text: each run of two or more
characters of the class `p` becomes one space, every other character stays.  `inRun`
tells that the character before belongs to a run that has been replaced. -/
def collapseRuns (p : Char → Bool) : Bool → Str → Str
  | _, [] => []
  | inRun, c :: cs =>
    if p c then
      if inRun then collapseRuns p true cs
      else
        match cs with
        | [] => [c]
        | d :: _ => if p d then ' ' :: collapseRuns p true cs else c :: collapseRuns p false cs
    else c :: collapseRuns p false cs

/-- A line of the output that is an element: it starts with `<h2>`, `<h3>`, `<li>` or
`<p>`. -/
def isElementLine (l : Str) : Bool :=
  startsWith l ['<', 'h', '2', '>'] || startsWith l ['<', 'h', '3', '>'] ||
    startsWith l ['<', 'l', 'i', '>'] || startsWith l ['<', 'p', '>']

/-- The element lines of an output, in their order. -/
def elementLines (out : Str) : List Str :=
  (splitOn '\n' out).filter isElementLine

/-- The lines of an input that are not blank after trimming, in their order. -/
def nonBlankLines (s : Str) : List Str :=
  (splitOn '\n' s).filter fun l => !(trim l).isEmpty

/-- The element that `formatSummaryAsHtml` makes of one line of its input: the line is
escaped and bolded, trimmed, and goes through the branches of the loop. -/
def elementOfLine (l : Str) : Option Str :=
  elementOf (classify (trim (markBold l)))

/-! ## The inherited properties of the parameters, and the header placeholder -/

/-- The text of a built-in function `name`, `String(f)`.  ECMAScript fixes the shape
`function name() { [native code] }` and leaves the white space to the engine; this is
the text that the engine of Zotero (SpiderMonkey) gives. -/
def nativeFunctionText (name : Str) : Str :=
  "function ".toList ++ name ++ "() \x7b\n    [native code]\n\x7d".toList

/-- What the property access `params[key]` finds for a key that is not an own property
of an object literal: the properties of `Object.prototype`, as the text that `replace`
makes of the value returned by the replacer.  `__proto__` is `Object.prototype` itself,
whose text is `[object Object]`; `constructor` is the function `Object`; the other ten
are the methods of `Object.prototype`, functions named like the key. -/
def objectPrototype (key : Str) : Option Str :=
  if key = "__proto__".toList then some "[object Object]".toList
  else if key = "constructor".toList then some (nativeFunctionText "Object".toList)
  else if key ∈ ["hasOwnProperty".toList, "isPrototypeOf".toList,
      "propertyIsEnumerable".toList, "toLocaleString".toList, "toString".toList,
      "valueOf".toList, "__defineGetter__".toList, "__defineSetter__".toList,
      "__lookupGetter__".toList, "__lookupSetter__".toList] then
    some (nativeFunctionText key)
  else none

/-- The own properties of the object literal `{ title: title, text: fulltext }`. -/
def promptParamKeys : List Str := ["title".toList, "text".toList]

/-- The placeholder of the header template, `{{modelName}}`. -/
def modelNamePlaceholder : Str := "\x7b\x7bmodelName\x7d\x7d".toList

/-- The first occurrence of `pat` in `s` stands between `pre` and `post`. -/
def FirstOccurrence (pat s pre post : Str) : Prop :=
  s = pre ++ pat ++ post ∧ ∀ a b : Str, s = a ++ pat ++ b → pre.length ≤ a.length

/-- The configuration of the examples with a model name that holds the pattern `$$`. -/
def exampleDollarConfig : Config :=
  { modelName := "gpt$$4".toList,
    headerTemplate := "<h2>AI Generated Summary (\x7b\x7bmodelName\x7d\x7d)</h2>".toList,
    userPromptInstructions := "Please summarise.".toList,
    skipExistingCheck := none }

/-! ## Lemmas on the string built-ins -/

theorem replaceAll_skip (m : Str → Option (Str × Nat)) (k : Nat) (s : Str) :
    replaceAll m k s = replaceAll m 0 (s.drop k) := by
  induction k generalizing s with
  | zero => simp
  | succ k ih =>
    cases s with
    | nil => simp [replaceAll]
    | cons c cs => simp only [replaceAll, List.drop_succ_cons]; exact ih cs

theorem replaceAll_none (m : Str → Option (Str × Nat)) (c : Char) (cs : Str)
    (h : m (c :: cs) = none) : replaceAll m 0 (c :: cs) = c :: replaceAll m 0 cs := by
  simp [replaceAll, h]

theorem replaceAll_some (m : Str → Option (Str × Nat)) (c : Char) (cs rep : Str) (len : Nat)
    (h : m (c :: cs) = some (rep, len)) :
    replaceAll m 0 (c :: cs) = rep ++ replaceAll m 0 (cs.drop (len - 1)) := by
  simp only [replaceAll, h]
  rw [replaceAll_skip]

theorem replaceAll_append_of_none (m : Str → Option (Str × Nat)) (a b : Str)
    (h : ∀ c ∈ a, ∀ t, m (c :: t) = none) :
    replaceAll m 0 (a ++ b) = a ++ replaceAll m 0 b := by
  induction a with
  | nil => rfl
  | cons c a ih =>
    rw [List.cons_append, replaceAll_none m c (a ++ b) (h c (List.mem_cons_self _ _) _),
      ih (fun d hd t => h d (List.mem_cons_of_mem _ hd) t), List.cons_append]

theorem replaceAll_nil (m : Str → Option (Str × Nat)) (k : Nat) : replaceAll m k [] = [] := by
  cases k <;> rfl

theorem replaceAll_of_none (m : Str → Option (Str × Nat)) (a : Str)
    (h : ∀ c ∈ a, ∀ t, m (c :: t) = none) : replaceAll m 0 a = a := by
  have := replaceAll_append_of_none m a [] h
  simpa [replaceAll_nil] using this

theorem replaceAll_of_suffix_none (m : Str → Option (Str × Nat)) (s : Str)
    (h : ∀ t, t <:+ s → m t = none) : replaceAll m 0 s = s := by
  induction s with
  | nil => rfl
  | cons c cs ih =>
    rw [replaceAll_none m c cs (h _ (List.suffix_refl _)),
      ih (fun t ht => h t (ht.trans (List.suffix_cons c cs)))]

/-! ## Lemmas on the placeholder regex -/

theorem tokenKey_of_ne (c : Char) (t : Str) (h : c ≠ '{') : tokenKey (c :: t) = none := by
  simp [tokenKey, h]

theorem takeWhile_notBrace_append (key : Str) (c : Char) (post : Str)
    (hkey : ∀ d ∈ key, isBrace d = false) (hc : isBrace c = true) :
    (key ++ c :: post).takeWhile (fun d => !isBrace d) = key := by
  induction key with
  | nil => simp [List.takeWhile, hc]
  | cons d key ih =>
    have hd : isBrace d = false := hkey d (List.mem_cons_self _ _)
    simp [List.takeWhile, hd, ih (fun e he => hkey e (List.mem_cons_of_mem _ he))]

theorem dropWhile_notBrace_append (key : Str) (c : Char) (post : Str)
    (hkey : ∀ d ∈ key, isBrace d = false) (hc : isBrace c = true) :
    (key ++ c :: post).dropWhile (fun d => !isBrace d) = c :: post := by
  induction key with
  | nil => simp [List.dropWhile, hc]
  | cons d key ih =>
    have hd : isBrace d = false := hkey d (List.mem_cons_self _ _)
    simp [List.dropWhile, hd, ih (fun e he => hkey e (List.mem_cons_of_mem _ he))]

theorem tokenKey_token (key post : Str) (hkey : ∀ d ∈ key, isBrace d = false) :
    tokenKey ('{' :: (key ++ '}' :: post)) = some key := by
  have hc : isBrace '}' = true := by decide
  simp [tokenKey, takeWhile_notBrace_append key '}' post hkey hc,
    dropWhile_notBrace_append key '}' post hkey hc, startsWith]

theorem startsWith_singleton (s : Str) (c : Char) :
    startsWith s [c] = true ↔ ∃ t, s = c :: t := by
  cases s with
  | nil => simp [startsWith]
  | cons d t =>
    simp only [startsWith, Bool.and_true, beq_iff_eq, List.cons.injEq]
    constructor
    · intro h
      exact ⟨t, h, rfl⟩
    · rintro ⟨_, h, _⟩
      exact h

theorem tokenKey_some (s key : Str) (h : tokenKey s = some key) :
    (∃ post, s = '{' :: key ++ '}' :: post) ∧ ∀ d ∈ key, isBrace d = false := by
  cases s with
  | nil => simp [tokenKey] at h
  | cons c cs =>
    simp only [tokenKey] at h
    split at h
    · rename_i hc
      split at h
      · rename_i hs
        obtain ⟨post, hpost⟩ := (startsWith_singleton _ _).1 hs
        have hk : cs.takeWhile (fun d => !isBrace d) = key := by simpa using h
        refine ⟨⟨post, ?_⟩, ?_⟩
        · rw [hc, ← hk, List.cons_append, ← hpost, List.takeWhile_append_dropWhile]
        · intro d hd
          rw [← hk] at hd
          simpa using List.mem_takeWhile_imp hd
      · simp at h
    · simp at h

theorem matchToken_of_notBrace (params : Str → Option Str) (c : Char) (t : Str)
    (h : isBrace c = false) : matchToken params (c :: t) = none := by
  have : c ≠ '{' := by
    intro hc
    rw [hc] at h
    exact absurd h (by decide)
  simp [matchToken, tokenKey_of_ne c t this]

theorem takeWhile_append_stop {α : Type} (p : α → Bool) (l : List α) (x : α) (r : List α)
    (hx : p x = false) : (l ++ x :: r).takeWhile p = l.takeWhile p := by
  induction l with
  | nil => simp [List.takeWhile, hx]
  | cons d l ih =>
    by_cases hd : p d = true
    · simp [List.takeWhile, hd, ih]
    · simp [List.takeWhile, hd]

theorem dropWhile_append_stop {α : Type} (p : α → Bool) (l : List α) (x : α) (r : List α)
    (hx : p x = false) : (l ++ x :: r).dropWhile p = l.dropWhile p ++ x :: r := by
  induction l with
  | nil => simp [List.dropWhile, hx]
  | cons d l ih =>
    by_cases hd : p d = true
    · simp [List.dropWhile, hd, ih]
    · simp [List.dropWhile, hd]

theorem tokenKey_append_open (c : Char) (a b : Str) :
    tokenKey (c :: a ++ '{' :: b) = tokenKey (c :: a) := by
  have hx : (!isBrace '{') = false := by decide
  simp only [List.cons_append, tokenKey, takeWhile_append_stop (fun d => !isBrace d) a '{' b hx,
    dropWhile_append_stop (fun d => !isBrace d) a '{' b hx]
  cases a.dropWhile (fun d => !isBrace d) with
  | nil => simp [startsWith]
  | cons d t => simp [startsWith]

theorem tokenKey_length (s key : Str) (h : tokenKey s = some key) :
    key.length + 2 ≤ s.length := by
  obtain ⟨⟨post, hpost⟩, _⟩ := tokenKey_some s key h
  rw [hpost]
  simp only [List.length_cons, List.length_append]
  omega

theorem formatString_append_open (params : Str → Option Str) (a b : Str) :
    formatString (a ++ '{' :: b) params
      = formatString a params ++ formatString ('{' :: b) params := by
  unfold formatString
  generalize hn : a.length = n
  induction n using Nat.strong_induction_on generalizing a with
  | _ n ih =>
    cases a with
    | nil => simp [replaceAll]
    | cons c a =>
      cases hk : tokenKey (c :: a) with
      | none =>
        have h1 : matchToken params (c :: a) = none := by simp [matchToken, hk]
        have h2 : matchToken params (c :: (a ++ '{' :: b)) = none := by
          have := tokenKey_append_open c a b
          simp only [List.cons_append] at this
          simp [matchToken, this, hk]
        rw [List.cons_append, replaceAll_none _ c _ h2, replaceAll_none _ c _ h1,
          ih a.length (by simp at hn; omega) a rfl, List.cons_append]
      | some key =>
        have hlen := tokenKey_length _ _ hk
        have h1 : matchToken params (c :: a)
            = some ((params key).getD ('{' :: key ++ ['}']), key.length + 2) := by
          simp [matchToken, hk]
        have h2 : matchToken params (c :: (a ++ '{' :: b))
            = some ((params key).getD ('{' :: key ++ ['}']), key.length + 2) := by
          have := tokenKey_append_open c a b
          simp only [List.cons_append] at this
          simp [matchToken, this, hk]
        have hle : key.length + 2 - 1 ≤ a.length := by
          simp at hlen
          omega
        rw [List.cons_append, replaceAll_some _ c _ _ _ h2, replaceAll_some _ c _ _ _ h1,
          List.drop_append_of_le_length hle,
          ih (a.drop (key.length + 2 - 1)).length (by simp at hn ⊢; omega) _ rfl,
          List.append_assoc]

/-! ## The claims on `formatString` and on the prompt -/

theorem formatString_token (params : Str → Option Str) (key : Str)
    (hkey : ∀ c ∈ key, isBrace c = false) (post : Str) :
    formatString ('{' :: key ++ '}' :: post) params
      = (params key).getD ('{' :: key ++ ['}']) ++ formatString post params := by
  have hm : matchToken params ('{' :: (key ++ '}' :: post))
      = some ((params key).getD ('{' :: key ++ ['}']), key.length + 2) := by
    simp [matchToken, tokenKey_token key post hkey]
  unfold formatString
  rw [List.cons_append, replaceAll_some _ _ _ _ _ hm]
  simp

/-- C7 as stated fails: `__proto__` and `constructor` are no properties of the object
`{ title: 'T', text: 'X' }`, they are absent from it, yet the property access finds them
on `Object.prototype` and the tokens are replaced by the texts of what is found. -/
theorem formatString_inherited_key :
    "__proto__".toList ∉ promptParamKeys ∧ "constructor".toList ∉ promptParamKeys ∧
    formatString "\x7b__proto__\x7d".toList (promptParams objectPrototype ['T'] ['X'])
      = "[object Object]".toList ∧
    formatString "\x7bconstructor\x7d".toList (promptParams objectPrototype ['T'] ['X'])
      = "function Object() \x7b\n    [native code]\n\x7d".toList := by
  decide

/-- C7, amended: a placeholder whose key (a string without braces) has the value
`undefined` or `null` under the property access `params[key]` is left as it is:
`formatString("{key}", params)` is `"{key}"`, and inside any template the token `{key}`
stays in place while the texts before and after it are formatted on their own.  A key
with any other value is replaced by the text of that value, be the property an own one
or an inherited one.  For the object `{ title, text }` of the main program the property
access on a key other than `title` and `text` is the look-up on `Object.prototype`. -/
theorem formatString_absent_key (params : Str → Option Str) (key : Str)
    (hkey : ∀ c ∈ key, isBrace c = false) :
    (params key = none →
      formatString ('{' :: key ++ ['}']) params = '{' :: key ++ ['}'] ∧
      ∀ pre post : Str,
        formatString (pre ++ '{' :: key ++ '}' :: post) params
          = formatString pre params ++ ('{' :: key ++ ['}']) ++ formatString post params) ∧
    (∀ v, params key = some v →
      formatString ('{' :: key ++ ['}']) params = v ∧
      ∀ pre post : Str,
        formatString (pre ++ '{' :: key ++ '}' :: post) params
          = formatString pre params ++ v ++ formatString post params) ∧
    (∀ (inherited : Str → Option Str) (title fulltext : Str), key ∉ promptParamKeys →
      promptParams inherited title fulltext key = inherited key) := by
  have hone := formatString_token params key hkey
  have hopen : ∀ pre post : Str, formatString (pre ++ '{' :: key ++ '}' :: post) params
      = formatString pre params ++
        ((params key).getD ('{' :: key ++ ['}']) ++ formatString post params) := by
    intro pre post
    have := formatString_append_open params pre (key ++ '}' :: post)
    rw [← List.cons_append, hone post] at this
    simpa [List.append_assoc] using this
  refine ⟨?_, ?_, ?_⟩
  · intro habsent
    constructor
    · have := hone []
      simpa [formatString, replaceAll, habsent] using this
    · intro pre post
      rw [hopen, habsent]
      simp [List.append_assoc]
  · intro v hv
    constructor
    · have := hone []
      simpa [formatString, replaceAll, hv] using this
    · intro pre post
      rw [hopen, hv]
      simp [List.append_assoc]
  · intro inherited title fulltext hk
    have h1 : key ≠ ['t', 'i', 't', 'l', 'e'] := by
      rintro rfl
      exact hk (by decide)
    have h2 : key ≠ ['t', 'e', 'x', 't'] := by
      rintro rfl
      exact hk (by decide)
    simp [promptParams, h1, h2]

/-- Witness of C7 (amended): the key `name` with the parameters of the main program. -/
theorem formatString_absent_key_witness :
    formatString ['{', 'n', 'a', 'm', 'e', '}'] (promptParams objectPrototype ['T'] ['X'])
      = ['{', 'n', 'a', 'm', 'e', '}'] :=
  ((formatString_absent_key (promptParams objectPrototype ['T'] ['X'])
    ['n', 'a', 'm', 'e'] (by decide)).1 (by decide)).1

/-- C8: in a template `pre + "{key}" + post` whose `pre`, `key` and `post` hold no
brace, a key with the value `v` in `params` is replaced by `v` as it is; `v` is not
scanned again, whatever placeholders it holds. -/
theorem formatString_present_key (params : Str → Option Str) (pre key post v : Str)
    (hpre : ∀ c ∈ pre, isBrace c = false) (hkey : ∀ c ∈ key, isBrace c = false)
    (hpost : ∀ c ∈ post, isBrace c = false) (hv : params key = some v) :
    formatString (pre ++ '{' :: key ++ '}' :: post) params = pre ++ v ++ post := by
  have hm : matchToken params ('{' :: (key ++ '}' :: post)) = some (v, key.length + 2) := by
    simp [matchToken, tokenKey_token key post hkey, hv]
  have e : pre ++ '{' :: key ++ '}' :: post = pre ++ ('{' :: (key ++ '}' :: post)) := by simp
  unfold formatString
  rw [e, replaceAll_append_of_none _ pre _
      (fun c hc t => matchToken_of_notBrace params c t (hpre c hc)),
    replaceAll_some _ _ _ _ _ hm]
  have hd : (key ++ '}' :: post).drop (key.length + 2 - 1) = post := by simp
  rw [hd, replaceAll_of_none _ post
      (fun c hc t => matchToken_of_notBrace params c t (hpost c hc))]
  simp

/-- Witness of C8: the value of `title` is itself the placeholder of `text`. -/
theorem formatString_present_key_witness :
    formatString "a \x7btitle\x7d b".toList
        (fun k => if k = ['t', 'i', 't', 'l', 'e'] then some ['{', 't', 'e', 'x', 't', '}']
          else if k = ['t', 'e', 'x', 't'] then some ['X'] else none)
      = "a \x7btext\x7d b".toList :=
  formatString_present_key
    (fun k => if k = ['t', 'i', 't', 'l', 'e'] then some ['{', 't', 'e', 'x', 't', '}']
      else if k = ['t', 'e', 'x', 't'] then some ['X'] else none)
    ['a', ' '] ['t', 'i', 't', 'l', 'e'] [' ', 'b'] ['{', 't', 'e', 'x', 't', '}']
    (by decide) (by decide) (by decide) (by decide)

theorem tokenKey_none_of_no_token (s : Str) (h : ¬ HasToken s) (t : Str) (ht : t <:+ s) :
    tokenKey t = none := by
  cases hk : tokenKey t with
  | none => rfl
  | some key =>
    exfalso
    obtain ⟨⟨post, hpost⟩, hkey⟩ := tokenKey_some t key hk
    obtain ⟨pre, hpre⟩ := ht
    exact h ⟨pre, key, post, by rw [← hpre, hpost]; simp, hkey⟩

/-- C9: a string that contains no placeholder token is returned unchanged, for every
`params`. -/
theorem formatString_no_token (params : Str → Option Str) (s : Str) (h : ¬ HasToken s) :
    formatString s params = s := by
  unfold formatString
  apply replaceAll_of_suffix_none
  intro t ht
  simp [matchToken, tokenKey_none_of_no_token s h t ht]

theorem not_hasToken_of_no_close (s : Str) (h : ∀ c ∈ s, c ≠ '}') : ¬ HasToken s := by
  rintro ⟨pre, key, post, hs, _⟩
  exact h '}' (by rw [hs]; simp) rfl

/-- Witness of C9: a string with an opening brace that is never closed. -/
theorem formatString_no_token_witness :
    formatString ['a', '{', 'b'] (fun _ => some ['X']) = ['a', '{', 'b'] :=
  formatString_no_token (fun _ => some ['X']) ['a', '{', 'b']
    (not_hasToken_of_no_close _ (by decide))

/-- C10 as stated fails: with `userPromptInstructions = "{title}"`, title `T` and text
`X`, the prompt does not end with the instruction block; the placeholder inside the
block has been replaced by the title. -/
theorem summaryPrompt_instructions_not_verbatim :
    endsWith (summaryPrompt (fun _ => none) ['{', 't', 'i', 't', 'l', 'e', '}'] ['T'] ['X'])
        ['{', 't', 'i', 't', 'l', 'e', '}'] = false ∧
    summaryPrompt (fun _ => none) ['{', 't', 'i', 't', 'l', 'e', '}'] ['T'] ['X']
      = promptBeforeTitle ++ ['T'] ++ promptBeforeText ++ ['X'] ++ promptAfterText ++ ['T'] := by
  decide

/-- C10, amended: the prompt is the skeleton with the title and the text put in,
followed by `formatString(userPromptInstructions, {title, text})`: the instruction
block goes through the same placeholder substitution as the skeleton.  It is appended
character for character when it contains no placeholder token. -/
theorem summaryPrompt_eq (inherited : Str → Option Str) (instr title text : Str) :
    summaryPrompt inherited instr title text
      = promptBeforeTitle ++ title ++ promptBeforeText ++ text ++ promptAfterText
          ++ formatString instr (promptParams inherited title text) ∧
    (¬ HasToken instr →
      summaryPrompt inherited instr title text
        = promptBeforeTitle ++ title ++ promptBeforeText ++ text ++ promptAfterText ++ instr) := by
  have key : summaryPrompt inherited instr title text
      = promptBeforeTitle ++ title ++ promptBeforeText ++ text ++ promptAfterText
          ++ formatString instr (promptParams inherited title text) := by
    have e : buildSummaryPrompt instr
        = promptBeforeTitle ++ ('{' :: (['t', 'i', 't', 'l', 'e'] ++ '}' ::
            (promptBeforeText ++ ('{' :: (['t', 'e', 'x', 't'] ++ '}' ::
              (promptAfterText ++ instr)))))) := by
      simp [buildSummaryPrompt, promptSkeleton]
    have hm1 : ∀ rest : Str, matchToken (promptParams inherited title text)
        ('{' :: (['t', 'i', 't', 'l', 'e'] ++ '}' :: rest)) = some (title, 5 + 2) := by
      intro rest
      simp only [matchToken, tokenKey_token ['t', 'i', 't', 'l', 'e'] rest (by decide)]
      simp [promptParams]
    have hm2 : ∀ rest : Str, matchToken (promptParams inherited title text)
        ('{' :: (['t', 'e', 'x', 't'] ++ '}' :: rest)) = some (text, 4 + 2) := by
      intro rest
      simp only [matchToken, tokenKey_token ['t', 'e', 'x', 't'] rest (by decide)]
      simp [promptParams]
    unfold summaryPrompt formatString
    rw [e, replaceAll_append_of_none _ promptBeforeTitle _
        (fun c hc t => matchToken_of_notBrace _ c t
          ((by decide : ∀ c ∈ promptBeforeTitle, isBrace c = false) c hc)),
      replaceAll_some _ _ _ _ _ (hm1 _)]
    have d1 : ∀ rest : Str, (['t', 'i', 't', 'l', 'e'] ++ '}' :: rest).drop (5 + 2 - 1) = rest :=
      fun _ => rfl
    rw [d1, replaceAll_append_of_none _ promptBeforeText _
        (fun c hc t => matchToken_of_notBrace _ c t
          ((by decide : ∀ c ∈ promptBeforeText, isBrace c = false) c hc)),
      replaceAll_some _ _ _ _ _ (hm2 _)]
    have d2 : ∀ rest : Str, (['t', 'e', 'x', 't'] ++ '}' :: rest).drop (4 + 2 - 1) = rest :=
      fun _ => rfl
    rw [d2, replaceAll_append_of_none _ promptAfterText _
        (fun c hc t => matchToken_of_notBrace _ c t
          ((by decide : ∀ c ∈ promptAfterText, isBrace c = false) c hc))]
    simp [List.append_assoc]
  refine ⟨key, fun h => ?_⟩
  have hsame : formatString instr (promptParams inherited title text) = instr := by
    unfold formatString
    apply replaceAll_of_suffix_none
    intro t ht
    simp [matchToken, tokenKey_none_of_no_token instr h t ht]
  rw [key, hsame]

/-- Witness of C10 (amended): an instruction block without braces is appended as it
is. -/
theorem summaryPrompt_eq_witness :
    summaryPrompt (fun _ => none) ['g', 'o'] ['T'] ['X']
      = promptBeforeTitle ++ ['T'] ++ promptBeforeText ++ ['X'] ++ promptAfterText ++ ['g', 'o'] :=
  (summaryPrompt_eq (fun _ => none) ['g', 'o'] ['T'] ['X']).2
    (not_hasToken_of_no_close _ (by decide))

/-! ## The claims on `formatSummaryAsHtml` -/

/-- C1: `formatSummaryAsHtml("## Title\n- one\n- two\n\nPara.")` is an `h2` with
Title, one unordered list with the items one and two, closed before the paragraph, and
the paragraph. -/
theorem formatSummaryAsHtml_title_list_para :
    formatSummaryAsHtml "## Title\n- one\n- two\n\nPara.".toList
      = "<h2>Title</h2>\n<ul>\n<li>one</li>\n<li>two</li>\n</ul>\n<p>Para.</p>".toList := by
  decide

/-! ## Lemmas on the renderer -/

theorem renderLine_eq_emit (st : RenderState) (raw : Str) :
    renderLine st raw = emit st (classify (trim raw)) := by
  unfold renderLine classify
  by_cases h : (trim raw).isEmpty = true
  · simp [h, emit]
  · simp only [h]
    cases h3Match (trim raw) with
    | some g => simp [emit, pushLine]
    | none =>
      cases h2Match (trim raw) with
      | some g => simp [emit, pushLine]
      | none =>
        cases ulMatch (trim raw) with
        | some g => simp [emit, pushLine]
        | none =>
          cases olMatch (trim raw) with
          | some g => simp [emit, pushLine]
          | none => simp [emit, pushLine]

theorem replaceAll_matchChar (ch : Char) (rep : Str) (s : Str) :
    replaceAll (matchChar ch rep) 0 s = s.flatMap (fun c => if c = ch then rep else [c]) := by
  induction s with
  | nil => rfl
  | cons c cs ih =>
    by_cases h : c = ch
    · have hm : matchChar ch rep (c :: cs) = some (rep, 1) := by simp [matchChar, h]
      rw [replaceAll_some _ _ _ _ _ hm]
      simp [h, ih]
    · have hm : matchChar ch rep (c :: cs) = none := by simp [matchChar, h]
      rw [replaceAll_none _ _ _ hm]
      simp [h, ih]

theorem escapeHtml_eq (s : Str) : escapeHtml s = escapeSpec s := by
  unfold escapeHtml escapeSpec
  rw [replaceAll_matchChar, replaceAll_matchChar, replaceAll_matchChar, List.flatMap_assoc,
    List.flatMap_assoc]
  congr 1
  funext c
  by_cases h1 : c = '&'
  · subst h1; simp
  · by_cases h2 : c = '<'
    · subst h2; simp
    · by_cases h3 : c = '>'
      · subst h3; simp
      · simp [h1, h2, h3]

theorem escapeSpec_append (a b : Str) : escapeSpec (a ++ b) = escapeSpec a ++ escapeSpec b := by
  simp [escapeSpec]

theorem mem_escapeSpec (x : Str) (c : Char) (h : c ∈ escapeSpec x) :
    c ∈ x ∨ c ∈ ['&', 'a', 'm', 'p', ';', 'l', 't', 'g'] := by
  simp only [escapeSpec, List.mem_flatMap] at h
  obtain ⟨d, hd, hc⟩ := h
  split at hc
  · right; revert hc; simp; tauto
  · split at hc
    · right; revert hc; simp; tauto
    · split at hc
      · right; revert hc; simp; tauto
      · left
        simp at hc
        rw [hc]; exact hd

theorem escapeSpec_ne_nil (x : Str) (h : x ≠ []) : escapeSpec x ≠ [] := by
  cases x with
  | nil => exact absurd rfl h
  | cons c cs =>
    simp only [escapeSpec, List.flatMap_cons]
    split
    · simp
    · split
      · simp
      · split <;> simp

theorem boldRest_spec (g rest : Str) (hg : ∀ c ∈ g, c ≠ '*' ∧ isLineTerminator c = false) :
    boldRest (g ++ '*' :: '*' :: rest) = some g := by
  induction g with
  | nil => simp [boldRest, startsWith]
  | cons c g ih =>
    have hc := hg c (List.mem_cons_self _ _)
    simp [boldRest, startsWith, hc.1, hc.2, ih (fun d hd => hg d (List.mem_cons_of_mem _ hd))]

theorem boldGroup_spec (g rest : Str) (hne : g ≠ [])
    (hg : ∀ c ∈ g, c ≠ '*' ∧ isLineTerminator c = false) :
    boldGroup ('*' :: '*' :: (g ++ '*' :: '*' :: rest)) = some g := by
  cases g with
  | nil => exact absurd rfl hne
  | cons c g =>
    have hc := hg c (List.mem_cons_self _ _)
    simp [boldGroup, startsWith, hc.2, boldRest_spec g rest (fun d hd => hg d (List.mem_cons_of_mem _ hd))]

theorem splitOn_of_not_mem (sep : Char) (s : Str) (h : sep ∉ s) : splitOn sep s = [s] := by
  induction s with
  | nil => rfl
  | cons c cs ih =>
    have hc : c ≠ sep := fun e => h (by simp [e])
    have := ih (fun hm => h (List.mem_cons_of_mem _ hm))
    simp [splitOn, hc, this]

theorem trimStart_cons (c : Char) (s : Str) (h : isSpace c = false) :
    trimStart (c :: s) = c :: s := by
  simp [trimStart, List.dropWhile, h]

theorem trimEnd_concat (s : Str) (c : Char) (h : isSpace c = false) :
    trimEnd (s ++ [c]) = s ++ [c] := by
  simp [trimEnd, List.dropWhile, h]


theorem spacesThenText_space_text (d : Char) (b : Str) (hd : isSpace d = false)
    (hall : (d :: b).all (fun c => !isLineTerminator c) = true) :
    spacesThenText (' ' :: d :: b) = some (d :: b) := by
  rw [spacesThenText, if_pos (by decide), hall]
  simp [spacesThenText, hd]

theorem classify_ul (d : Char) (b : Str) (hd : isSpace d = false)
    (hall : (d :: b).all (fun c => !isLineTerminator c) = true) :
    classify ('-' :: ' ' :: d :: b) = .ulItem (d :: b) := by
  simp [classify, h3Match, h2Match, ulMatch, startsWith, spacesThenText_space_text d b hd hall]

/-- C4: for every non-empty `x` without `*` and without line terminator,
`formatSummaryAsHtml("- **" + x + "**")` is one unordered list whose single item holds
the bold tag around the escaped `x`: the bold span stays inside the `<li>`, and it is
made from the escaped text. -/
theorem formatSummaryAsHtml_bold_item (x : Str) (hne : x ≠ [])
    (hx : ∀ c ∈ x, c ≠ '*' ∧ isLineTerminator c = false) :
    formatSummaryAsHtml ("- **".toList ++ x ++ "**".toList)
      = "<ul>\n<li><strong>".toList ++ escapeSpec x ++ "</strong></li>\n</ul>".toList := by
  have he : ∀ c ∈ escapeSpec x, c ≠ '*' ∧ isLineTerminator c = false := by
    intro c hc
    rcases mem_escapeSpec x c hc with h | h
    · exact hx c h
    · revert h
      simp only [List.mem_cons, List.mem_singleton, List.not_mem_nil, or_false]
      rintro (h | h | h | h | h | h | h | h) <;> subst h <;> decide
  have hene := escapeSpec_ne_nil x hne
  -- the escaped text
  have h1 : escapeHtml ("- **".toList ++ x ++ "**".toList)
      = '-' :: ' ' :: '*' :: '*' :: (escapeSpec x ++ '*' :: '*' :: []) := by
    rw [escapeHtml_eq, escapeSpec_append, escapeSpec_append]
    rfl
  -- the bold replacement
  have h2 : markBold ("- **".toList ++ x ++ "**".toList)
      = '-' :: ' ' :: '<' :: ("strong>".toList ++ escapeSpec x ++ "</strong".toList ++ ['>']) := by
    have hm : matchBold ('*' :: '*' :: (escapeSpec x ++ '*' :: '*' :: []))
        = some (['<', 's', 't', 'r', 'o', 'n', 'g', '>'] ++ escapeSpec x ++
            ['<', '/', 's', 't', 'r', 'o', 'n', 'g', '>'], (escapeSpec x).length + 4) := by
      simp only [matchBold, boldGroup_spec (escapeSpec x) [] hene he, Option.map_some']
    unfold markBold
    rw [h1, replaceAll_none _ _ _ (by simp [matchBold, boldGroup, startsWith]),
      replaceAll_none _ _ _ (by simp [matchBold, boldGroup, startsWith]),
      replaceAll_some _ _ _ _ _ hm]
    simp [replaceAll_nil]
  have hmem : ∀ c ∈ '<' :: ("strong>".toList ++ escapeSpec x ++ "</strong".toList ++ ['>']),
      isLineTerminator c = false := by
    intro c hc
    simp only [List.mem_cons, List.mem_append, List.not_mem_nil, or_false] at hc
    rcases hc with h | ((h | h) | h) | h
    · subst h; decide
    · revert c; decide
    · exact (he c h).2
    · revert c; decide
    · subst h; decide
  -- one line, already trimmed
  have hnl : '\n' ∉ markBold ("- **".toList ++ x ++ "**".toList) := by
    rw [h2]
    intro h
    simp only [List.mem_cons] at h
    rcases h with h | h | h
    · exact absurd h (by decide)
    · exact absurd h (by decide)
    · exact absurd (hmem _ (List.mem_cons.2 h)) (by decide)
  have htrim : trim (markBold ("- **".toList ++ x ++ "**".toList))
      = '-' :: ' ' :: '<' :: ("strong>".toList ++ escapeSpec x ++ "</strong".toList ++ ['>']) := by
    rw [h2]
    unfold trim
    rw [trimStart_cons _ _ (by decide)]
    exact trimEnd_concat ('-' :: ' ' :: '<' :: ("strong>".toList ++ escapeSpec x ++
      "</strong".toList)) '>' (by decide)
  have hclass := classify_ul '<' ("strong>".toList ++ escapeSpec x ++ "</strong".toList ++ ['>'])
    (by decide) (by
      rw [List.all_eq_true]
      intro c hc
      simp [hmem c hc])
  unfold formatSummaryAsHtml
  rw [if_neg (by simp), splitOn_of_not_mem _ _ hnl]
  simp only [renderLines, List.foldl_cons, List.foldl_nil, renderLine_eq_emit, htrim, hclass]
  simp [emit, pushLine, closeLists, join]

/-- Witness of C4: `- **a<b**`. -/
theorem formatSummaryAsHtml_bold_item_witness :
    formatSummaryAsHtml "- **a<b**".toList = "<ul>\n<li><strong>a&lt;b</strong></li>\n</ul>".toList :=
  formatSummaryAsHtml_bold_item "a<b".toList (by decide) (by decide)

theorem splitOn_append_sep (sep : Char) (a b : Str) (h : sep ∉ a) :
    splitOn sep (a ++ sep :: b) = a :: splitOn sep b := by
  induction a with
  | nil => simp [splitOn]
  | cons c a ih =>
    have hc : c ≠ sep := fun e => h (by simp [e])
    have := ih (fun hm => h (List.mem_cons_of_mem _ hm))
    simp [splitOn, hc, this]

theorem splitOn_join (sep : Char) (lines : List Str) (hne : lines ≠ [])
    (h : ∀ l ∈ lines, sep ∉ l) : splitOn sep (join sep lines) = lines := by
  induction lines with
  | nil => exact absurd rfl hne
  | cons l ls ih =>
    cases ls with
    | nil => simpa [join] using splitOn_of_not_mem sep l (h l (List.mem_cons_self _ _))
    | cons l2 ls =>
      rw [join, splitOn_append_sep sep l _ (h l (List.mem_cons_self _ _)),
        ih (by simp) (fun x hx => h x (List.mem_cons_of_mem _ hx))]

theorem mem_join (sep : Char) (lines : List Str) (c : Char) (h : c ∈ join sep lines) :
    c = sep ∨ ∃ l ∈ lines, c ∈ l := by
  induction lines with
  | nil => simp [join] at h
  | cons l ls ih =>
    cases ls with
    | nil => exact Or.inr ⟨l, List.mem_cons_self _ _, by simpa [join] using h⟩
    | cons l2 ls =>
      rw [join, List.mem_append, List.mem_cons] at h
      rcases h with h | h | h
      · exact Or.inr ⟨l, List.mem_cons_self _ _, h⟩
      · exact Or.inl h
      · rcases ih h with h | ⟨x, hx, hc⟩
        · exact Or.inl h
        · exact Or.inr ⟨x, List.mem_cons_of_mem _ hx, hc⟩

theorem escapeSpec_of_plain (s : Str) (h : ∀ c ∈ s, c ≠ '&' ∧ c ≠ '<' ∧ c ≠ '>') :
    escapeSpec s = s := by
  induction s with
  | nil => rfl
  | cons c s ih =>
    have hc := h c (List.mem_cons_self _ _)
    have := ih (fun d hd => h d (List.mem_cons_of_mem _ hd))
    unfold escapeSpec at this ⊢
    simp [hc.1, hc.2.1, hc.2.2, this]

theorem matchBold_of_ne (c : Char) (t : Str) (h : c ≠ '*') : matchBold (c :: t) = none := by
  simp [matchBold, boldGroup, startsWith, h]

theorem markBold_of_plain (s : Str) (h : ∀ c ∈ s, c ≠ '&' ∧ c ≠ '<' ∧ c ≠ '>' ∧ c ≠ '*') :
    markBold s = s := by
  unfold markBold
  rw [escapeHtml_eq, escapeSpec_of_plain s (fun c hc => ⟨(h c hc).1, (h c hc).2.1, (h c hc).2.2.1⟩)]
  exact replaceAll_of_none _ s (fun c hc t => matchBold_of_ne c t (h c hc).2.2.2)

theorem emit_olItem (st : RenderState) (g : Str) :
    emit st (.olItem g) =
      { html := st.html ++ (if st.inUl then [['<', '/', 'u', 'l', '>']] else [])
          ++ (if st.inOl then [] else [['<', 'o', 'l', '>']])
          ++ [['<', 'l', 'i', '>'] ++ g ++ ['<', '/', 'l', 'i', '>']],
        inUl := false, inOl := true } := by
  obtain ⟨html, inUl, inOl⟩ := st
  cases inUl <;> cases inOl <;> simp [emit, pushLine]

theorem isDigit_not_special (c : Char) (h : isDigit c = true) :
    c ≠ '#' ∧ c ≠ '-' ∧ isSpace c = false := by
  simp only [isDigit, Bool.and_eq_true, decide_eq_true_eq] at h
  refine ⟨?_, ?_, ?_⟩
  · rintro rfl; revert h; decide
  · rintro rfl; revert h; decide
  · simp only [isSpace, Bool.or_eq_false_iff, beq_eq_false_iff_ne, ne_eq, Bool.and_eq_false_imp,
      decide_eq_true_eq, decide_eq_false_iff_not]
    omega

theorem classify_of_olMatch (line g : Str) (h : olMatch line = some g) :
    classify line = .olItem g := by
  cases line with
  | nil => simp [olMatch] at h
  | cons c cs =>
    have hd : isDigit c = true := by
      by_contra hd
      simp [olMatch, hd] at h
    obtain ⟨h1, h2, _⟩ := isDigit_not_special c hd
    simp [classify, h3Match, h2Match, ulMatch, startsWith, h1, h2, h]

theorem foldl_renderLine_ol (ps : List (Str × Str)) (st : RenderState) (hne : ps ≠ [])
    (h : ∀ p ∈ ps, olMatch (trim p.1) = some p.2) :
    (ps.map Prod.fst).foldl renderLine st =
      { html := st.html ++ (if st.inUl then [['<', '/', 'u', 'l', '>']] else [])
          ++ (if st.inOl then [] else [['<', 'o', 'l', '>']])
          ++ ps.map (fun p => ['<', 'l', 'i', '>'] ++ p.2 ++ ['<', '/', 'l', 'i', '>']),
        inUl := false, inOl := true } := by
  induction ps generalizing st with
  | nil => exact absurd rfl hne
  | cons p ps ih =>
    have hp := h p (List.mem_cons_self _ _)
    rw [List.map_cons, List.foldl_cons, renderLine_eq_emit, classify_of_olMatch _ _ hp, emit_olItem]
    cases ps with
    | nil => simp
    | cons q qs =>
      rw [ih _ (by simp) (fun x hx => h x (List.mem_cons_of_mem _ hx))]
      simp

theorem length_trimEnd_le (s : Str) : (trimEnd s).length ≤ s.length := by
  unfold trimEnd
  rw [List.length_reverse]
  have : (s.reverse.dropWhile isSpace).length ≤ s.reverse.length :=
    (List.dropWhile_sublist isSpace).length_le
  simpa using this

theorem dropWhile_eq_self_head (p : Char → Bool) (c : Char) (s : Str)
    (h : (c :: s).dropWhile p = c :: s) : p c = false := by
  by_contra hc
  have hc' : p c = true := by simpa using hc
  rw [List.dropWhile_cons_of_pos hc'] at h
  have : (s.dropWhile p).length ≤ s.length := (List.dropWhile_sublist p).length_le
  rw [h] at this
  simp at this

theorem trim_eq_self_cons (c : Char) (s : Str) (h : trim (c :: s) = c :: s) :
    isSpace c = false ∧ trimEnd (c :: s) = c :: s := by
  have hc : isSpace c = false := by
    by_contra hc
    have hc' : isSpace c = true := by simpa using hc
    have h1 : (trim (c :: s)).length ≤ s.length := by
      unfold trim trimStart
      rw [List.dropWhile_cons_of_pos hc']
      exact (length_trimEnd_le _).trans (List.dropWhile_sublist isSpace).length_le
    rw [h] at h1
    simp at h1
  refine ⟨hc, ?_⟩
  have : trimStart (c :: s) = c :: s := by simp [trimStart, List.dropWhile, hc]
  unfold trim at h
  rwa [this] at h

theorem trimEnd_append (pre t : Str) (hne : t ≠ []) (h : trimEnd t = t) :
    trimEnd (pre ++ t) = pre ++ t := by
  unfold trimEnd at h ⊢
  have h' : t.reverse.dropWhile isSpace = t.reverse := by
    have := congrArg List.reverse h
    simpa using this
  cases hr : t.reverse with
  | nil => simp at hr; exact absurd hr hne
  | cons x r =>
    rw [hr] at h'
    have hx := dropWhile_eq_self_head isSpace x r h'
    rw [List.reverse_append, hr, List.cons_append, List.dropWhile_cons_of_neg (by simp [hx]),
      ← List.cons_append, ← hr, ← List.reverse_append]
    simp

theorem digitsDotText_spec (d t : Str) (hd : ∀ c ∈ d, isDigit c = true) :
    digitsDotText (d ++ '.' :: t) = spacesThenText t := by
  induction d with
  | nil =>
    have : isDigit '.' = false := by decide
    simp [digitsDotText, this]
  | cons c d ih =>
    simp [digitsDotText, hd c (List.mem_cons_self _ _),
      ih (fun x hx => hd x (List.mem_cons_of_mem _ hx))]

theorem olMatch_item (d t : Str) (hne : d ≠ []) (hd : ∀ c ∈ d, isDigit c = true)
    (ht : PlainText t) :
    trim (d ++ '.' :: ' ' :: t) = d ++ '.' :: ' ' :: t ∧
    olMatch (d ++ '.' :: ' ' :: t) = some t := by
  obtain ⟨htne, htrim, hchars⟩ := ht
  cases t with
  | nil => exact absurd rfl htne
  | cons h b =>
    obtain ⟨hh, hend⟩ := trim_eq_self_cons h b htrim
    cases d with
    | nil => exact absurd rfl hne
    | cons c d =>
      have hc := hd c (List.mem_cons_self _ _)
      have hcs := (isDigit_not_special c hc).2.2
      constructor
      · unfold trim
        rw [List.cons_append, trimStart_cons _ _ hcs]
        have := trimEnd_append (c :: d ++ ['.', ' ']) (h :: b) (by simp) hend
        simpa using this
      · have hall : (h :: b).all (fun c => !isLineTerminator c) = true := by
          rw [List.all_eq_true]
          intro x hx
          simp [(hchars x hx).2.2.2.2]
        simp only [List.cons_append, olMatch, hc, if_true]
        rw [digitsDotText_spec d _ (fun x hx => hd x (List.mem_cons_of_mem _ hx)),
          spacesThenText_space_text h b hh hall]

theorem isDigit_not_markup (c : Char) (h : isDigit c = true) :
    c ≠ '&' ∧ c ≠ '<' ∧ c ≠ '>' ∧ c ≠ '*' ∧ c ≠ '\n' := by
  simp only [isDigit, Bool.and_eq_true, decide_eq_true_eq] at h
  refine ⟨?_, ?_, ?_, ?_, ?_⟩ <;> (rintro rfl; revert h; decide)

theorem itemLine_chars (d t : Str) (hd : ∀ c ∈ d, isDigit c = true) (ht : PlainText t) :
    ∀ c ∈ d ++ '.' :: ' ' :: t, c ≠ '&' ∧ c ≠ '<' ∧ c ≠ '>' ∧ c ≠ '*' ∧ c ≠ '\n' := by
  intro c hc
  simp only [List.mem_append, List.mem_cons] at hc
  rcases hc with hc | hc | hc | hc
  · exact isDigit_not_markup c (hd c hc)
  · subst hc; decide
  · subst hc; decide
  · obtain ⟨h1, h2, h3, h4, h5⟩ := ht.2.2 c hc
    refine ⟨h1, h2, h3, h4, ?_⟩
    rintro rfl
    exact absurd h5 (by decide)

/-- C5: a run of lines `<digits>. text` gives one ordered list, not an unordered one,
with one item per line in the order of the input: for the whole function on lines with
plain texts (so `formatSummaryAsHtml("1. a\n2. b")` is
`"<ol>\n<li>a</li>\n<li>b</li>\n</ol>"`), and for the loop from any state on lines that
match the ordered-list regex: an open unordered list is closed, the ordered list is
opened once if it is not open, and each line adds its item. -/
theorem formatSummaryAsHtml_ordered_list (items : List (Str × Str)) (hne : items ≠ [])
    (h : ∀ p ∈ items, p.1 ≠ [] ∧ (∀ c ∈ p.1, isDigit c = true) ∧ PlainText p.2) :
    formatSummaryAsHtml (join '\n' (items.map fun p => p.1 ++ '.' :: ' ' :: p.2))
      = join '\n' (['<', 'o', 'l', '>'] ::
          items.map (fun p => ['<', 'l', 'i', '>'] ++ p.2 ++ ['<', '/', 'l', 'i', '>'])
          ++ [['<', '/', 'o', 'l', '>']]) ∧
    ∀ (ps : List (Str × Str)) (st : RenderState), ps ≠ [] →
      (∀ p ∈ ps, olMatch (trim p.1) = some p.2) →
      (ps.map Prod.fst).foldl renderLine st =
        { html := st.html ++ (if st.inUl then [['<', '/', 'u', 'l', '>']] else [])
            ++ (if st.inOl then [] else [['<', 'o', 'l', '>']])
            ++ ps.map (fun p => ['<', 'l', 'i', '>'] ++ p.2 ++ ['<', '/', 'l', 'i', '>']),
          inUl := false, inOl := true } := by
  refine ⟨?_, fun ps st hps hol => foldl_renderLine_ol ps st hps hol⟩
  have hlines : ∀ l ∈ items.map (fun p => p.1 ++ '.' :: ' ' :: p.2),
      ∀ c ∈ l, c ≠ '&' ∧ c ≠ '<' ∧ c ≠ '>' ∧ c ≠ '*' ∧ c ≠ '\n' := by
    intro l hl
    obtain ⟨p, hp, rfl⟩ := List.mem_map.1 hl
    exact itemLine_chars p.1 p.2 (h p hp).2.1 (h p hp).2.2
  have hmapne : items.map (fun p => p.1 ++ '.' :: ' ' :: p.2) ≠ [] := by simpa using hne
  have htext : markBold (join '\n' (items.map fun p => p.1 ++ '.' :: ' ' :: p.2))
      = join '\n' (items.map fun p => p.1 ++ '.' :: ' ' :: p.2) := by
    apply markBold_of_plain
    intro c hc
    rcases mem_join _ _ _ hc with rfl | ⟨l, hl, hcl⟩
    · decide
    · obtain ⟨h1, h2, h3, h4, _⟩ := hlines l hl c hcl
      exact ⟨h1, h2, h3, h4⟩
  have hnonempty : (join '\n' (items.map fun p => p.1 ++ '.' :: ' ' :: p.2)).isEmpty = false := by
    cases items with
    | nil => exact absurd rfl hne
    | cons p ps =>
      cases ps with
      | nil => simp [join]
      | cons q qs => simp [join]
  have hfold := foldl_renderLine_ol
    (items.map fun p => (p.1 ++ '.' :: ' ' :: p.2, p.2))
    { html := [], inUl := false, inOl := false } (by simpa using hne) (by
      intro q hq
      obtain ⟨p, hp, rfl⟩ := List.mem_map.1 hq
      obtain ⟨h1, h2⟩ := olMatch_item p.1 p.2 (h p hp).1 (h p hp).2.1 (h p hp).2.2
      simp only [h1, h2])
  have hmap : (items.map fun p => (p.1 ++ '.' :: ' ' :: p.2, p.2)).map Prod.fst
      = items.map fun p => p.1 ++ '.' :: ' ' :: p.2 := by
    simp [List.map_map, Function.comp_def]
  unfold formatSummaryAsHtml
  rw [hnonempty, htext, splitOn_join _ _ hmapne (fun l hl hc => (hlines l hl _ hc).2.2.2.2 rfl)]
  simp only [Bool.false_eq_true, if_false, renderLines]
  rw [← hmap, hfold]
  simp [closeLists, List.map_map, Function.comp_def]

/-- Witness of C5: the lines `1. a` and `2. b`. -/
theorem formatSummaryAsHtml_ordered_list_witness :
    formatSummaryAsHtml "1. a\n2. b".toList = "<ol>\n<li>a</li>\n<li>b</li>\n</ol>".toList :=
  (formatSummaryAsHtml_ordered_list [(['1'], ['a']), (['2'], ['b'])] (by decide)
    (by
      intro p hp
      simp only [List.mem_cons, List.mem_singleton, List.not_mem_nil, or_false] at hp
      rcases hp with rfl | rfl
      · exact ⟨by decide, by decide, by decide, by decide, by decide⟩
      · exact ⟨by decide, by decide, by decide, by decide, by decide⟩)).1

theorem splitOn_ne_nil (sep : Char) (s : Str) : splitOn sep s ≠ [] := by
  induction s with
  | nil => simp [splitOn]
  | cons c cs ih =>
    simp only [splitOn]
    split
    · simp
    · split <;> simp

theorem not_mem_of_mem_splitOn (sep : Char) (s : Str) :
    ∀ l ∈ splitOn sep s, sep ∉ l := by
  induction s with
  | nil => simp [splitOn]
  | cons c cs ih =>
    intro l hl
    simp only [splitOn] at hl
    split at hl
    · rcases List.mem_cons.1 hl with rfl | h
      · simp
      · exact ih l h
    · rename_i hc
      split at hl
      · rename_i l0 ls heq
        rcases List.mem_cons.1 hl with rfl | h
        · intro hm
          rcases List.mem_cons.1 hm with e | hm
          · exact hc e.symm
          · exact ih l0 (by rw [heq]; exact List.mem_cons_self _ _) hm
        · exact ih l (by rw [heq]; exact List.mem_cons_of_mem _ h)
      · simp only [List.mem_singleton] at hl
        subst hl
        intro hm
        simp only [List.mem_singleton] at hm
        exact hc hm.symm

theorem spacesThenText_some (s g : Str) (h : spacesThenText s = some g) :
    ∃ ws, s = ws ++ g ∧ ∀ c ∈ ws, isSpace c = true := by
  induction s with
  | nil => simp [spacesThenText] at h
  | cons c cs ih =>
    simp only [spacesThenText] at h
    split at h
    · rename_i hc
      split at h
      · rename_i g' hg'
        obtain ⟨ws, hws, hall⟩ := ih (by rw [hg', ← h])
        refine ⟨c :: ws, by simp [hws], ?_⟩
        intro d hd
        rcases List.mem_cons.1 hd with rfl | hd
        · exact hc
        · exact hall d hd
      · split at h
        · refine ⟨[c], ?_, by simpa using hc⟩
          simp only [Option.some.injEq] at h
          simp [h]
        · simp at h
    · simp at h

theorem emit_inv (st : RenderState) (b : Block) (h1 : (st.inUl && st.inOl) = false)
    (h2 : st.html.foldl readLine (some .closed) = some (modeOf st)) :
    ((emit st b).inUl && (emit st b).inOl) = false ∧
    (emit st b).html.foldl readLine (some .closed) = some (modeOf (emit st b)) := by
  obtain ⟨html, inUl, inOl⟩ := st
  cases b <;> cases inUl <;> cases inOl <;>
    simp_all [emit, closeLists, pushLine, modeOf, List.foldl_append, readLine, startsWith]

theorem emit_html_mem (st : RenderState) (b : Block) :
    ∀ l ∈ (emit st b).html, l ∈ st.html ∨ l ∈ listTags ∨ elementOf b = some l := by
  obtain ⟨html, inUl, inOl⟩ := st
  cases b <;> cases inUl <;> cases inOl <;>
    simp [emit, closeLists, pushLine, listTags, elementOf] <;> tauto

theorem closeLists_eq_emit (st : RenderState) : closeLists st = emit st .blank := rfl

theorem foldl_renderLine_inv (P : RenderState → Prop) (lines : List Str) (st : RenderState)
    (h0 : P st) (hstep : ∀ st raw, raw ∈ lines → P st → P (renderLine st raw)) :
    P (lines.foldl renderLine st) := by
  induction lines generalizing st with
  | nil => exact h0
  | cons l ls ih =>
    exact ih _ (hstep st l (List.mem_cons_self _ _) h0)
      (fun st raw hr hp => hstep st raw (List.mem_cons_of_mem _ hr) hp)

theorem startsWith_iff (s p : Str) : startsWith s p = true ↔ ∃ t, s = p ++ t := by
  induction p generalizing s with
  | nil => simp [startsWith]
  | cons c p ih =>
    cases s with
    | nil => simp [startsWith]
    | cons d s =>
      simp only [startsWith, Bool.and_eq_true, beq_iff_eq, ih, List.cons_append, List.cons.injEq]
      constructor
      · rintro ⟨h, t, ht⟩
        exact ⟨t, h, ht⟩
      · rintro ⟨t, h, ht⟩
        exact ⟨h, t, ht⟩

theorem prefix_spacesThenText_some (p line g : Str) (hs : startsWith line p = true)
    (h : spacesThenText (line.drop p.length) = some g) (hp : ∀ c ∈ p, isMarker c = true) :
    ∃ pre, line = pre ++ g ∧ ∀ c ∈ pre, isMarker c = true := by
  obtain ⟨t, rfl⟩ := (startsWith_iff line p).1 hs
  rw [List.drop_left] at h
  obtain ⟨ws, rfl, hall⟩ := spacesThenText_some _ _ h
  refine ⟨p ++ ws, by simp, ?_⟩
  intro c hc
  rcases List.mem_append.1 hc with hc | hc
  · exact hp c hc
  · simp [isMarker, hall c hc]

theorem digitsDotText_some (s g : Str) (h : digitsDotText s = some g) :
    ∃ pre, s = pre ++ g ∧ ∀ c ∈ pre, isMarker c = true := by
  induction s with
  | nil => simp [digitsDotText] at h
  | cons c cs ih =>
    simp only [digitsDotText] at h
    split at h
    · rename_i hc
      obtain ⟨pre, hpre, hall⟩ := ih h
      refine ⟨c :: pre, by simp [hpre], ?_⟩
      intro d hd
      rcases List.mem_cons.1 hd with rfl | hd
      · simp [isMarker, hc]
      · exact hall d hd
    · split at h
      · rename_i hdot
        obtain ⟨ws, hws, hall⟩ := spacesThenText_some _ _ h
        refine ⟨c :: ws, by simp [hws], ?_⟩
        intro d hd
        rcases List.mem_cons.1 hd with rfl | hd
        · simp [isMarker, hdot]
        · simp [isMarker, hall d hd]
      · simp at h

theorem classify_text (line : Str) :
    (∃ g pre, classify line ∈ [Block.heading3 g, Block.heading2 g, Block.ulItem g, Block.olItem g]
      ∧ line = pre ++ g ∧ ∀ c ∈ pre, isMarker c = true) ∨
    classify line = .blank ∨ classify line = .para line := by
  unfold classify
  split
  · simp
  · cases h3 : h3Match line with
    | some g =>
      left
      unfold h3Match at h3
      split at h3
      · rename_i hs
        obtain ⟨pre, hpre, hall⟩ := prefix_spacesThenText_some _ line g hs h3 (by decide)
        exact ⟨g, pre, by simp, hpre, hall⟩
      · simp at h3
    | none =>
      cases h2 : h2Match line with
      | some g =>
        left
        unfold h2Match at h2
        split at h2
        · rename_i hs
          obtain ⟨pre, hpre, hall⟩ := prefix_spacesThenText_some _ line g hs h2 (by decide)
          exact ⟨g, pre, by simp, hpre, hall⟩
        · simp at h2
      | none =>
        cases hu : ulMatch line with
        | some g =>
          left
          unfold ulMatch at hu
          split at hu
          · rename_i hs
            obtain ⟨pre, hpre, hall⟩ := prefix_spacesThenText_some _ line g hs hu (by decide)
            exact ⟨g, pre, by simp, hpre, hall⟩
          · simp at hu
        | none =>
          cases ho : olMatch line with
          | some g =>
            left
            cases line with
            | nil => simp [olMatch] at ho
            | cons c cs =>
              simp only [olMatch] at ho
              split at ho
              · rename_i hc
                obtain ⟨pre, hpre, hall⟩ := digitsDotText_some _ _ ho
                refine ⟨g, c :: pre, by simp, by simp [hpre], ?_⟩
                intro d hd
                rcases List.mem_cons.1 hd with rfl | hd
                · simp [isMarker, hc]
                · exact hall d hd
              · simp at ho
          | none => simp

theorem mem_replaceAll (m : Str → Option (Str × Nat)) (P : Char → Prop)
    (hm : ∀ t rep len, m t = some (rep, len) → ∀ c ∈ rep, P c) (k : Nat) (s : Str)
    (hs : ∀ c ∈ s, P c) : ∀ c ∈ replaceAll m k s, P c := by
  induction s generalizing k with
  | nil => simp [replaceAll_nil]
  | cons d s ih =>
    have hs' : ∀ c ∈ s, P c := fun c hc => hs c (List.mem_cons_of_mem _ hc)
    cases k with
    | succ k => simpa [replaceAll] using ih k hs'
    | zero =>
      intro c hc
      simp only [replaceAll] at hc
      split at hc
      · rename_i rep len heq
        rcases List.mem_append.1 hc with h | h
        · exact hm _ _ _ heq c h
        · exact ih _ hs' c h
      · rcases List.mem_cons.1 hc with rfl | h
        · exact hs _ (List.mem_cons_self _ _)
        · exact ih _ hs' c h

theorem matchSpaces_some (t rep : Str) (len : Nat) (h : matchSpaces t = some (rep, len)) :
    rep = [' '] ∧ len = (t.takeWhile isSpace).length ∧ 2 ≤ len := by
  unfold matchSpaces at h
  split at h
  · simp only [Option.some.injEq, Prod.mk.injEq] at h
    obtain ⟨h1, h2⟩ := h
    exact ⟨h1.symm, h2.symm, by omega⟩
  · simp at h

theorem trim_decomp (raw : Str) :
    ∃ a b, raw = a ++ trim raw ++ b ∧ (∀ c ∈ a, isSpace c = true) ∧ ∀ c ∈ b, isSpace c = true := by
  refine ⟨raw.takeWhile isSpace, ((raw.dropWhile isSpace).reverse.takeWhile isSpace).reverse,
    ?_, ?_, ?_⟩
  · unfold trim trimEnd trimStart
    rw [List.append_assoc, ← List.reverse_append, List.takeWhile_append_dropWhile,
      List.reverse_reverse, List.takeWhile_append_dropWhile]
  · intro c hc
    exact List.mem_takeWhile_imp hc
  · intro c hc
    exact List.mem_takeWhile_imp (List.mem_reverse.1 hc)

theorem elementOf_no_newline (raw l : Str) (hraw : '\n' ∉ raw)
    (h : elementOf (classify (trim raw)) = some l) : '\n' ∉ l := by
  have hline : '\n' ∉ trim raw := by
    obtain ⟨a, b, hab, _, _⟩ := trim_decomp raw
    intro hm
    apply hraw
    rw [hab]
    simp [hm]
  have hcol : '\n' ∉ collapseSpaces (trim raw) := by
    intro hm
    exact mem_replaceAll matchSpaces (fun c => c ≠ '\n')
      (fun t rep len ht c hc => by
        rw [(matchSpaces_some t rep len ht).1] at hc
        simp only [List.mem_singleton] at hc
        subst hc
        decide)
      0 (trim raw) (fun c hc e => hline (e ▸ hc)) _ hm rfl
  rcases classify_text (trim raw) with ⟨g, pre, hb, hpre, _⟩ | hb | hb
  · have hg : '\n' ∉ g := by
      intro hm
      apply hline
      rw [hpre]
      simp [hm]
    simp only [List.mem_cons, List.mem_singleton, List.not_mem_nil, or_false] at hb
    rcases hb with hb | hb | hb | hb <;>
      · rw [hb] at h
        simp only [elementOf, Option.some.injEq] at h
        subst h
        simp [hg]
  · rw [hb] at h
    simp [elementOf] at h
  · rw [hb] at h
    simp only [elementOf, Option.some.injEq] at h
    subst h
    simp [hcol]

theorem listTags_no_newline : ∀ l ∈ listTags, '\n' ∉ l := by decide

theorem renderLines_no_newline (lines : List Str) (h : ∀ l ∈ lines, '\n' ∉ l) :
    ∀ l ∈ renderLines lines, '\n' ∉ l := by
  have key : ∀ l ∈ (lines.foldl renderLine { html := [], inUl := false, inOl := false }).html,
      '\n' ∉ l := by
    apply foldl_renderLine_inv (fun st => ∀ l ∈ st.html, '\n' ∉ l)
    · simp
    · intro st raw hraw hst l hl
      rw [renderLine_eq_emit] at hl
      rcases emit_html_mem st _ l hl with h1 | h1 | h1
      · exact hst l h1
      · exact listTags_no_newline l h1
      · exact elementOf_no_newline raw l (h raw hraw) h1
  intro l hl
  unfold renderLines at hl
  rw [closeLists_eq_emit] at hl
  rcases emit_html_mem _ _ l hl with h1 | h1 | h1
  · exact key l h1
  · exact listTags_no_newline l h1
  · simp [elementOf] at h1

theorem renderLines_readLine (lines : List Str) :
    (renderLines lines).foldl readLine (some .closed) = some .closed := by
  have key := foldl_renderLine_inv
    (fun st => (st.inUl && st.inOl) = false ∧
      st.html.foldl readLine (some .closed) = some (modeOf st))
    lines { html := [], inUl := false, inOl := false } (by simp [modeOf])
    (fun st raw _ hst => by
      rw [renderLine_eq_emit]
      exact emit_inv st _ hst.1 hst.2)
  obtain ⟨h1, h2⟩ := emit_inv _ .blank key.1 key.2
  unfold renderLines
  rw [closeLists_eq_emit, h2]
  generalize lines.foldl renderLine { html := [], inUl := false, inOl := false } = st
  obtain ⟨html, inUl, inOl⟩ := st
  cases inUl <;> cases inOl <;> simp [emit, closeLists, modeOf]

/-- C2: for every input, the output read line by line has well-formed lists: no list
is opened while one is open, every `<li>` line stands in an open list, a list is closed
by the closing tag of its own kind and only after at least one item, and no list is
open at the end. -/
theorem formatSummaryAsHtml_lists_well_formed (s : Str) :
    listsWellFormed (formatSummaryAsHtml s) = true := by
  unfold formatSummaryAsHtml
  split
  · decide
  · by_cases hnil : renderLines (splitOn '\n' (markBold s)) = []
    · rw [hnil]
      decide
    · unfold listsWellFormed
      rw [splitOn_join _ _ hnil
        (renderLines_no_newline _ (not_mem_of_mem_splitOn '\n' (markBold s))),
        renderLines_readLine]
      decide

theorem marked_append {a b : Str} (ha : Marked a) (hb : Marked b) : Marked (a ++ b) := by
  induction ha with
  | nil => exact hb
  | chr c t h1 h2 h3 _ ih => exact Marked.chr c _ h1 h2 h3 ih
  | tok e t he _ ih =>
    rw [List.append_assoc]
    exact Marked.tok e _ he ih

theorem marked_of_token {e : Str} (he : e ∈ entities ++ tags) : Marked e := by
  have := Marked.tok e [] he Marked.nil
  simpa using this

theorem token_head (e : Str) (he : e ∈ entities ++ tags) :
    ∃ c t, e = c :: t ∧ (c = '&' ∨ c = '<') := by
  have key : ∀ e ∈ entities ++ tags,
      (match e with
        | c :: _ => c == '&' || c == '<'
        | [] => false) = true := by decide
  have := key e he
  cases e with
  | nil => simp at this
  | cons c t =>
    refine ⟨c, t, rfl, ?_⟩
    simpa using this

theorem marked_tail {c : Char} {t : Str} (h : Marked (c :: t)) (h1 : c ≠ '&') (h2 : c ≠ '<') :
    Marked t := by
  generalize hs : c :: t = s at h
  cases h with
  | nil => simp at hs
  | chr d u _ _ _ hu =>
    simp only [List.cons.injEq] at hs
    rw [hs.2]
    exact hu
  | tok e u he hu =>
    obtain ⟨d, r, rfl, hd⟩ := token_head e he
    simp only [List.cons_append, List.cons.injEq] at hs
    rcases hd with hd | hd
    · exact absurd (hs.1.trans hd) h1
    · exact absurd (hs.1.trans hd) h2

theorem marked_split {a b : Str} {d : Char} (hd : ∀ e ∈ entities ++ tags, d ∉ e)
    (h : Marked (a ++ d :: b)) : Marked a ∧ Marked b := by
  generalize hs : a ++ d :: b = s at h
  induction h generalizing a with
  | nil => simp at hs
  | chr c t h1 h2 h3 ht ih =>
    cases a with
    | nil =>
      simp only [List.nil_append, List.cons.injEq] at hs
      rw [hs.2]
      exact ⟨Marked.nil, ht⟩
    | cons x a =>
      simp only [List.cons_append, List.cons.injEq] at hs
      obtain ⟨ha, hb⟩ := ih hs.2
      rw [hs.1]
      exact ⟨Marked.chr c _ h1 h2 h3 ha, hb⟩
  | tok e t he ht ih =>
    rcases List.append_eq_append_iff.1 hs with ⟨a', h1, h2⟩ | ⟨c', h1, h2⟩
    · cases a' with
      | nil =>
        simp only [List.append_nil, List.nil_append] at h1 h2
        obtain ⟨_, hb⟩ := @ih [] (by simpa using h2)
        rw [← h1]
        exact ⟨marked_of_token he, hb⟩
      | cons x a' =>
        simp only [List.cons_append, List.cons.injEq] at h2
        exfalso
        apply hd e he
        rw [h1, h2.1]
        simp
    · obtain ⟨ha, hb⟩ := ih h2.symm
      rw [h1]
      exact ⟨marked_append (marked_of_token he) ha, hb⟩

theorem isMarker_not_markup (c : Char) (h : isMarker c = true) : c ≠ '&' ∧ c ≠ '<' := by
  constructor <;> (rintro rfl; revert h; decide)

theorem marked_drop_markers {pre g : Str} (hpre : ∀ c ∈ pre, isMarker c = true)
    (h : Marked (pre ++ g)) : Marked g := by
  induction pre with
  | nil => exact h
  | cons c pre ih =>
    obtain ⟨h1, h2⟩ := isMarker_not_markup c (hpre c (List.mem_cons_self _ _))
    exact ih (fun d hd => hpre d (List.mem_cons_of_mem _ hd)) (marked_tail h h1 h2)

theorem token_chars_not_space : ∀ e ∈ entities ++ tags, ∀ c ∈ e,
    isSpace c = false ∧ c ≠ '*' := by decide

theorem space_not_in_token (d : Char) (hd : isSpace d = true) :
    ∀ e ∈ entities ++ tags, d ∉ e := by
  intro e he hm
  have := (token_chars_not_space e he d hm).1
  rw [hd] at this
  exact absurd this (by decide)

theorem marked_drop_spaces_end {a ws : Str} (hws : ∀ c ∈ ws, isSpace c = true)
    (h : Marked (a ++ ws)) : Marked a := by
  cases ws with
  | nil => simpa using h
  | cons d ws => exact (marked_split (space_not_in_token d (hws d (List.mem_cons_self _ _))) h).1

theorem marked_trim {raw : Str} (h : Marked raw) : Marked (trim raw) := by
  obtain ⟨a, b, hab, ha, hb⟩ := trim_decomp raw
  rw [hab, List.append_assoc] at h
  have h1 : Marked (trim raw ++ b) :=
    marked_drop_markers (fun c hc => by simp [isMarker, ha c hc]) h
  exact marked_drop_spaces_end hb h1

theorem marked_escapeSpec (s : Str) : Marked (escapeSpec s) := by
  induction s with
  | nil => exact Marked.nil
  | cons c s ih =>
    have e : escapeSpec (c :: s)
        = (if c = '&' then ['&', 'a', 'm', 'p', ';']
            else if c = '<' then ['&', 'l', 't', ';']
            else if c = '>' then ['&', 'g', 't', ';']
            else [c]) ++ escapeSpec s := by
      simp [escapeSpec]
    rw [e]
    split
    · exact Marked.tok _ _ (by decide) ih
    · split
      · exact Marked.tok _ _ (by decide) ih
      · split
        · exact Marked.tok _ _ (by decide) ih
        · rename_i h1 h2 h3
          exact Marked.chr c _ h2 h3 h1 ih

theorem token_ne_nil : ∀ e ∈ entities ++ tags, 1 ≤ e.length := by decide

theorem marked_replaceAll (m : Str → Option (Str × Nat))
    (hfail : ∀ e ∈ entities ++ tags, ∀ c ∈ e, ∀ t, m (c :: t) = none)
    (hsucc : ∀ s rep len, Marked s → m s = some (rep, len) →
      1 ≤ len ∧ Marked rep ∧ Marked (s.drop len))
    (s : Str) (h : Marked s) : Marked (replaceAll m 0 s) := by
  generalize hn : s.length = n
  induction n using Nat.strong_induction_on generalizing s with
  | _ n ih =>
    cases h with
    | nil => exact Marked.nil
    | chr c t h1 h2 h3 ht =>
      simp only [List.length_cons] at hn
      cases hm : m (c :: t) with
      | none =>
        rw [replaceAll_none _ _ _ hm]
        exact Marked.chr c _ h1 h2 h3 (ih t.length (by omega) t ht rfl)
      | some r =>
        obtain ⟨rep, len⟩ := r
        obtain ⟨hl, hrep, hrest⟩ := hsucc _ rep len (Marked.chr c t h1 h2 h3 ht) hm
        rw [replaceAll_some _ _ _ _ _ hm]
        have e : (c :: t).drop len = t.drop (len - 1) := by
          obtain ⟨k, rfl⟩ : ∃ k, len = k + 1 := ⟨len - 1, by omega⟩
          simp
        rw [e] at hrest
        exact marked_append hrep (ih (t.drop (len - 1)).length (by simp; omega) _ hrest rfl)
    | tok e t he ht =>
      rw [replaceAll_append_of_none _ e t (hfail e he)]
      have := token_ne_nil e he
      simp only [List.length_append] at hn
      exact Marked.tok e _ he (ih t.length (by omega) t ht rfl)

theorem boldRest_some (s g : Str) (h : boldRest s = some g) :
    ∃ rest, s = g ++ '*' :: '*' :: rest := by
  induction s generalizing g with
  | nil => simp [boldRest] at h
  | cons c cs ih =>
    simp only [boldRest] at h
    split at h
    · rename_i hs
      obtain ⟨t, ht⟩ := (startsWith_iff _ _).1 hs
      simp only [Option.some.injEq] at h
      subst h
      exact ⟨t, by simpa using ht⟩
    · split at h
      · simp at h
      · cases hr : boldRest cs with
        | none => simp [hr] at h
        | some g' =>
          simp only [hr, Option.map_some', Option.some.injEq] at h
          obtain ⟨rest, hrest⟩ := ih g' hr
          subst h
          exact ⟨rest, by simp [hrest]⟩

theorem boldGroup_some (s g : Str) (h : boldGroup s = some g) :
    ∃ rest, s = '*' :: '*' :: (g ++ '*' :: '*' :: rest) := by
  unfold boldGroup at h
  split at h
  · rename_i hs
    obtain ⟨t, rfl⟩ := (startsWith_iff _ _).1 hs
    simp only [List.cons_append, List.nil_append, List.drop_succ_cons, List.drop_zero] at h
    cases t with
    | nil => simp at h
    | cons c cs =>
      simp only at h
      split at h
      · simp at h
      · cases hr : boldRest cs with
        | none => simp [hr] at h
        | some g' =>
          simp only [hr, Option.map_some', Option.some.injEq] at h
          obtain ⟨rest, hrest⟩ := boldRest_some cs g' hr
          subst h
          exact ⟨rest, by simp [hrest]⟩
  · simp at h

theorem star_not_in_token : ∀ e ∈ entities ++ tags, '*' ∉ e := by decide

theorem marked_markBold (s : Str) : Marked (markBold s) := by
  unfold markBold
  rw [escapeHtml_eq]
  apply marked_replaceAll
  · intro e he c hc t
    exact matchBold_of_ne c t (token_chars_not_space e he c hc).2
  · intro s rep len hs hm
    unfold matchBold at hm
    cases hg : boldGroup s with
    | none => simp [hg] at hm
    | some g =>
      simp only [hg, Option.map_some', Option.some.injEq, Prod.mk.injEq] at hm
      obtain ⟨hrep, hlen⟩ := hm
      obtain ⟨rest, rfl⟩ := boldGroup_some s g hg
      have h1 : Marked (g ++ '*' :: '*' :: rest) :=
        marked_tail (marked_tail hs (by decide) (by decide)) (by decide) (by decide)
      obtain ⟨hg1, hg2⟩ := marked_split star_not_in_token h1
      have hrest : Marked rest := marked_tail hg2 (by decide) (by decide)
      refine ⟨by omega, ?_, ?_⟩
      · rw [← hrep]
        exact marked_append (marked_append (marked_of_token (by decide)) hg1)
          (marked_of_token (by decide))
      · rw [← hlen]
        have : ('*' :: '*' :: (g ++ '*' :: '*' :: rest)).drop (g.length + 4) = rest := by
          simp [List.drop_append]
        rw [this]
        exact hrest
  · exact marked_escapeSpec s

theorem drop_length_takeWhile (p : Char → Bool) (s : Str) :
    s.drop (s.takeWhile p).length = s.dropWhile p := by
  induction s with
  | nil => rfl
  | cons c s ih =>
    by_cases hc : p c = true
    · simp [List.takeWhile, List.dropWhile, hc, ih]
    · simp [List.takeWhile, List.dropWhile, hc]

theorem marked_collapseSpaces (s : Str) (h : Marked s) : Marked (collapseSpaces s) := by
  unfold collapseSpaces
  apply marked_replaceAll _ _ _ s h
  · intro e he c hc t
    have := (token_chars_not_space e he c hc).1
    simp [matchSpaces, List.takeWhile, this]
  · intro s rep len hs hm
    obtain ⟨hrep, hlen, h2⟩ := matchSpaces_some s rep len hm
    refine ⟨by omega, ?_, ?_⟩
    · rw [hrep]
      exact Marked.chr ' ' [] (by decide) (by decide) (by decide) Marked.nil
    · rw [hlen, drop_length_takeWhile]
      have hpre : ∀ c ∈ s.takeWhile isSpace, isMarker c = true := by
        intro c hc
        simp [isMarker, List.mem_takeWhile_imp hc]
      exact marked_drop_markers hpre (by rw [List.takeWhile_append_dropWhile]; exact hs)

theorem matchTag_of_ne (c : Char) (t : Str) (h : c ≠ '<') : matchTag (c :: t) = none := by
  simp [matchTag, tags, startsWith, h]

theorem stripTags_cons_of_ne (c : Char) (t : Str) (h : c ≠ '<') :
    stripTags (c :: t) = c :: stripTags t := by
  unfold stripTags
  exact replaceAll_none _ _ _ (matchTag_of_ne c t h)

theorem stripTags_entity (e t : Str) (he : e ∈ entities) :
    stripTags (e ++ t) = e ++ stripTags t := by
  unfold stripTags
  apply replaceAll_append_of_none
  intro c hc u
  apply matchTag_of_ne
  rintro rfl
  revert hc
  revert e
  decide

theorem stripTags_tag (e t : Str) (he : e ∈ tags) : stripTags (e ++ t) = stripTags t := by
  unfold stripTags
  simp only [tags, List.mem_cons, List.mem_singleton, List.not_mem_nil, or_false] at he
  rcases he with h | h | h | h | h | h | h | h | h | h | h | h | h | h <;> subst h <;>
    simp [replaceAll, matchTag, tags, startsWith]

theorem ampOk_cons_of_ne (c : Char) (r : Str) (h : c ≠ '&') (hr : ampOk r = true) :
    ampOk (c :: r) = true := by
  simp [ampOk, h, hr]

theorem ampOk_entity (e r : Str) (he : e ∈ entities) (hr : ampOk r = true) :
    ampOk (e ++ r) = true := by
  simp only [entities, List.mem_cons, List.mem_singleton, List.not_mem_nil, or_false] at he
  rcases he with h | h | h <;> subst h <;> simp [ampOk, entities, startsWith, hr]

theorem entity_chars : ∀ e ∈ entities, '<' ∉ e ∧ '>' ∉ e := by decide

theorem stripTags_marked (s : Str) (h : Marked s) :
    '<' ∉ stripTags s ∧ '>' ∉ stripTags s ∧ ampOk (stripTags s) = true := by
  induction h with
  | nil => decide
  | chr c t h1 h2 h3 _ ih =>
    rw [stripTags_cons_of_ne c t h1]
    refine ⟨?_, ?_, ampOk_cons_of_ne c _ h3 ih.2.2⟩
    · simp [ih.1, h1.symm]
    · simp [ih.2.1, h2.symm]
  | tok e t he _ ih =>
    rcases List.mem_append.1 he with he | he
    · rw [stripTags_entity e t he]
      refine ⟨?_, ?_, ampOk_entity e _ he ih.2.2⟩
      · simp [ih.1, (entity_chars e he).1]
      · simp [ih.2.1, (entity_chars e he).2]
    · rw [stripTags_tag e t he]
      exact ih

theorem newline_not_in_token : ∀ e ∈ entities ++ tags, '\n' ∉ e := by decide

theorem marked_splitOn (s : Str) (h : Marked s) : ∀ l ∈ splitOn '\n' s, Marked l := by
  generalize hn : s.length = n
  induction n using Nat.strong_induction_on generalizing s with
  | _ n ih =>
    by_cases hmem : '\n' ∈ s
    · obtain ⟨a, b, hab, ha⟩ := List.eq_append_cons_of_mem hmem
      subst hab
      obtain ⟨h1, h2⟩ := marked_split newline_not_in_token h
      rw [splitOn_append_sep _ _ _ ha]
      intro l hl
      rcases List.mem_cons.1 hl with rfl | hl
      · exact h1
      · exact ih b.length (by rw [← hn]; simp; omega) b h2 rfl l hl
    · rw [splitOn_of_not_mem _ _ hmem]
      intro l hl
      rw [List.mem_singleton.1 hl]
      exact h

theorem marked_elementOf (line l : Str) (hline : Marked line)
    (h : elementOf (classify line) = some l) : Marked l := by
  have wrap : ∀ (o c g : Str), o ∈ entities ++ tags → c ∈ entities ++ tags → Marked g →
      Marked (o ++ g ++ c) := fun o c g ho hc hg =>
    marked_append (marked_append (marked_of_token ho) hg) (marked_of_token hc)
  rcases classify_text line with ⟨g, pre, hb, hpre, hall⟩ | hb | hb
  · have hg : Marked g := marked_drop_markers hall (hpre ▸ hline)
    simp only [List.mem_cons, List.mem_singleton, List.not_mem_nil, or_false] at hb
    rcases hb with hb | hb | hb | hb <;>
      · rw [hb] at h
        simp only [elementOf, Option.some.injEq] at h
        subst h
        exact wrap _ _ g (by decide) (by decide) hg
  · rw [hb] at h
    simp [elementOf] at h
  · rw [hb] at h
    simp only [elementOf, Option.some.injEq] at h
    subst h
    exact wrap _ _ _ (by decide) (by decide) (marked_collapseSpaces line hline)

theorem marked_listTags : ∀ l ∈ listTags, Marked l := by
  intro l hl
  apply marked_of_token
  revert l
  decide

theorem marked_renderLines (lines : List Str) (h : ∀ l ∈ lines, Marked l) :
    ∀ l ∈ renderLines lines, Marked l := by
  have key : ∀ l ∈ (lines.foldl renderLine { html := [], inUl := false, inOl := false }).html,
      Marked l := by
    apply foldl_renderLine_inv (fun st => ∀ l ∈ st.html, Marked l)
    · simp
    · intro st raw hraw hst l hl
      rw [renderLine_eq_emit] at hl
      rcases emit_html_mem st _ l hl with h1 | h1 | h1
      · exact hst l h1
      · exact marked_listTags l h1
      · exact marked_elementOf (trim raw) l (marked_trim (h raw hraw)) h1
  intro l hl
  unfold renderLines at hl
  rw [closeLists_eq_emit] at hl
  rcases emit_html_mem _ _ l hl with h1 | h1 | h1
  · exact key l h1
  · exact marked_listTags l h1
  · simp [elementOf] at h1

theorem marked_join (lines : List Str) (h : ∀ l ∈ lines, Marked l) :
    Marked (join '\n' lines) := by
  induction lines with
  | nil => exact Marked.nil
  | cons l ls ih =>
    cases ls with
    | nil => simpa [join] using h l (List.mem_cons_self _ _)
    | cons l2 ls =>
      rw [join]
      exact marked_append (h l (List.mem_cons_self _ _))
        (Marked.chr '\n' _ (by decide) (by decide) (by decide)
          (ih (fun x hx => h x (List.mem_cons_of_mem _ hx))))

theorem marked_formatSummaryAsHtml (s : Str) : Marked (formatSummaryAsHtml s) := by
  unfold formatSummaryAsHtml
  split
  · exact Marked.nil
  · exact marked_join _ (marked_renderLines _ (marked_splitOn _ (marked_markBold s)))

/-- C3: for every input, once the tags written by `formatSummaryAsHtml` are deleted
from its output, the rest holds no `<` and no `>`, and each `&` in it begins `&amp;`,
`&lt;` or `&gt;`. -/
theorem formatSummaryAsHtml_no_raw_markup (s : Str) :
    '<' ∉ stripTags (formatSummaryAsHtml s) ∧ '>' ∉ stripTags (formatSummaryAsHtml s) ∧
    ampOk (stripTags (formatSummaryAsHtml s)) = true :=
  stripTags_marked _ (marked_formatSummaryAsHtml s)

theorem dropWhile_dropWhile (p : Char → Bool) (s : Str) :
    (s.dropWhile p).dropWhile p = s.dropWhile p := by
  induction s with
  | nil => rfl
  | cons c s ih =>
    by_cases hc : p c = true
    · simp [List.dropWhile, hc, ih]
    · simp [List.dropWhile, hc]

theorem trimEnd_trimEnd (s : Str) : trimEnd (trimEnd s) = trimEnd s := by
  simp [trimEnd, dropWhile_dropWhile]

theorem trimStart_trimStart (s : Str) : trimStart (trimStart s) = trimStart s := by
  simp [trimStart, dropWhile_dropWhile]

theorem trimEnd_initial (s : Str) : trimEnd s <+: s := by
  unfold trimEnd
  have h : s.reverse.dropWhile isSpace <:+ s.reverse := List.dropWhile_suffix isSpace
  obtain ⟨t, ht⟩ := h
  refine ⟨t.reverse, ?_⟩
  have := congrArg List.reverse ht
  simpa using this

theorem trimStart_of_initial (u v : Str) (hu : trimStart u = u) (hv : v <+: u) :
    trimStart v = v := by
  cases v with
  | nil => rfl
  | cons c v =>
    obtain ⟨t, ht⟩ := hv
    rw [← ht] at hu
    have hc := dropWhile_eq_self_head isSpace c (v ++ t) (by simpa [trimStart] using hu)
    exact trimStart_cons c v hc

theorem trim_trim (s : Str) : trim (trim s) = trim s := by
  unfold trim
  rw [trimStart_of_initial (trimStart s) (trimEnd (trimStart s)) (trimStart_trimStart s)
    (trimEnd_initial _), trimEnd_trimEnd]

theorem utf16Length_pos_ne_nil (s : Str) (h : 0 < utf16Length s) : s ≠ [] := by
  rintro rfl
  simp [utf16Length] at h

theorem trim_nil : trim [] = [] := rfl

theorem expandReplacement_of_no_dollar (before matched after rep : Str) (h : '$' ∉ rep) :
    expandReplacement before matched after rep = rep := by
  generalize hn : rep.length = n
  induction n using Nat.strong_induction_on generalizing rep with
  | _ n ih =>
    rcases rep with _ | ⟨c, _ | ⟨d, r⟩⟩
    · rfl
    · rfl
    · have hc : c ≠ '$' := by
        rintro rfl
        exact h (by simp)
      have hr : '$' ∉ d :: r := fun hm => h (List.mem_cons_of_mem _ hm)
      rw [expandReplacement]
      simp only [hc, if_false]
      rw [ih (d :: r).length (by subst hn; simp) (d :: r) hr rfl]

theorem findFirst_some (pat s a b : Str) (h : findFirst pat s = some (a, b)) :
    s = a ++ pat ++ b := by
  induction s generalizing a with
  | nil =>
    simp only [findFirst] at h
    split at h
    · rename_i hp
      cases pat with
      | nil => simp at h; obtain ⟨rfl, rfl⟩ := h; rfl
      | cons c r => simp at hp
    · cases h
  | cons c cs ih =>
    simp only [findFirst] at h
    split at h
    · rename_i hs
      obtain ⟨t, ht⟩ := (startsWith_iff _ _).1 hs
      simp only [Option.some.injEq, Prod.mk.injEq] at h
      obtain ⟨rfl, rfl⟩ := h
      rw [ht]
      simp
    · simp only [Option.map_eq_some'] at h
      obtain ⟨⟨a2, b2⟩, hf, heq⟩ := h
      simp only [Prod.mk.injEq] at heq
      obtain ⟨rfl, rfl⟩ := heq
      rw [ih a2 hf]
      simp

theorem findFirst_first (pat s pre post : Str) (hpat : pat ≠ [])
    (h : FirstOccurrence pat s pre post) : findFirst pat s = some (pre, post) := by
  obtain ⟨hs, hfirst⟩ := h
  subst hs
  induction pre with
  | nil =>
    cases pat with
    | nil => exact absurd rfl hpat
    | cons c r =>
      have hsw : startsWith (c :: r ++ post) (c :: r) = true :=
        (startsWith_iff _ _).2 ⟨post, rfl⟩
      simp only [List.nil_append, List.cons_append] at hsw ⊢
      simp [findFirst, hsw]
  | cons c pre ih =>
    have hns : startsWith (c :: (pre ++ pat ++ post)) pat = false := by
      cases hsw : startsWith (c :: (pre ++ pat ++ post)) pat with
      | false => rfl
      | true =>
        obtain ⟨t, ht⟩ := (startsWith_iff _ _).1 hsw
        have := hfirst [] t (by simpa using ht)
        simp at this
    have hrec : findFirst pat (pre ++ pat ++ post) = some (pre, post) := by
      apply ih
      intro a b hab
      have := hfirst (c :: a) b (by simp [hab])
      simpa using this
    show findFirst pat (c :: (pre ++ pat ++ post)) = some (c :: pre, post)
    rw [findFirst, hns, hrec]
    rfl

theorem findFirst_none (pat s : Str) (h : ∀ a b : Str, s ≠ a ++ pat ++ b) :
    findFirst pat s = none := by
  cases hf : findFirst pat s with
  | none => rfl
  | some p => exact absurd (findFirst_some pat s p.1 p.2 hf) (h p.1 p.2)

theorem headerOf_eq (cfg : Config) (pre post : Str)
    (h : FirstOccurrence modelNamePlaceholder cfg.headerTemplate pre post) :
    headerOf cfg = pre ++ expandReplacement pre modelNamePlaceholder post cfg.modelName
      ++ post := by
  have hf := findFirst_first modelNamePlaceholder cfg.headerTemplate pre post (by decide) h
  unfold headerOf replaceFirst
  have hp : ['{', '{', 'm', 'o', 'd', 'e', 'l', 'N', 'a', 'm', 'e', '}', '}']
      = modelNamePlaceholder := by decide
  rw [hp, hf]

theorem headerOf_of_no_placeholder (cfg : Config)
    (h : ∀ a b : Str, cfg.headerTemplate ≠ a ++ modelNamePlaceholder ++ b) :
    headerOf cfg = cfg.headerTemplate := by
  have hf := findFirst_none modelNamePlaceholder cfg.headerTemplate h
  unfold headerOf replaceFirst
  have hp : ['{', '{', 'm', 'o', 'd', 'e', 'l', 'N', 'a', 'm', 'e', '}', '}']
      = modelNamePlaceholder := by decide
  rw [hp, hf]

theorem mainProgram_single_pdf (cfg : Config) (inherited : Str → Option Str)
    (get : Nat → Option Item) (openaiRequest : Str → Except Str Str)
    (record att : Item) (attId : Nat) (raw response : Str)
    (hreg : record.isRegularItem = true) (htop : record.isTopLevelItem = true)
    (hatts : record.attachments = [attId]) (hget : get attId = some att)
    (hpdf : att.attachmentContentType = "application/pdf".toList)
    (htext : att.attachmentText = .ok raw) (hlen : 100 ≤ utf16Length (trim raw))
    (hnotes : record.notes = []) (hskip : cfg.skipExistingCheck ≠ some true)
    (hllm : openaiRequest (summaryPrompt inherited cfg.userPromptInstructions
      (pickTitle record att) (trim raw)) = .ok response) :
    mainProgram cfg inherited get openaiRequest (some record) =
      { outcome := .done,
        prompts := [summaryPrompt inherited cfg.userPromptInstructions
          (pickTitle record att) (trim raw)],
        notes := [{ content := headerOf cfg ++ '\n' :: formatSummaryAsHtml response,
                    parentID := record.id, libraryID := record.libraryID }] } := by
  have htne : trim raw ≠ [] := utf16Length_pos_ne_nil _ (by omega)
  have hrne : raw ≠ [] := by
    rintro rfl
    exact htne trim_nil
  have hsup : isSupportedAttachment (some att) = true := by
    simp [isSupportedAttachment, hpdf]
  have hfull : getAttachmentFulltext (some att) = some (trim raw) := by
    have h1 : raw.isEmpty = false := by
      cases raw with
      | nil => exact absurd rfl hrne
      | cons c r => rfl
    have h2 : 0 < utf16Length (trim raw) := by omega
    simp [getAttachmentFulltext, hsup, htext, h1, h2]
  have hte : (trim raw).isEmpty = false := by
    cases h : trim raw with
    | nil => exact absurd h htne
    | cons c r => rfl
  have hres : resolveTargetAndFulltext get (some record)
      = .ok { attachment := att, noteParent := record, fulltext := trim raw } := by
    simp [resolveTargetAndFulltext, hreg, htop, hatts, firstWithText, hget, hsup, hfull, hte]
  have h3 : ¬ utf16Length (trim raw) < 100 := by omega
  have h4 : ¬ utf16Length (trim raw) = 0 := by omega
  simp [mainProgram, hres, hskip, hnotes, summaryExists, trim_trim, hte, h3, h4, hllm]

/-- C6: for a top-level record with one pdf attachment whose extracted text has at
least 100 characters after trimming (so for a text of 500 characters), with no note on
the record and `skipExistingCheck` not `true`, when `openaiRequest` returns `response`
the run saves one note, on the record, whose content is the header, a line feed and
`formatSummaryAsHtml(response)`; for the response `**A**`, `- b`, `- c` that is the
header, a line feed and
`<p><strong>A</strong></p>\n<ul>\n<li>b</li>\n<li>c</li>\n</ul>`.  The header is the
template with the first `{{modelName}}` replaced by the model name when the model name
holds no dollar sign, and the template itself when it holds no placeholder; in
general the first placeholder is replaced by the model name with its dollar patterns
expanded (`$$`, `$&`, and the two patterns of the texts before and after the match),
which is where the header is not the one that C6 states. -/
theorem mainProgram_persists_summary (cfg : Config) (inherited : Str → Option Str)
    (get : Nat → Option Item) (openaiRequest : Str → Except Str Str)
    (record att : Item) (attId : Nat) (raw response : Str)
    (hreg : record.isRegularItem = true) (htop : record.isTopLevelItem = true)
    (hatts : record.attachments = [attId]) (hget : get attId = some att)
    (hpdf : att.attachmentContentType = "application/pdf".toList)
    (htext : att.attachmentText = .ok raw) (hlen : 100 ≤ utf16Length (trim raw))
    (hnotes : record.notes = []) (hskip : cfg.skipExistingCheck ≠ some true)
    (hllm : openaiRequest (summaryPrompt inherited cfg.userPromptInstructions
      (pickTitle record att) (trim raw)) = .ok response) :
    mainProgram cfg inherited get openaiRequest (some record) =
      { outcome := .done,
        prompts := [summaryPrompt inherited cfg.userPromptInstructions
          (pickTitle record att) (trim raw)],
        notes := [{ content := headerOf cfg ++ '\n' :: formatSummaryAsHtml response,
                    parentID := record.id, libraryID := record.libraryID }] } ∧
    (response = "**A**\n- b\n- c".toList →
      (mainProgram cfg inherited get openaiRequest (some record)).notes =
        [{ content := headerOf cfg ++
             "\n<p><strong>A</strong></p>\n<ul>\n<li>b</li>\n<li>c</li>\n</ul>".toList,
           parentID := record.id, libraryID := record.libraryID }]) ∧
    (∀ pre post, FirstOccurrence modelNamePlaceholder cfg.headerTemplate pre post →
      '$' ∉ cfg.modelName → headerOf cfg = pre ++ cfg.modelName ++ post) ∧
    ((∀ a b : Str, cfg.headerTemplate ≠ a ++ modelNamePlaceholder ++ b) →
      headerOf cfg = cfg.headerTemplate) ∧
    (∀ pre post, FirstOccurrence modelNamePlaceholder cfg.headerTemplate pre post →
      headerOf cfg = pre ++ expandReplacement pre modelNamePlaceholder post cfg.modelName
        ++ post) := by
  have hmain := mainProgram_single_pdf cfg inherited get openaiRequest record att attId raw
    response hreg htop hatts hget hpdf htext hlen hnotes hskip hllm
  refine ⟨hmain, ?_, ?_, headerOf_of_no_placeholder cfg, headerOf_eq cfg⟩
  · rintro rfl
    rw [hmain]
    have : formatSummaryAsHtml "**A**\n- b\n- c".toList
        = "<p><strong>A</strong></p>\n<ul>\n<li>b</li>\n<li>c</li>\n</ul>".toList := by decide
    rw [this]
    rfl
  · intro pre post hfirst hd
    rw [headerOf_eq cfg pre post hfirst, expandReplacement_of_no_dollar _ _ _ _ hd]

set_option maxRecDepth 100000 in
/-- Witness of C6: a record with one pdf attachment whose text is 500 times `x`. -/
theorem mainProgram_persists_summary_witness :
    (mainProgram
      { modelName := "qwen-flash".toList,
        headerTemplate := "<h2>AI Generated Summary (\x7b\x7bmodelName\x7d\x7d)</h2>".toList,
        userPromptInstructions := "Please summarise.".toList,
        skipExistingCheck := some false }
      (fun _ => none)
      (fun id => if id = 2 then some
        { id := 2, libraryID := 1, isRegularItem := false, isTopLevelItem := false,
          isAttachment := true, attachments := [],
          attachmentContentType := "application/pdf".toList,
          attachmentText := .ok (List.replicate 500 'x'), parentID := some 1,
          title := [], notes := [], note := none } else none)
      (fun _ => .ok "**A**\n- b\n- c".toList)
      (some
        { id := 1, libraryID := 1, isRegularItem := true, isTopLevelItem := true,
          isAttachment := false, attachments := [2], attachmentContentType := [],
          attachmentText := .ok [], parentID := none, title := "A paper".toList,
          notes := [], note := none })).notes =
      [{ content := "<h2>AI Generated Summary (qwen-flash)</h2>".toList ++
          "\n<p><strong>A</strong></p>\n<ul>\n<li>b</li>\n<li>c</li>\n</ul>".toList,
         parentID := 1, libraryID := 1 }] :=
  (mainProgram_persists_summary _ _ _ _ _
    { id := 2, libraryID := 1, isRegularItem := false, isTopLevelItem := false,
      isAttachment := true, attachments := [],
      attachmentContentType := "application/pdf".toList,
      attachmentText := .ok (List.replicate 500 'x'), parentID := some 1,
      title := [], notes := [], note := none }
    2 (List.replicate 500 'x') "**A**\n- b\n- c".toList
    rfl rfl rfl rfl rfl rfl (by decide) rfl (by decide) rfl).2.1 rfl

set_option maxRecDepth 100000 in
/-- C6 fails for a model name with a dollar pattern.  In the scenario of C6 (a record
with one pdf attachment whose text is 500 times `x`, no note, the response `**A**`,
`- b`, `- c`) with the model name `gpt$$4` and the header template of the script, the
header of the note saved is `<h2>AI Generated Summary (gpt$4)</h2>`: `replace` reads
`$$` in the model name as the pattern of one dollar sign.  The template with the
placeholder replaced by the model name is `<h2>AI Generated Summary (gpt$$4)</h2>`. -/
theorem mainProgram_header_dollar_pattern :
    headerOf exampleDollarConfig = "<h2>AI Generated Summary (gpt$4)</h2>".toList ∧
    FirstOccurrence modelNamePlaceholder exampleDollarConfig.headerTemplate
      "<h2>AI Generated Summary (".toList ")</h2>".toList ∧
    headerOf exampleDollarConfig ≠
      "<h2>AI Generated Summary (".toList ++ exampleDollarConfig.modelName ++ ")</h2>".toList ∧
    (mainProgram exampleDollarConfig (fun _ => none)
      (fun id => if id = 2 then some
        { id := 2, libraryID := 1, isRegularItem := false, isTopLevelItem := false,
          isAttachment := true, attachments := [],
          attachmentContentType := "application/pdf".toList,
          attachmentText := .ok (List.replicate 500 'x'), parentID := some 1,
          title := [], notes := [], note := none } else none)
      (fun _ => .ok "**A**\n- b\n- c".toList)
      (some
        { id := 1, libraryID := 1, isRegularItem := true, isTopLevelItem := true,
          isAttachment := false, attachments := [2], attachmentContentType := [],
          attachmentText := .ok [], parentID := none, title := "A paper".toList,
          notes := [], note := none })).notes =
      [{ content := "<h2>AI Generated Summary (gpt$4)</h2>".toList ++
          "\n<p><strong>A</strong></p>\n<ul>\n<li>b</li>\n<li>c</li>\n</ul>".toList,
         parentID := 1, libraryID := 1 }] := by
  refine ⟨by decide, ⟨by decide, ?_⟩, by decide, ?_⟩
  · intro a b hab
    by_contra hlt
    push_neg at hlt
    have hlen : a.length < 26 := by simpa using hlt
    have h1 := congrArg (List.take (a.length + 2)) hab
    have h2 : (a ++ modelNamePlaceholder ++ b).take (a.length + 2) = a ++ ['{', '{'] := by
      rw [List.append_assoc, List.take_append_eq_append_take]
      simp [modelNamePlaceholder, List.take_append_eq_append_take]
    rw [h2] at h1
    have h3 := congrArg List.length h1
    have hmem : '{' ∈ (exampleDollarConfig.headerTemplate).take (a.length + 1) := by
      have h4 := congrArg (List.take (a.length + 1)) h1
      rw [List.take_take] at h4
      rw [show min (a.length + 1) (a.length + 2) = a.length + 1 by omega] at h4
      rw [h4]
      simp [List.take_append_eq_append_take]
    have hsub : (exampleDollarConfig.headerTemplate).take (a.length + 1)
        <+: (exampleDollarConfig.headerTemplate).take 26 := by
      have : (exampleDollarConfig.headerTemplate).take (a.length + 1)
          = ((exampleDollarConfig.headerTemplate).take 26).take (a.length + 1) := by
        rw [List.take_take]
        rw [show min (a.length + 1) 26 = a.length + 1 by omega]
      rw [this]
      exact List.take_prefix _ _
    have hmem2 := hsub.subset hmem
    revert hmem2
    decide
  · have h := mainProgram_single_pdf exampleDollarConfig (fun _ => none)
      (fun id => if id = 2 then some
        { id := 2, libraryID := 1, isRegularItem := false, isTopLevelItem := false,
          isAttachment := true, attachments := [],
          attachmentContentType := "application/pdf".toList,
          attachmentText := .ok (List.replicate 500 'x'), parentID := some 1,
          title := [], notes := [], note := none } else none)
      (fun _ => .ok "**A**\n- b\n- c".toList)
      { id := 1, libraryID := 1, isRegularItem := true, isTopLevelItem := true,
        isAttachment := false, attachments := [2], attachmentContentType := [],
        attachmentText := .ok [], parentID := none, title := "A paper".toList,
        notes := [], note := none }
      { id := 2, libraryID := 1, isRegularItem := false, isTopLevelItem := false,
        isAttachment := true, attachments := [],
        attachmentContentType := "application/pdf".toList,
        attachmentText := .ok (List.replicate 500 'x'), parentID := some 1,
        title := [], notes := [], note := none }
      2 (List.replicate 500 'x') "**A**\n- b\n- c".toList
      rfl rfl rfl rfl rfl rfl (by decide) rfl (by decide) rfl
    rw [h]
    decide

/-- The reader of the output lines is not satisfied by everything: it rejects a list
that is not closed, an item outside a list, a list without item, a list inside a list
and a list closed by the tag of the other kind. -/
theorem listsWellFormed_rejects :
    listsWellFormed "<ul>\n<li>a</li>".toList = false ∧
    listsWellFormed "<li>a</li>".toList = false ∧
    listsWellFormed "<ul>\n</ul>".toList = false ∧
    listsWellFormed "<ul>\n<li>a</li>\n<ol>\n<li>b</li>\n</ol>\n</ul>".toList = false ∧
    listsWellFormed "<ul>\n<li>a</li>\n</ol>".toList = false := by
  decide

/-- The names of the properties that a payload can have. -/
theorem buildPayload_keys (modelName : Str) (llm : LlmConfig) (message : Str) :
    (buildPayload modelName llm message).map Prod.fst =
      ["model".toList, "messages".toList, "temperature".toList] ++
        (if llm.maxTokens.isSome then ["max_tokens".toList] else []) ++
        (if llm.topP.isSome then ["top_p".toList] else []) := by
  obtain ⟨url, key, t, m, p⟩ := llm
  cases t <;> cases m <;> cases p <;> rfl

/-- C12: the payload given to `fetch` has `model` equal to `modelName`, one message
with the role `user` and the prompt as content, `temperature` equal to the configured
number or else to 0.3, `max_tokens` and `top_p` exactly when `maxTokens` and `topP` are
configured, then with their values, and no other property; `openaiRequest` reads of
`fetch` only its outcome on this request. -/
theorem buildPayload_shape (cfg : Config) (llm : LlmConfig) (message : Str) :
    (requestOf cfg llm message).body = .obj (buildPayload cfg.modelName llm message) ∧
    (buildPayload cfg.modelName llm message).lookup "model".toList = some (.str cfg.modelName) ∧
    (buildPayload cfg.modelName llm message).lookup "messages".toList =
      some (.arr [.obj [("role".toList, .str "user".toList), ("content".toList, .str message)]]) ∧
    (buildPayload cfg.modelName llm message).lookup "temperature".toList =
      some (.num (llm.temperature.getD ⟨"0.3".toList⟩)) ∧
    (buildPayload cfg.modelName llm message).lookup "max_tokens".toList =
      llm.maxTokens.map Json.num ∧
    (buildPayload cfg.modelName llm message).lookup "top_p".toList = llm.topP.map Json.num ∧
    (∀ key, key ∈ (buildPayload cfg.modelName llm message).map Prod.fst →
      key ∈ ["model".toList, "messages".toList, "temperature".toList, "max_tokens".toList,
        "top_p".toList]) ∧
    ∀ fetch fetch2 : FetchRequest → Except Str FetchResponse,
      fetch (requestOf cfg llm message) = fetch2 (requestOf cfg llm message) →
      openaiRequest cfg llm fetch message = openaiRequest cfg llm fetch2 message := by
  refine ⟨rfl, ?_, ?_, ?_, ?_, ?_, ?_, ?_⟩
  · obtain ⟨url, key, t, m, p⟩ := llm
    cases t <;> cases m <;> cases p <;> rfl
  · obtain ⟨url, key, t, m, p⟩ := llm
    cases t <;> cases m <;> cases p <;> rfl
  · obtain ⟨url, key, t, m, p⟩ := llm
    cases t <;> cases m <;> cases p <;> rfl
  · obtain ⟨url, key, t, m, p⟩ := llm
    cases t <;> cases m <;> cases p <;> rfl
  · obtain ⟨url, key, t, m, p⟩ := llm
    cases t <;> cases m <;> cases p <;> rfl
  · intro key hkey
    rw [buildPayload_keys] at hkey
    obtain ⟨url, k, t, m, p⟩ := llm
    cases m <;> cases p <;> simp at hkey ⊢ <;> tauto
  · intro fetch fetch2 h
    unfold openaiRequest
    rw [h]

theorem openaiRequest_of_json (cfg : Config) (llm : LlmConfig)
    (fetch : FetchRequest → Except Str FetchResponse) (message : Str) (response : FetchResponse)
    (body : Json) (hfetch : fetch (requestOf cfg llm message) = .ok response)
    (hok : response.ok = true) (hjson : response.json = .ok body) :
    openaiRequest cfg llm fetch message = contentOf body := by
  simp [openaiRequest, hfetch, hok, hjson]

/-- C11 fails on the body `null`, which is valid JSON without `choices`: the property
access `result.choices` raises a `TypeError`, and the call does not fail with the error
`Invalid LLM response: missing choices.` of the validation. -/
theorem openaiRequest_null_body (cfg : Config) (llm : LlmConfig) (message : Str)
    (status : Nat) (statusText : Str) :
    openaiRequest cfg llm
        (fun _ => .ok { ok := true, status := status, statusText := statusText,
                        json := .ok .null }) message
      = .error .typeError ∧
    openaiRequest cfg llm
        (fun _ => .ok { ok := true, status := status, statusText := statusText,
                        json := .ok .null }) message
      ≠ .error (.error "Invalid LLM response: missing choices.".toList) := by
  have h : openaiRequest cfg llm
      (fun _ => .ok { ok := true, status := status, statusText := statusText,
                      json := .ok .null }) message = .error .typeError := by
    rw [openaiRequest_of_json cfg llm _ message _ .null rfl rfl rfl]
    rfl
  refine ⟨h, ?_⟩
  rw [h]
  intro hc
  cases hc

/-- The three bodies named by the specification fail with the errors of the
validation. -/
theorem contentOf_examples :
    contentOf (.obj [("choices".toList, .arr [])])
      = .error (.error "Invalid LLM response: missing choices.".toList) ∧
    contentOf (.obj [("choices".toList, .arr [.obj [("message".toList, .obj [])]])])
      = .error (.error "Invalid LLM response: missing choices[0].message.content.".toList) ∧
    contentOf (.obj [("choices".toList,
        .arr [.obj [("message".toList, .obj [("content".toList, .str "  ".toList)])]])])
      = .error (.error "Invalid LLM response: missing choices[0].message.content.".toList) := by
  exact ⟨rfl, rfl, rfl⟩

/-- Apart from the body `null`, the validation is the one of the specification: the
call returns `choices[0].message.content` unchanged when `choices` is an array that is
not empty and that content is a string that is not blank, and fails with an error
`Invalid LLM response: ...` otherwise. -/
theorem contentOf_of_ne_null (body : Json) (hbody : body ≠ .null) :
    (∀ first rest content,
      body.prop "choices".toList = some (.arr (first :: rest)) →
      Json.optProp "content".toList (Json.optProp "message".toList (some first))
        = some (.str content) →
      trim content ≠ [] → contentOf body = .ok content) ∧
    ((¬ ∃ first rest content,
      body.prop "choices".toList = some (.arr (first :: rest)) ∧
      Json.optProp "content".toList (Json.optProp "message".toList (some first))
        = some (.str content) ∧ trim content ≠ []) →
      contentOf body = .error (.error "Invalid LLM response: missing choices.".toList) ∨
      contentOf body
        = .error (.error "Invalid LLM response: missing choices[0].message.content.".toList)) := by
  have hlen : ∀ s : Str, utf16Length s = 0 ↔ s = [] := by
    intro s
    cases s with
    | nil => simp [utf16Length]
    | cons c t =>
      simp only [utf16Length, List.map_cons, List.sum_cons]
      constructor
      · intro h
        split at h <;> omega
      · intro h
        cases h
  have hunf : contentOf body =
      match body.prop "choices".toList with
      | some (.arr (first :: _)) =>
        match Json.optProp "content".toList (Json.optProp "message".toList (some first)) with
        | some (.str content) =>
          if utf16Length (trim content) = 0 then
            .error (.error "Invalid LLM response: missing choices[0].message.content.".toList)
          else .ok content
        | _ => .error (.error "Invalid LLM response: missing choices[0].message.content.".toList)
      | _ => .error (.error "Invalid LLM response: missing choices.".toList) := by
    cases body with
    | null => exact absurd rfl hbody
    | _ => rfl
  constructor
  · intro first rest content h1 h2 h3
    rw [hunf, h1]
    simp only [h2]
    rw [if_neg (fun h => h3 ((hlen _).1 h))]
  · intro hno
    rw [hunf]
    split
    · rename_i first rest hch
      split
      · rename_i content hcont
        split
        · right; rfl
        · rename_i hne
          exfalso
          exact hno ⟨first, rest, content, hch, hcont, fun h => hne ((hlen _).2 h)⟩
      · right; rfl
    · left; rfl

theorem utf16Length_eq_zero (s : Str) : utf16Length s = 0 ↔ s = [] := by
  cases s with
  | nil => simp [utf16Length]
  | cons c t =>
    simp only [utf16Length, List.map_cons, List.sum_cons]
    constructor
    · intro h
      split at h <;> omega
    · intro h
      cases h

theorem isSupportedAttachment_some (a : Item) :
    isSupportedAttachment (some a) = true ↔
      (a.attachmentContentType = "application/pdf".toList ∨
        a.attachmentContentType = "text/html".toList) := by
  simp [isSupportedAttachment]

theorem getAttachmentFulltext_some (a : Item) (x : Str) :
    getAttachmentFulltext (some a) = some x ↔
      isSupportedAttachment (some a) = true ∧
        ∃ t, a.attachmentText = .ok t ∧ trim t ≠ [] ∧ x = trim t := by
  unfold getAttachmentFulltext
  by_cases hs : isSupportedAttachment (some a) = true
  · simp only [hs, Bool.not_true, Bool.false_eq_true, if_false, true_and]
    cases htext : a.attachmentText with
    | error e => simp
    | ok t =>
      simp only [Except.ok.injEq, exists_eq_left']
      by_cases ht : trim t = []
      · simp [ht, utf16Length]
      · have h0 : 0 < utf16Length (trim t) := by
          have := (utf16Length_eq_zero (trim t)).not.2 ht
          omega
        have hne : t.isEmpty = false := by
          cases t with
          | nil => exact absurd rfl ht
          | cons c r => rfl
        simp [ht, h0, hne, eq_comm]
  · simp [hs]

theorem firstWithText_cons_noText (get : Nat → Option Item) (id : Nat) (ids : List Nat)
    (h : NoText get id) : firstWithText get (id :: ids) = firstWithText get ids := by
  cases hget : get id with
  | none => simp [firstWithText, hget]
  | some a =>
    by_cases hs : isSupportedAttachment (some a) = true
    · cases hf : getAttachmentFulltext (some a) with
      | none => simp [firstWithText, hget, hs, hf]
      | some x =>
        exfalso
        obtain ⟨_, t, ht, hne, _⟩ := (getAttachmentFulltext_some a x).1 hf
        rcases h a hget with h1 | ⟨t2, ht2, hb⟩ | ⟨e, he⟩
        · exact h1 ((isSupportedAttachment_some a).1 hs)
        · rw [ht] at ht2
          cases ht2
          exact hne hb
        · rw [ht] at he
          cases he
    · simp [firstWithText, hget, hs]

theorem firstWithText_append_noText (get : Nat → Option Item) (pre rest : List Nat)
    (h : ∀ i ∈ pre, NoText get i) : firstWithText get (pre ++ rest) = firstWithText get rest := by
  induction pre with
  | nil => rfl
  | cons i pre ih =>
    rw [List.cons_append, firstWithText_cons_noText get i _ (h i (List.mem_cons_self _ _)),
      ih (fun j hj => h j (List.mem_cons_of_mem _ hj))]

theorem firstWithText_cons_text (get : Nat → Option Item) (id : Nat) (ids : List Nat) (a : Item)
    (t : Str) (hget : get id = some a)
    (hsup : a.attachmentContentType = "application/pdf".toList ∨
      a.attachmentContentType = "text/html".toList)
    (htext : a.attachmentText = .ok t) (hne : trim t ≠ []) :
    firstWithText get (id :: ids) = some (a, trim t) := by
  have hs := (isSupportedAttachment_some a).2 hsup
  have hf : getAttachmentFulltext (some a) = some (trim t) :=
    (getAttachmentFulltext_some a _).2 ⟨hs, t, htext, hne, rfl⟩
  have he : (trim t).isEmpty = false := by
    cases h : trim t with
    | nil => exact absurd h hne
    | cons c r => rfl
  simp [firstWithText, hget, hs, hf, he]

theorem not_noText (get : Nat → Option Item) (id : Nat) (h : ¬ NoText get id) :
    ∃ a t, get id = some a ∧
      (a.attachmentContentType = "application/pdf".toList ∨
        a.attachmentContentType = "text/html".toList) ∧
      a.attachmentText = .ok t ∧ trim t ≠ [] := by
  unfold NoText at h
  push_neg at h
  obtain ⟨b, hget, hsup, hok, herr⟩ := h
  cases htext : b.attachmentText with
  | error e => exact absurd htext (herr e)
  | ok t => exact ⟨b, t, hget, hsup, htext, hok t htext⟩

theorem firstWithText_some (get : Nat → Option Item) (ids : List Nat) (a : Item) (x : Str)
    (h : firstWithText get ids = some (a, x)) :
    ∃ pre id post t, ids = pre ++ id :: post ∧ (∀ i ∈ pre, NoText get i) ∧ get id = some a ∧
      (a.attachmentContentType = "application/pdf".toList ∨
        a.attachmentContentType = "text/html".toList) ∧
      a.attachmentText = .ok t ∧ trim t ≠ [] ∧ x = trim t := by
  induction ids with
  | nil => simp [firstWithText] at h
  | cons id ids ih =>
    by_cases hno : NoText get id
    · rw [firstWithText_cons_noText get id ids hno] at h
      obtain ⟨pre, j, post, t, hids, hpre, hrest⟩ := ih h
      refine ⟨id :: pre, j, post, t, by simp [hids], ?_, hrest⟩
      intro i hi
      rcases List.mem_cons.1 hi with rfl | hi
      · exact hno
      · exact hpre i hi
    · obtain ⟨b, t, hget, hsup, htext, hne⟩ := not_noText get id hno
      rw [firstWithText_cons_text get id ids b t hget hsup htext hne] at h
      simp only [Option.some.injEq, Prod.mk.injEq] at h
      obtain ⟨rfl, rfl⟩ := h
      exact ⟨[], id, ids, t, rfl, by simp, hget, hsup, htext, hne, rfl⟩

theorem firstWithText_none_iff (get : Nat → Option Item) (ids : List Nat) :
    firstWithText get ids = none ↔ ∀ i ∈ ids, NoText get i := by
  constructor
  · intro h
    induction ids with
    | nil => simp
    | cons id ids ih =>
      by_cases hno : NoText get id
      · rw [firstWithText_cons_noText get id ids hno] at h
        intro i hi
        rcases List.mem_cons.1 hi with rfl | hi
        · exact hno
        · exact ih h i hi
      · obtain ⟨a, t, hget, hsup, htext, hne⟩ := not_noText get id hno
        rw [firstWithText_cons_text get id ids a t hget hsup htext hne] at h
        cases h
  · intro h
    have := firstWithText_append_noText get ids [] h
    simpa [firstWithText] using this

theorem resolve_topLevel_some (get : Nat → Option Item) (record a : Item) (x : Str)
    (hreg : record.isRegularItem = true) (htop : record.isTopLevelItem = true)
    (hne : record.attachments ≠ []) (h : firstWithText get record.attachments = some (a, x)) :
    resolveTargetAndFulltext get (some record) =
      .ok { attachment := a, noteParent := record, fulltext := x } := by
  simp [resolveTargetAndFulltext, hreg, htop, hne, h]

theorem resolve_topLevel_none (get : Nat → Option Item) (record : Item)
    (hreg : record.isRegularItem = true) (htop : record.isTopLevelItem = true)
    (hne : record.attachments ≠ []) (h : firstWithText get record.attachments = none) :
    resolveTargetAndFulltext get (some record) =
      .error "No extractable PDF/HTML text found on the selected item.".toList := by
  simp [resolveTargetAndFulltext, hreg, htop, hne, h]

theorem resolve_topLevel_nil (get : Nat → Option Item) (record : Item)
    (hreg : record.isRegularItem = true) (htop : record.isTopLevelItem = true)
    (hatts : record.attachments = []) :
    resolveTargetAndFulltext get (some record) =
      .error "No attachments found on the selected item.".toList := by
  simp [resolveTargetAndFulltext, hreg, htop, hatts]

/-- C13: for a top-level record, `resolveTargetAndFulltext` returns the first attachment
of the record's list whose content type is pdf or html and whose text is not blank
after trimming: every candidate before it gives no text, the note parent is the record
and the full text is the trimmed text of that attachment. -/
theorem resolve_first_match (get : Nat → Option Item) (record a : Item) (pre post : List Nat)
    (id : Nat) (t : Str)
    (hreg : record.isRegularItem = true) (htop : record.isTopLevelItem = true)
    (hatts : record.attachments = pre ++ id :: post)
    (hpre : ∀ i ∈ pre, NoText get i) (hget : get id = some a)
    (hsup : a.attachmentContentType = "application/pdf".toList ∨
      a.attachmentContentType = "text/html".toList)
    (htext : a.attachmentText = .ok t) (hne : trim t ≠ []) :
    resolveTargetAndFulltext get (some record) =
      .ok { attachment := a, noteParent := record, fulltext := trim t } := by
  apply resolve_topLevel_some get record a _ hreg htop (by simp [hatts])
  rw [hatts, firstWithText_append_noText get pre _ hpre,
    firstWithText_cons_text get id post a t hget hsup htext hne]

theorem noText_exampleOther : NoText exampleItems 11 := by
  intro a ha
  have : a = exampleOther := by
    simp [exampleItems] at ha
    exact ha.symm
  subst this
  left
  decide

theorem noText_exampleEmptyPdf : NoText exampleItems 12 := by
  intro a ha
  have : a = exampleEmptyPdf := by
    simp [exampleItems] at ha
    exact ha.symm
  subst this
  right
  left
  exact ⟨[], rfl, rfl⟩

/-- Witness of C13: the attachments A (not supported), B (pdf, empty text) and C (pdf
with text), with A and B in either order before C: C is returned, with the record. -/
theorem resolve_first_match_witness :
    resolveTargetAndFulltext exampleItems (some (exampleRecord [11, 12, 13])) =
      .ok { attachment := examplePdf, noteParent := exampleRecord [11, 12, 13],
            fulltext := "hello world...".toList } ∧
    resolveTargetAndFulltext exampleItems (some (exampleRecord [12, 11, 13])) =
      .ok { attachment := examplePdf, noteParent := exampleRecord [12, 11, 13],
            fulltext := "hello world...".toList } :=
  ⟨resolve_first_match exampleItems (exampleRecord [11, 12, 13]) examplePdf [11, 12] [] 13
      " hello world... ".toList rfl rfl rfl
      (by
        intro i hi
        simp only [List.mem_cons, List.mem_singleton, List.not_mem_nil, or_false] at hi
        rcases hi with rfl | rfl
        · exact noText_exampleOther
        · exact noText_exampleEmptyPdf)
      rfl (Or.inl rfl) rfl (by decide),
   resolve_first_match exampleItems (exampleRecord [12, 11, 13]) examplePdf [12, 11] [] 13
      " hello world... ".toList rfl rfl rfl
      (by
        intro i hi
        simp only [List.mem_cons, List.mem_singleton, List.not_mem_nil, or_false] at hi
        rcases hi with rfl | rfl
        · exact noText_exampleEmptyPdf
        · exact noText_exampleOther)
      rfl (Or.inl rfl) rfl (by decide)⟩

/-- C14: for a top-level record without attachments `resolveTargetAndFulltext` fails
with a message that contains `No attachments`, and for no selection it fails with
`No item selected.` -/
theorem resolve_no_attachments (get : Nat → Option Item) (record : Item)
    (hreg : record.isRegularItem = true) (htop : record.isTopLevelItem = true)
    (hatts : record.attachments = []) :
    resolveTargetAndFulltext get (some record) =
      .error "No attachments found on the selected item.".toList ∧
    "No attachments".toList <:+: "No attachments found on the selected item.".toList ∧
    resolveTargetAndFulltext get none = .error "No item selected.".toList := by
  refine ⟨resolve_topLevel_nil get record hreg htop hatts, ?_, rfl⟩
  exact ⟨[], " found on the selected item.".toList, rfl⟩

/-- Witness of C14: the record of the examples without attachments. -/
theorem resolve_no_attachments_witness :
    resolveTargetAndFulltext exampleItems (some (exampleRecord [])) =
      .error "No attachments found on the selected item.".toList :=
  (resolve_no_attachments exampleItems (exampleRecord []) rfl rfl rfl).1

/-- C15: for a top-level record with at least one attachment, `resolveTargetAndFulltext`
fails with `No extractable PDF/HTML text found on the selected item.` exactly when every
attachment gives no text (it is not supported, or its text is empty or blank, or the
extraction raises); it fails with no other message, so an exception of the extraction
never leaves the loop, and candidates without text, raising ones included, do not keep
a later candidate with text from being returned. -/
theorem resolve_no_text_iff (get : Nat → Option Item) (record : Item)
    (hreg : record.isRegularItem = true) (htop : record.isTopLevelItem = true)
    (hne : record.attachments ≠ []) :
    (resolveTargetAndFulltext get (some record) =
        .error "No extractable PDF/HTML text found on the selected item.".toList ↔
      ∀ id ∈ record.attachments, NoText get id) ∧
    (∀ message, resolveTargetAndFulltext get (some record) = .error message →
      message = "No extractable PDF/HTML text found on the selected item.".toList) ∧
    (∀ pre id post a t, record.attachments = pre ++ id :: post →
      (∀ i ∈ pre, ∃ b e, get i = some b ∧ b.attachmentText = .error e) →
      get id = some a →
      (a.attachmentContentType = "application/pdf".toList ∨
        a.attachmentContentType = "text/html".toList) →
      a.attachmentText = .ok t → trim t ≠ [] →
      resolveTargetAndFulltext get (some record) =
        .ok { attachment := a, noteParent := record, fulltext := trim t }) := by
  refine ⟨?_, ?_, ?_⟩
  · constructor
    · intro h
      cases hf : firstWithText get record.attachments with
      | none => exact (firstWithText_none_iff get _).1 hf
      | some p =>
        rw [resolve_topLevel_some get record p.1 p.2 hreg htop hne hf] at h
        cases h
    · intro h
      exact resolve_topLevel_none get record hreg htop hne ((firstWithText_none_iff get _).2 h)
  · intro message h
    cases hf : firstWithText get record.attachments with
    | none =>
      rw [resolve_topLevel_none get record hreg htop hne hf] at h
      cases h
      rfl
    | some p =>
      rw [resolve_topLevel_some get record p.1 p.2 hreg htop hne hf] at h
      cases h
  · intro pre id post a t hatts hpre hget hsup htext hnb
    apply resolve_topLevel_some get record a _ hreg htop hne
    have hno : ∀ i ∈ pre, NoText get i := by
      intro i hi b hb
      obtain ⟨b2, e, hb2, herr⟩ := hpre i hi
      rw [hb] at hb2
      cases hb2
      exact Or.inr (Or.inr ⟨e, herr⟩)
    rw [hatts, firstWithText_append_noText get pre _ hno,
      firstWithText_cons_text get id post a t hget hsup htext hnb]

/-- Witness of C15: the record of the examples with the attachments A (not supported)
and B (pdf, empty text). -/
theorem resolve_no_text_iff_witness :
    resolveTargetAndFulltext exampleItems (some (exampleRecord [11, 12])) =
      .error "No extractable PDF/HTML text found on the selected item.".toList :=
  (resolve_no_text_iff exampleItems (exampleRecord [11, 12]) rfl rfl (by decide)).1.2
    (by
      intro i hi
      have hi2 : i = 11 ∨ i = 12 := by
        simpa [exampleRecord] using hi
      rcases hi2 with rfl | rfl
      · exact noText_exampleOther
      · exact noText_exampleEmptyPdf)

theorem getAttachmentFulltext_none (a : Item)
    (h : (∃ e, a.attachmentText = .error e) ∨ ∃ t, a.attachmentText = .ok t ∧ trim t = []) :
    getAttachmentFulltext (some a) = none := by
  cases hf : getAttachmentFulltext (some a) with
  | none => rfl
  | some x =>
    exfalso
    obtain ⟨_, t, ht, hne, _⟩ := (getAttachmentFulltext_some a x).1 hf
    rcases h with ⟨e, he⟩ | ⟨t2, ht2, hb⟩
    · rw [ht] at he
      cases he
    · rw [ht] at ht2
      cases ht2
      exact hne hb

theorem resolve_attachment_unsupported (get : Nat → Option Item) (sel : Item)
    (hatt : sel.isAttachment = true) (hreg : sel.isRegularItem = false)
    (hs : isSupportedAttachment (some sel) = false) :
    resolveTargetAndFulltext get (some sel) =
      .error "Please select a PDF/HTML attachment or a top-level regular item.".toList := by
  simp [resolveTargetAndFulltext, hatt, hreg, hs]

/-- C16: for a selected attachment (an item that is an attachment and not a regular
item), `resolveTargetAndFulltext` fails with the error of the unsupported type when the
content type is neither pdf nor html, whatever the text of the attachment is; fails
with the error `... It may not be indexed yet by Zotero.` when the type is supported and
the extraction raises or gives an empty or blank text; and returns otherwise the
attachment itself, its trimmed text, and as note parent the parent item when the
attachment has a parent id that is truthy (not 0) and names an item, the attachment
itself when not: no parent id, the parent id 0, or a parent id that names no item. -/
theorem resolve_attachment (get : Nat → Option Item) (sel : Item)
    (hatt : sel.isAttachment = true) (hreg : sel.isRegularItem = false) :
    (¬ (sel.attachmentContentType = "application/pdf".toList ∨
        sel.attachmentContentType = "text/html".toList) →
      ∀ text, resolveTargetAndFulltext get (some { sel with attachmentText := text }) =
        .error "Please select a PDF/HTML attachment or a top-level regular item.".toList) ∧
    ((sel.attachmentContentType = "application/pdf".toList ∨
        sel.attachmentContentType = "text/html".toList) →
      ((∃ e, sel.attachmentText = .error e) ∨ ∃ t, sel.attachmentText = .ok t ∧ trim t = []) →
      resolveTargetAndFulltext get (some sel) =
        .error ("No extractable text found in the selected attachment. " ++
          "It may not be indexed yet by Zotero.").toList) ∧
    ((sel.attachmentContentType = "application/pdf".toList ∨
        sel.attachmentContentType = "text/html".toList) →
      ∀ t, sel.attachmentText = .ok t → trim t ≠ [] →
      (∀ pid parent, sel.parentID = some pid → pid ≠ 0 → get pid = some parent →
        resolveTargetAndFulltext get (some sel) =
          .ok { attachment := sel, noteParent := parent, fulltext := trim t }) ∧
      ((sel.parentID = none ∨ sel.parentID = some 0 ∨
          ∃ pid, sel.parentID = some pid ∧ get pid = none) →
        resolveTargetAndFulltext get (some sel) =
          .ok { attachment := sel, noteParent := sel, fulltext := trim t })) := by
  refine ⟨?_, ?_, ?_⟩
  · intro hsup text
    have hs : isSupportedAttachment (some { sel with attachmentText := text }) = false := by
      have := (isSupportedAttachment_some { sel with attachmentText := text }).not.2 hsup
      simpa using this
    exact resolve_attachment_unsupported get { sel with attachmentText := text } hatt hreg hs
  · intro hsup hbad
    have hs := (isSupportedAttachment_some sel).2 hsup
    have hf := getAttachmentFulltext_none sel hbad
    simp [resolveTargetAndFulltext, hatt, hreg, hs, hf]
  · intro hsup t htext hne
    have hs := (isSupportedAttachment_some sel).2 hsup
    have hf : getAttachmentFulltext (some sel) = some (trim t) :=
      (getAttachmentFulltext_some sel _).2 ⟨hs, t, htext, hne, rfl⟩
    have he : (trim t).isEmpty = false := by
      cases h : trim t with
      | nil => exact absurd h hne
      | cons c r => rfl
    constructor
    · intro pid parent hpid hpos hparent
      simp [resolveTargetAndFulltext, hatt, hreg, hs, hf, he, hpid, hpos, hparent]
    · rintro (hnone | hzero | ⟨pid, hpid, hparent⟩)
      · simp [resolveTargetAndFulltext, hatt, hreg, hs, hf, he, hnone]
      · simp [resolveTargetAndFulltext, hatt, hreg, hs, hf, he, hzero]
      · by_cases hpos : pid = 0
        · simp [resolveTargetAndFulltext, hatt, hreg, hs, hf, he, hpid, hpos]
        · simp [resolveTargetAndFulltext, hatt, hreg, hs, hf, he, hpid, hpos, hparent]

/-- Witness of C16: the pdf attachment of the examples, selected itself.  Its parent id
names no item of the examples, so it is its own note parent; where the parent id names
the record, the record is the note parent; and with the parent id 0 it is its own note
parent although the id 0 names an item. -/
theorem resolve_attachment_witness :
    resolveTargetAndFulltext exampleItems (some examplePdf) =
      .ok { attachment := examplePdf, noteParent := examplePdf,
            fulltext := "hello world...".toList } ∧
    resolveTargetAndFulltext (fun id => if id = 1 then some (exampleRecord [13]) else none)
        (some examplePdf) =
      .ok { attachment := examplePdf, noteParent := exampleRecord [13],
            fulltext := "hello world...".toList } ∧
    resolveTargetAndFulltext (fun _ => some (exampleRecord [13]))
        (some { examplePdf with parentID := some 0 }) =
      .ok { attachment := { examplePdf with parentID := some 0 },
            noteParent := { examplePdf with parentID := some 0 },
            fulltext := "hello world...".toList } :=
  ⟨((resolve_attachment exampleItems examplePdf rfl rfl).2.2 (Or.inl rfl)
      " hello world... ".toList rfl (by decide)).2 (Or.inr (Or.inr ⟨1, rfl, rfl⟩)),
    ((resolve_attachment (fun id => if id = 1 then some (exampleRecord [13]) else none)
      examplePdf rfl rfl).2.2 (Or.inl rfl)
      " hello world... ".toList rfl (by decide)).1 1 (exampleRecord [13]) rfl (by decide) rfl,
    ((resolve_attachment (fun _ => some (exampleRecord [13]))
      { examplePdf with parentID := some 0 } rfl rfl).2.2 (Or.inl rfl)
      " hello world... ".toList rfl (by decide)).2 (Or.inr (Or.inl rfl))⟩

theorem trimEnd_last (s : Str) (c : Char) (h : trimEnd (s ++ [c]) = s ++ [c]) :
    isSpace c = false := by
  unfold trimEnd at h
  have h2 := congrArg List.reverse h
  simp only [List.reverse_reverse, List.reverse_append, List.reverse_cons, List.reverse_nil,
    List.nil_append, List.singleton_append] at h2
  exact dropWhile_eq_self_head isSpace c _ h2

theorem resolve_ok_source (get : Nat → Option Item) (selectedItem : Option Item)
    (target : Target) (h : resolveTargetAndFulltext get selectedItem = .ok target) :
    ∃ t, target.fulltext = trim t ∧ trim t ≠ [] ∧
      isSupportedAttachment (some target.attachment) = true := by
  cases selectedItem with
  | none => simp [resolveTargetAndFulltext] at h
  | some sel =>
    unfold resolveTargetAndFulltext at h
    simp only at h
    split at h
    · split at h
      · cases h
      · split at h
        · rename_i a text hf
          obtain ⟨pre, id, post, t, _, _, _, hsup, _, hne, hx⟩ :=
            firstWithText_some get _ a text hf
          cases h
          exact ⟨t, hx, hne, (isSupportedAttachment_some a).2 hsup⟩
        · cases h
    · split at h
      · split at h
        · cases h
        · rename_i hs
          split at h
          · rename_i text hf
            obtain ⟨_, t, _, hne, hx⟩ := (getAttachmentFulltext_some sel text).1 hf
            split at h
            · cases h
            · cases h
              exact ⟨t, hx, hne, by simpa using hs⟩
          · cases h
      · cases h

/-- C17: when `resolveTargetAndFulltext` succeeds, the full text is not empty, it is
its own trimmed form, its first and its last character are no whitespace, and the
content type of the attachment is pdf or html. -/
theorem resolve_target_invariant (get : Nat → Option Item) (selectedItem : Option Item)
    (target : Target) (h : resolveTargetAndFulltext get selectedItem = .ok target) :
    target.fulltext ≠ [] ∧ trim target.fulltext = target.fulltext ∧
    (∀ c, target.fulltext.head? = some c → isSpace c = false) ∧
    (∀ c, target.fulltext.getLast? = some c → isSpace c = false) ∧
    (target.attachment.attachmentContentType = "application/pdf".toList ∨
      target.attachment.attachmentContentType = "text/html".toList) := by
  obtain ⟨t, hx, hne, hsup⟩ := resolve_ok_source get selectedItem target h
  have htrim : trim target.fulltext = target.fulltext := by rw [hx, trim_trim]
  refine ⟨by rw [hx]; exact hne, htrim, ?_, ?_, (isSupportedAttachment_some _).1 hsup⟩
  · intro c hc
    cases hft : target.fulltext with
    | nil => rw [hft] at hc; cases hc
    | cons d r =>
      rw [hft] at hc htrim
      simp only [List.head?_cons, Option.some.injEq] at hc
      subst hc
      exact (trim_eq_self_cons d r htrim).1
  · intro c hc
    cases hft : target.fulltext with
    | nil => rw [hft] at hc; cases hc
    | cons d r =>
      rw [hft] at htrim
      have hend := (trim_eq_self_cons d r htrim).2
      rw [← hft] at hend
      obtain ⟨s, hs⟩ := List.getLast?_eq_some_iff.1 hc
      rw [hs] at hend
      exact trimEnd_last s c hend

/-- Witness of C17: the target resolved for the record of the examples with the pdf
attachment. -/
theorem resolve_target_invariant_witness :
    trim "hello world...".toList = "hello world...".toList :=
  (resolve_target_invariant exampleItems (some (exampleRecord [13]))
    { attachment := examplePdf, noteParent := exampleRecord [13],
      fulltext := "hello world...".toList } rfl).2.1

theorem summaryExists_iff (get : Nat → Option Item) (header : Str) (ids : List Nat) :
    summaryExists get header ids = true ↔
      ∃ id ∈ ids, ∃ note content, get id = some note ∧ note.note = some content ∧
        startsWith content header = true := by
  unfold summaryExists
  rw [List.any_eq_true]
  constructor
  · rintro ⟨id, hid, h⟩
    cases hget : get id with
    | none => simp [hget] at h
    | some note =>
      cases hnote : note.note with
      | none => simp [hget, hnote] at h
      | some content =>
        simp only [hget, hnote] at h
        exact ⟨id, hid, note, content, hget, hnote, h⟩
  · rintro ⟨id, hid, note, content, hget, hnote, h⟩
    exact ⟨id, hid, by simp [hget, hnote, h]⟩

theorem mainProgram_alreadyExists (cfg : Config) (inherited : Str → Option Str)
    (get : Nat → Option Item) (openaiRequest : Str → Except Str Str) (item : Item)
    (target : Target) (hres : resolveTargetAndFulltext get (some item) = .ok target)
    (hskip : cfg.skipExistingCheck ≠ some true)
    (hex : summaryExists get (headerOf cfg) target.noteParent.notes = true) :
    mainProgram cfg inherited get openaiRequest (some item) =
      { outcome := .alreadyExists, prompts := [], notes := [] } := by
  simp [mainProgram, hres, hskip, hex]

theorem mainProgram_validation (cfg : Config) (inherited : Str → Option Str)
    (get : Nat → Option Item) (openaiRequest : Str → Except Str Str) (item : Item)
    (target : Target) (hres : resolveTargetAndFulltext get (some item) = .ok target)
    (hreach : cfg.skipExistingCheck = some true ∨
      summaryExists get (headerOf cfg) target.noteParent.notes = false) :
    mainProgram cfg inherited get openaiRequest (some item) =
      if utf16Length target.fulltext < 100 then
        failWith ("Extracted text is too short (".toList ++
          (Nat.repr (utf16Length target.fulltext)).toList ++
          (" characters). The PDF may not have been properly indexed by Zotero yet. " ++
            "Please wait a few minutes and try again.").toList) []
      else
        match openaiRequest (summaryPrompt inherited cfg.userPromptInstructions
            (pickTitle target.noteParent target.attachment) target.fulltext) with
        | .error message => failWith message
            [summaryPrompt inherited cfg.userPromptInstructions
              (pickTitle target.noteParent target.attachment) target.fulltext]
        | .ok summaryText =>
          { outcome := .done,
            prompts := [summaryPrompt inherited cfg.userPromptInstructions
              (pickTitle target.noteParent target.attachment) target.fulltext],
            notes := [{ content := headerOf cfg ++ '\n' :: formatSummaryAsHtml summaryText,
                        parentID := target.noteParent.id,
                        libraryID := target.noteParent.libraryID }] } := by
  obtain ⟨t, hx, hne0, _⟩ := resolve_ok_source get (some item) target hres
  have hne : target.fulltext ≠ [] := by rw [hx]; exact hne0
  have htrim : trim target.fulltext = target.fulltext := by rw [hx, trim_trim]
  have hdup : (if cfg.skipExistingCheck = some true then false
      else summaryExists get (headerOf cfg) target.noteParent.notes) = false := by
    rcases hreach with h | h
    · simp [h]
    · simp [h]
  have hemp : target.fulltext.isEmpty = false := by
    cases h : target.fulltext with
    | nil => exact absurd h hne
    | cons c r => rfl
  have hpos : ¬ utf16Length target.fulltext = 0 := fun h => hne ((utf16Length_eq_zero _).1 h)
  simp only [mainProgram, hres, hdup, htrim, hemp, Bool.false_eq_true, if_false, Bool.false_or,
    decide_eq_true_eq, hpos]

theorem mainProgram_not_alreadyExists (cfg : Config) (inherited : Str → Option Str)
    (get : Nat → Option Item) (openaiRequest : Str → Except Str Str) (item : Item)
    (target : Target) (hres : resolveTargetAndFulltext get (some item) = .ok target)
    (hreach : cfg.skipExistingCheck = some true ∨
      summaryExists get (headerOf cfg) target.noteParent.notes = false) :
    (mainProgram cfg inherited get openaiRequest (some item)).outcome ≠ .alreadyExists := by
  rw [mainProgram_validation cfg inherited get openaiRequest item target hres hreach]
  split
  · simp [failWith]
  · split <;> simp [failWith]

/-- C18: after a successful resolution the run ends with `alreadyExists` exactly when
`skipExistingCheck` is not `true` and some note of the note parent has a content that
starts with the header; then `openaiRequest` is not called and no note is saved.  The
length of the text plays no part, so this also holds for a text shorter than 100
characters.  With `skipExistingCheck` equal to `true` the run never ends so. -/
theorem mainProgram_duplicate_iff (cfg : Config) (inherited : Str → Option Str)
    (get : Nat → Option Item) (openaiRequest : Str → Except Str Str) (item : Item)
    (target : Target) (hres : resolveTargetAndFulltext get (some item) = .ok target) :
    ((mainProgram cfg inherited get openaiRequest (some item)).outcome = .alreadyExists ↔
      cfg.skipExistingCheck ≠ some true ∧
        ∃ id ∈ target.noteParent.notes, ∃ note content, get id = some note ∧
          note.note = some content ∧ startsWith content (headerOf cfg) = true) ∧
    ((mainProgram cfg inherited get openaiRequest (some item)).outcome = .alreadyExists →
      (mainProgram cfg inherited get openaiRequest (some item)).prompts = [] ∧
      (mainProgram cfg inherited get openaiRequest (some item)).notes = []) ∧
    (cfg.skipExistingCheck = some true →
      (mainProgram cfg inherited get openaiRequest (some item)).outcome ≠ .alreadyExists) := by
  have hcase : (cfg.skipExistingCheck ≠ some true ∧
      summaryExists get (headerOf cfg) target.noteParent.notes = true) ∨
      (cfg.skipExistingCheck = some true ∨
        summaryExists get (headerOf cfg) target.noteParent.notes = false) := by
    by_cases h1 : cfg.skipExistingCheck = some true
    · exact Or.inr (Or.inl h1)
    · cases h2 : summaryExists get (headerOf cfg) target.noteParent.notes with
      | true => exact Or.inl ⟨h1, rfl⟩
      | false => exact Or.inr (Or.inr rfl)
  refine ⟨?_, ?_, ?_⟩
  · constructor
    · intro h
      rcases hcase with ⟨h1, h2⟩ | h3
      · exact ⟨h1, (summaryExists_iff get _ _).1 h2⟩
      · exact absurd h
          (mainProgram_not_alreadyExists cfg inherited get openaiRequest item target hres h3)
    · rintro ⟨h1, h2⟩
      rw [mainProgram_alreadyExists cfg inherited get openaiRequest item target hres h1
        ((summaryExists_iff get _ _).2 h2)]
  · intro h
    rcases hcase with ⟨h1, h2⟩ | h3
    · rw [mainProgram_alreadyExists cfg inherited get openaiRequest item target hres h1 h2]
      exact ⟨rfl, rfl⟩
    · exact absurd h
        (mainProgram_not_alreadyExists cfg inherited get openaiRequest item target hres h3)
  · intro h
    exact mainProgram_not_alreadyExists cfg inherited get openaiRequest item target hres
      (Or.inl h)

/-- Witness of C18: a record whose pdf text has 14 characters and whose note starts with
the header. -/
theorem mainProgram_duplicate_iff_witness :
    (mainProgram exampleConfig (fun _ => none)
      (exampleItemsWithNote "<h2>AI Generated Summary (qwen-flash)</h2>\n<p>old</p>".toList)
      (fun _ => .ok ['x']) (some exampleRecordWithNote)).outcome = .alreadyExists :=
  (mainProgram_duplicate_iff exampleConfig (fun _ => none)
    (exampleItemsWithNote "<h2>AI Generated Summary (qwen-flash)</h2>\n<p>old</p>".toList)
    (fun _ => .ok ['x']) exampleRecordWithNote
    { attachment := examplePdf, noteParent := exampleRecordWithNote,
      fulltext := "hello world...".toList } rfl).1.2
    ⟨by decide, 21, by decide, exampleNote _, _, rfl, rfl, by decide⟩

/-- C19: a run that reaches the validation of the length with a text of fewer than 100
characters after trimming fails with the message `Extracted text is too short (n
characters)...`, where `n` is the number of characters of that text, which is its own
trimmed form; `openaiRequest` is not called and no note is saved.  With 100 characters
or more the validation passes and `openaiRequest` is called. -/
theorem mainProgram_text_too_short (cfg : Config) (inherited : Str → Option Str)
    (get : Nat → Option Item) (openaiRequest : Str → Except Str Str) (item : Item)
    (target : Target) (hres : resolveTargetAndFulltext get (some item) = .ok target)
    (hreach : cfg.skipExistingCheck = some true ∨
      summaryExists get (headerOf cfg) target.noteParent.notes = false) :
    (utf16Length (trim target.fulltext) < 100 →
      mainProgram cfg inherited get openaiRequest (some item) =
        { outcome := .failed ("Error: ".toList ++ ("Extracted text is too short (".toList ++
            (Nat.repr (utf16Length target.fulltext)).toList ++
            (" characters). The PDF may not have been properly indexed by Zotero yet. " ++
              "Please wait a few minutes and try again.").toList)),
          prompts := [], notes := [] }) ∧
    utf16Length target.fulltext = utf16Length (trim target.fulltext) ∧
    (100 ≤ utf16Length (trim target.fulltext) →
      (mainProgram cfg inherited get openaiRequest (some item)).prompts =
        [summaryPrompt inherited cfg.userPromptInstructions
          (pickTitle target.noteParent target.attachment) target.fulltext]) := by
  obtain ⟨t, hx, _, _⟩ := resolve_ok_source get (some item) target hres
  have htrim : trim target.fulltext = target.fulltext := by rw [hx, trim_trim]
  rw [htrim, mainProgram_validation cfg inherited get openaiRequest item target hres hreach]
  refine ⟨?_, rfl, ?_⟩
  · intro h
    rw [if_pos h]
    rfl
  · intro h
    rw [if_neg (by omega)]
    split <;> rfl

/-- Witness of C19: the record of the examples with the pdf attachment whose trimmed
text has 14 characters. -/
theorem mainProgram_text_too_short_witness :
    mainProgram exampleConfig (fun _ => none) exampleItems (fun _ => .ok ['x'])
        (some (exampleRecord [13])) =
      { outcome := .failed ("Error: Extracted text is too short (14 characters). " ++
          "The PDF may not have been properly indexed by Zotero yet. " ++
          "Please wait a few minutes and try again.").toList,
        prompts := [], notes := [] } :=
  (mainProgram_text_too_short exampleConfig (fun _ => none) exampleItems (fun _ => .ok ['x'])
    (exampleRecord [13])
    { attachment := examplePdf, noteParent := exampleRecord [13],
      fulltext := "hello world...".toList } rfl (Or.inr rfl)).1 (by decide)

theorem startsWith_append_self (p t : Str) : startsWith (p ++ t) p = true :=
  (startsWith_iff _ _).2 ⟨t, rfl⟩

theorem mainProgram_note_content (cfg : Config) (inherited : Str → Option Str)
    (get : Nat → Option Item) (openaiRequest : Str → Except Str Str) (item : Option Item)
    (note : NewNote)
    (hrun : (mainProgram cfg inherited get openaiRequest item).notes = [note]) :
    ∃ html, note.content = headerOf cfg ++ '\n' :: html := by
  cases item with
  | none => simp [mainProgram] at hrun
  | some it =>
    cases hres : resolveTargetAndFulltext get (some it) with
    | error e => simp [mainProgram, hres, failWith] at hrun
    | ok target =>
      by_cases hdup : cfg.skipExistingCheck ≠ some true ∧
          summaryExists get (headerOf cfg) target.noteParent.notes = true
      · rw [mainProgram_alreadyExists cfg inherited get openaiRequest it target hres hdup.1
          hdup.2] at hrun
        simp at hrun
      · have hreach : cfg.skipExistingCheck = some true ∨
            summaryExists get (headerOf cfg) target.noteParent.notes = false := by
          by_cases h1 : cfg.skipExistingCheck = some true
          · exact Or.inl h1
          · right
            cases h2 : summaryExists get (headerOf cfg) target.noteParent.notes with
            | true => exact absurd ⟨h1, h2⟩ hdup
            | false => rfl
        rw [mainProgram_validation cfg inherited get openaiRequest it target hres hreach] at hrun
        split at hrun
        · simp [failWith] at hrun
        · split at hrun
          · simp [failWith] at hrun
          · rename_i summaryText _
            simp only [List.cons.injEq, and_true] at hrun
            exact ⟨formatSummaryAsHtml summaryText, by rw [← hrun]⟩

/-- C20: the content of the note saved by a successful run starts with the header that
the duplicate check computes from the same configuration, so a later run with that
configuration, on a selection whose note parent holds a note with this content, with
`skipExistingCheck` not `true`, ends with `alreadyExists` and saves no note. -/
theorem mainProgram_note_is_duplicate_key (cfg : Config) (inherited : Str → Option Str)
    (get : Nat → Option Item) (openaiRequest : Str → Except Str Str) (item : Option Item)
    (note : NewNote)
    (hrun : (mainProgram cfg inherited get openaiRequest item).notes = [note]) :
    startsWith note.content (headerOf cfg) = true ∧
    ∀ (inherited2 : Str → Option Str) (get2 : Nat → Option Item)
      (openaiRequest2 : Str → Except Str Str) (item2 : Item) (target2 : Target) (id : Nat)
      (saved : Item),
      resolveTargetAndFulltext get2 (some item2) = .ok target2 →
      id ∈ target2.noteParent.notes → get2 id = some saved →
      saved.note = some note.content → cfg.skipExistingCheck ≠ some true →
      mainProgram cfg inherited2 get2 openaiRequest2 (some item2) =
        { outcome := .alreadyExists, prompts := [], notes := [] } := by
  obtain ⟨html, hcontent⟩ :=
    mainProgram_note_content cfg inherited get openaiRequest item note hrun
  have hstart : startsWith note.content (headerOf cfg) = true := by
    rw [hcontent]
    exact startsWith_append_self _ _
  refine ⟨hstart, ?_⟩
  intro inherited2 get2 openaiRequest2 item2 target2 id saved hres hid hget hnote hskip
  exact mainProgram_alreadyExists cfg inherited2 get2 openaiRequest2 item2 target2 hres hskip
    ((summaryExists_iff get2 _ _).2 ⟨id, hid, saved, note.content, hget, hnote, hstart⟩)

set_option maxRecDepth 100000 in
/-- Witness of C20: a first run on the record with the long pdf attachment saves a
note; a second run on the same record, which now holds that note, ends with
`alreadyExists`. -/
theorem mainProgram_note_is_duplicate_key_witness :
    mainProgram exampleConfig (fun _ => none)
        (exampleLongItems (some ("<h2>AI Generated Summary (qwen-flash)</h2>".toList ++
          "\n<p><strong>A</strong></p>".toList)))
        (fun _ => .ok "**A**".toList) (some (exampleLongRecord [21])) =
      { outcome := .alreadyExists, prompts := [], notes := [] } :=
  (mainProgram_note_is_duplicate_key exampleConfig (fun _ => none) (exampleLongItems none)
    (fun _ => .ok "**A**".toList) (some (exampleLongRecord []))
    { content := "<h2>AI Generated Summary (qwen-flash)</h2>".toList ++
        "\n<p><strong>A</strong></p>".toList, parentID := 3, libraryID := 1 }
    (by decide)).2 (fun _ => none) _ (fun _ => .ok "**A**".toList) (exampleLongRecord [21])
    { attachment := exampleLongPdf, noteParent := exampleLongRecord [21],
      fulltext := List.replicate 120 'x' } 21 (exampleNote _) rfl (by decide) rfl rfl
    (by decide)

theorem endsWith_iff (s p : Str) : endsWith s p = true ↔ ∃ t, s = t ++ p := by
  unfold endsWith
  rw [startsWith_iff]
  constructor
  · rintro ⟨u, hu⟩
    refine ⟨u.reverse, ?_⟩
    have := congrArg List.reverse hu
    simpa using this
  · rintro ⟨t, rfl⟩
    exact ⟨t.reverse, by simp⟩

theorem normalizeBaseUrl_of_slash (t : Str) : normalizeBaseUrl (t ++ ['/']) = t := by
  have h : endsWith (t ++ ['/']) ['/'] = true := (endsWith_iff _ _).2 ⟨t, rfl⟩
  simp [normalizeBaseUrl, h]

theorem normalizeBaseUrl_of_no_slash (url : Str) (h : endsWith url ['/'] = false) :
    normalizeBaseUrl url = url := by
  simp [normalizeBaseUrl, h]

theorem openaiRequest_congr (cfg : Config) (llm : LlmConfig)
    (fetch fetch2 : FetchRequest → Except Str FetchResponse) (message : Str)
    (h : fetch (requestOf cfg llm message) = fetch2 (requestOf cfg llm message)) :
    openaiRequest cfg llm fetch message = openaiRequest cfg llm fetch2 message := by
  unfold openaiRequest
  rw [h]

/-- C21 as stated fails: with the configured URL `http://h//` the URL used for the
request is `http://h/`, which ends with a slash, and the request goes to
`http://h//chat/completions`. -/
theorem normalizeBaseUrl_keeps_a_slash :
    normalizeBaseUrl "http://h//".toList = "http://h/".toList ∧
    endsWith (normalizeBaseUrl "http://h//".toList) ['/'] = true ∧
    (requestOf exampleConfig
      (normalizedLlm { openaiBaseUrl := "http://h//".toList, apiKey := [], temperature := none,
                       maxTokens := none, topP := none }) ['p']).url
      = "http://h//chat/completions".toList := by
  decide

/-- C21, amended: the main program takes one trailing slash off the configured URL.
The URL used is the configured one without its last character when that is a slash,
and the configured one unchanged otherwise; it is a beginning of the configured URL; it
still ends with a slash exactly when the configured URL ends with two slashes; and the
request is sent to it followed by `/chat/completions`: the run reads of `fetch` only
its outcomes on requests to that address. -/
theorem normalizeBaseUrl_spec (cfg : Config) (llm : LlmConfig) :
    (endsWith llm.openaiBaseUrl ['/'] = true →
      normalizeBaseUrl llm.openaiBaseUrl ++ ['/'] = llm.openaiBaseUrl) ∧
    (endsWith llm.openaiBaseUrl ['/'] = false →
      normalizeBaseUrl llm.openaiBaseUrl = llm.openaiBaseUrl) ∧
    normalizeBaseUrl llm.openaiBaseUrl <+: llm.openaiBaseUrl ∧
    (endsWith (normalizeBaseUrl llm.openaiBaseUrl) ['/'] = true ↔
      endsWith llm.openaiBaseUrl ['/', '/'] = true) ∧
    (∀ message, (requestOf cfg (normalizedLlm llm) message).url =
      normalizeBaseUrl llm.openaiBaseUrl ++ "/chat/completions".toList) ∧
    ∀ (typeErrorMessage : Str) (inherited : Str → Option Str) (get : Nat → Option Item)
      (item : Option Item) (fetch fetch2 : FetchRequest → Except Str FetchResponse),
      (∀ request, request.url = normalizeBaseUrl llm.openaiBaseUrl ++ "/chat/completions".toList →
        fetch request = fetch2 request) →
      runScript cfg llm typeErrorMessage inherited get fetch item =
        runScript cfg llm typeErrorMessage inherited get fetch2 item := by
  have hslash : endsWith llm.openaiBaseUrl ['/'] = true →
      normalizeBaseUrl llm.openaiBaseUrl ++ ['/'] = llm.openaiBaseUrl := by
    intro h
    obtain ⟨t, ht⟩ := (endsWith_iff _ _).1 h
    rw [ht, normalizeBaseUrl_of_slash]
  refine ⟨hslash, normalizeBaseUrl_of_no_slash _, ?_, ?_, fun _ => rfl, ?_⟩
  · cases h : endsWith llm.openaiBaseUrl ['/'] with
    | true => exact ⟨['/'], hslash h⟩
    | false => exact ⟨[], by rw [normalizeBaseUrl_of_no_slash _ h]; simp⟩
  · constructor
    · intro h
      obtain ⟨t, ht⟩ := (endsWith_iff _ _).1 h
      cases h1 : endsWith llm.openaiBaseUrl ['/'] with
      | true =>
        have := hslash h1
        rw [ht] at this
        exact (endsWith_iff _ _).2 ⟨t, by rw [← this]; simp⟩
      | false =>
        rw [normalizeBaseUrl_of_no_slash _ h1] at h
        rw [h1] at h
        cases h
    · intro h
      obtain ⟨t, ht⟩ := (endsWith_iff _ _).1 h
      have e : llm.openaiBaseUrl = (t ++ ['/']) ++ ['/'] := by rw [ht]; simp
      rw [e, normalizeBaseUrl_of_slash]
      exact (endsWith_iff _ _).2 ⟨t, rfl⟩
  · intro typeErrorMessage inherited get item fetch fetch2 h
    unfold runScript
    congr 1
    funext prompt
    rw [openaiRequest_congr cfg (normalizedLlm llm) fetch fetch2 prompt (h _ rfl)]

/-- Witness of C21 (amended): the URL of the script, with one trailing slash. -/
theorem normalizeBaseUrl_spec_witness :
    normalizeBaseUrl "https://dashscope.aliyuncs.com/compatible-mode/v1/".toList ++ ['/']
      = "https://dashscope.aliyuncs.com/compatible-mode/v1/".toList :=
  (normalizeBaseUrl_spec exampleConfig
    { openaiBaseUrl := "https://dashscope.aliyuncs.com/compatible-mode/v1/".toList,
      apiKey := [], temperature := none, maxTokens := none, topP := none }).1 (by decide)

theorem contentOf_error_ne_nil (body : Json) (m : Str)
    (h : contentOf body = .error (.error m)) : m ≠ [] := by
  unfold contentOf at h
  split at h
  · cases h
  · split at h
    · split at h
      · split at h
        · cases h
          decide
        · cases h
      · cases h
        decide
    · cases h
      decide

theorem openaiRequest_error_ne_nil (cfg : Config) (llm : LlmConfig)
    (fetch : FetchRequest → Except Str FetchResponse) (message m : Str)
    (h : openaiRequest cfg llm fetch message = .error (.error m)) : m ≠ [] := by
  unfold openaiRequest at h
  split at h
  · cases h
    simp
  · split at h
    · simp only at h
      split at h
      · cases h
        simp
      · split at h
        · split at h
          · cases h
            simp
          · cases h
        · cases h
          simp
    · split at h
      · cases h
        simp
      · exact contentOf_error_ne_nil _ m h

theorem shown_error (typeErrorMessage m : Str) (h : m ≠ []) :
    (Thrown.error m).shown typeErrorMessage = m := by
  cases m with
  | nil => exact absurd rfl h
  | cons c r => rfl

theorem mainProgram_resolve_error (cfg : Config) (inherited : Str → Option Str)
    (get : Nat → Option Item) (openaiRequest : Str → Except Str Str) (item : Item) (m : Str)
    (hres : resolveTargetAndFulltext get (some item) = .error m) :
    mainProgram cfg inherited get openaiRequest (some item) =
      { outcome := .failed ("Error: ".toList ++ m), prompts := [], notes := [] } := by
  simp [mainProgram, hres, failWith]

theorem mainProgram_failed_notes (cfg : Config) (inherited : Str → Option Str)
    (get : Nat → Option Item) (openaiRequest : Str → Except Str Str) (item : Option Item)
    (msg : Str) (h : (mainProgram cfg inherited get openaiRequest item).outcome = .failed msg) :
    (mainProgram cfg inherited get openaiRequest item).notes = [] ∧
      ∃ m, msg = "Error: ".toList ++ m := by
  cases item with
  | none => simp [mainProgram] at h
  | some it =>
    cases hres : resolveTargetAndFulltext get (some it) with
    | error e =>
      rw [mainProgram_resolve_error cfg inherited get openaiRequest it e hres] at h ⊢
      simp only [Outcome.failed.injEq] at h
      exact ⟨rfl, e, h.symm⟩
    | ok target =>
      by_cases hdup : cfg.skipExistingCheck ≠ some true ∧
          summaryExists get (headerOf cfg) target.noteParent.notes = true
      · rw [mainProgram_alreadyExists cfg inherited get openaiRequest it target hres hdup.1
          hdup.2] at h
        cases h
      · have hreach : cfg.skipExistingCheck = some true ∨
            summaryExists get (headerOf cfg) target.noteParent.notes = false := by
          by_cases h1 : cfg.skipExistingCheck = some true
          · exact Or.inl h1
          · right
            cases h2 : summaryExists get (headerOf cfg) target.noteParent.notes with
            | true => exact absurd ⟨h1, h2⟩ hdup
            | false => rfl
        rw [mainProgram_validation cfg inherited get openaiRequest it target hres hreach] at h ⊢
        split at h
        · rw [if_pos (by assumption)]
          simp only [failWith, Outcome.failed.injEq] at h
          exact ⟨rfl, _, h.symm⟩
        · rw [if_neg (by assumption)]
          split at h
          · rename_i message heq
            simp only [failWith, Outcome.failed.injEq] at h
            exact ⟨rfl, _, h.symm⟩
          · cases h

/-- C22: when the resolution of the target, the validation of the length of the text or
the call of the LLM fails, the run saves no note, the stages after the failure do not
run (no call of the LLM after a failed resolution or validation), and the message shown
is `Error: ` and the message of the error.  The errors that `openaiRequest` makes for
the network, the HTTP status, the JSON text and the protocol have a message that is not
empty, which is the one shown. -/
theorem runScript_failure (cfg : Config) (llm : LlmConfig) (typeErrorMessage : Str)
    (inherited : Str → Option Str) (get : Nat → Option Item)
    (fetch : FetchRequest → Except Str FetchResponse) (item : Item) :
    (∀ m, resolveTargetAndFulltext get (some item) = .error m →
      runScript cfg llm typeErrorMessage inherited get fetch (some item) =
        { outcome := .failed ("Error: ".toList ++ m), prompts := [], notes := [] }) ∧
    (∀ target, resolveTargetAndFulltext get (some item) = .ok target →
      (cfg.skipExistingCheck = some true ∨
        summaryExists get (headerOf cfg) target.noteParent.notes = false) →
      (utf16Length target.fulltext < 100 →
        runScript cfg llm typeErrorMessage inherited get fetch (some item) =
          { outcome := .failed ("Error: ".toList ++ ("Extracted text is too short (".toList ++
              (Nat.repr (utf16Length target.fulltext)).toList ++
              (" characters). The PDF may not have been properly indexed by Zotero yet. " ++
                "Please wait a few minutes and try again.").toList)),
            prompts := [], notes := [] }) ∧
      (100 ≤ utf16Length target.fulltext →
        ∀ thrown,
          openaiRequest cfg (normalizedLlm llm) fetch
            (summaryPrompt inherited cfg.userPromptInstructions
              (pickTitle target.noteParent target.attachment) target.fulltext) = .error thrown →
          runScript cfg llm typeErrorMessage inherited get fetch (some item) =
            { outcome := .failed ("Error: ".toList ++ thrown.shown typeErrorMessage),
              prompts := [summaryPrompt inherited cfg.userPromptInstructions
                (pickTitle target.noteParent target.attachment) target.fulltext],
              notes := [] })) ∧
    (∀ prompt m, openaiRequest cfg (normalizedLlm llm) fetch prompt = .error (.error m) →
      (Thrown.error m).shown typeErrorMessage = m) ∧
    (∀ prompt,
      (∀ e, fetch (requestOf cfg (normalizedLlm llm) prompt) = .error e →
        openaiRequest cfg (normalizedLlm llm) fetch prompt =
          .error (.error ("Network error while calling ".toList ++
            normalizeBaseUrl llm.openaiBaseUrl ++ ": ".toList ++ e))) ∧
      (∀ response, fetch (requestOf cfg (normalizedLlm llm) prompt) = .ok response →
        (response.ok = false →
          ∃ thrown, openaiRequest cfg (normalizedLlm llm) fetch prompt = .error thrown) ∧
        (response.ok = true →
          (∀ e, response.json = .error e →
            openaiRequest cfg (normalizedLlm llm) fetch prompt =
              .error (.error ("Error when parsing json of ".toList ++
                normalizeBaseUrl llm.openaiBaseUrl ++ "/chat/completions: ".toList ++ e))) ∧
          (∀ body, response.json = .ok body →
            openaiRequest cfg (normalizedLlm llm) fetch prompt = contentOf body)))) ∧
    (∀ msg, (runScript cfg llm typeErrorMessage inherited get fetch (some item)).outcome
        = .failed msg →
      (runScript cfg llm typeErrorMessage inherited get fetch (some item)).notes = [] ∧
      ∃ m, msg = "Error: ".toList ++ m) := by
  refine ⟨?_, ?_, ?_, ?_, ?_⟩
  · intro m hres
    exact mainProgram_resolve_error cfg inherited get _ item m hres
  · intro target hres hreach
    unfold runScript
    rw [mainProgram_validation cfg inherited get _ item target hres hreach]
    constructor
    · intro h
      rw [if_pos h]
      rfl
    · intro h thrown hthrown
      rw [if_neg (by omega)]
      simp only [hthrown, failWith]
  · intro prompt m h
    exact shown_error typeErrorMessage m (openaiRequest_error_ne_nil _ _ _ _ m h)
  · intro prompt
    constructor
    · intro e he
      unfold openaiRequest
      rw [he]
      rfl
    · intro response hresp
      refine ⟨?_, ?_⟩
      · intro hok
        cases h : openaiRequest cfg (normalizedLlm llm) fetch prompt with
        | error thrown => exact ⟨thrown, rfl⟩
        | ok text =>
          exfalso
          unfold openaiRequest at h
          simp only [hresp, hok, Bool.not_false, if_true] at h
          split at h
          · cases h
          · split at h
            · split at h <;> cases h
            · cases h
      · intro hok
        constructor
        · intro e he
          unfold openaiRequest
          rw [hresp]
          simp only [hok, Bool.not_true, Bool.false_eq_true, if_false, he]
          rfl
        · intro body hbody
          exact openaiRequest_of_json cfg _ fetch prompt response body hresp hok hbody
  · intro msg h
    exact mainProgram_failed_notes cfg inherited get _ (some item) msg h

theorem collapseRuns_true (p : Char → Bool) (s : Str) :
    collapseRuns p true s = collapseRuns p false (s.dropWhile p) := by
  induction s with
  | nil => rfl
  | cons c cs ih =>
    by_cases hc : p c = true
    · rw [List.dropWhile_cons_of_pos hc, ← ih]
      simp [collapseRuns, hc]
    · rw [List.dropWhile_cons_of_neg hc]
      simp [collapseRuns, hc]

theorem matchSpaces_of_not_space (c : Char) (cs : Str) (h : isSpace c = false) :
    matchSpaces (c :: cs) = none := by
  simp [matchSpaces, List.takeWhile, h]

theorem collapseSpaces_eq (s : Str) : collapseSpaces s = collapseRuns isSpace false s := by
  unfold collapseSpaces
  generalize hn : s.length = n
  induction n using Nat.strong_induction_on generalizing s with
  | _ n ih =>
    cases s with
    | nil => rfl
    | cons c cs =>
      simp only [List.length_cons] at hn
      by_cases hc : isSpace c = true
      · cases cs with
        | nil =>
          have hm : matchSpaces [c] = none := by simp [matchSpaces, List.takeWhile, hc]
          rw [replaceAll_none _ _ _ hm]
          simp [collapseRuns, hc, replaceAll]
        | cons d r =>
          by_cases hd : isSpace d = true
          · have hlen : 2 ≤ ((c :: d :: r).takeWhile isSpace).length := by
              simp [List.takeWhile, hc, hd]
            have hm : matchSpaces (c :: d :: r)
                = some ([' '], ((c :: d :: r).takeWhile isSpace).length) := by
              simp only [matchSpaces, hlen, if_true]
            have hdrop : (d :: r).drop (((c :: d :: r).takeWhile isSpace).length - 1)
                = (d :: r).dropWhile isSpace := by
              have h1 : (c :: d :: r).takeWhile isSpace = c :: (d :: r).takeWhile isSpace := by
                simp [List.takeWhile, hc]
              rw [h1]
              simp only [List.length_cons, Nat.add_sub_cancel]
              exact drop_length_takeWhile isSpace (d :: r)
            rw [replaceAll_some _ _ _ _ _ hm, hdrop,
              ih ((d :: r).dropWhile isSpace).length (by
                have : ((d :: r).dropWhile isSpace).length ≤ (d :: r).length :=
                  (List.dropWhile_sublist isSpace).length_le
                simp only [List.length_cons] at this hn
                omega) _ rfl]
            have e : collapseRuns isSpace false (c :: d :: r)
                = ' ' :: collapseRuns isSpace true (d :: r) := by
              simp [collapseRuns, hc, hd]
            rw [e, collapseRuns_true]
            rfl
          · have hm : matchSpaces (c :: d :: r) = none := by
              simp [matchSpaces, List.takeWhile, hc, hd]
            rw [replaceAll_none _ _ _ hm, ih (d :: r).length (by omega) _ rfl]
            simp only [Bool.not_eq_true] at hd
            have e : collapseRuns isSpace false (c :: d :: r)
                = c :: collapseRuns isSpace false (d :: r) := by
              rw [collapseRuns]
              simp [hc, hd]
            rw [e]
      · simp only [Bool.not_eq_true] at hc
        rw [replaceAll_none _ _ _ (matchSpaces_of_not_space c cs hc),
          ih cs.length (by omega) cs rfl]
        simp [collapseRuns, hc]

theorem classify_para (line : Str) (hne : line ≠ []) (h3 : h3Match line = none)
    (h2 : h2Match line = none) (hu : ulMatch line = none) (ho : olMatch line = none) :
    classify line = .para line := by
  have he : line.isEmpty = false := by
    cases line with
    | nil => exact absurd rfl hne
    | cons c r => rfl
  simp [classify, he, h3, h2, hu, ho]

theorem closeLists_flags (st : RenderState) :
    closeLists st = { html := (closeLists st).html, inUl := false, inOl := false } := by
  obtain ⟨html, inUl, inOl⟩ := st
  cases inUl <;> cases inOl <;> simp [closeLists]

theorem emit_last (st : RenderState) (b : Block) (l : Str) (h : elementOf b = some l) :
    (emit st b).html.getLast? = some l := by
  obtain ⟨html, inUl, inOl⟩ := st
  cases b <;> cases inUl <;> cases inOl <;>
    simp_all [emit, closeLists, pushLine, elementOf]

/-- C23 as stated fails: a run of two tabs is not a run of spaces, yet the paragraph of
the line `a`, tab, tab, `b` is `<p>a b</p>`: the tabs have become a space.  Collapsing
only the runs of spaces would leave the line as it is. -/
theorem paragraph_collapses_tabs :
    formatSummaryAsHtml "a\t\tb".toList = "<p>a b</p>".toList ∧
    "<p>".toList ++ collapseRuns (fun c => c == ' ') false (trim "a\t\tb".toList) ++ "</p>".toList
      = "<p>a\t\tb</p>".toList ∧
    formatSummaryAsHtml "a\t\tb".toList ≠
      "<p>".toList ++ collapseRuns (fun c => c == ' ') false (trim "a\t\tb".toList)
        ++ "</p>".toList := by
  decide

/-- C23, amended: for a line that is not blank and that, trimmed, matches none of the
heading and list patterns, the loop closes the open list and pushes `<p>`, `c`, `</p>`,
where `c` is the trimmed line with each run of two or more whitespace characters (the
class `\s`: spaces, tabs, no-break spaces, line terminators other than the line feed)
replaced by one space and every other character kept.  For a heading or a list item
the element pushed holds the captured text as it is, an end of the trimmed line. -/
theorem paragraph_rule (st : RenderState) (raw : Str) :
    (trim raw ≠ [] → h3Match (trim raw) = none → h2Match (trim raw) = none →
      ulMatch (trim raw) = none → olMatch (trim raw) = none →
      renderLine st raw =
        { html := (closeLists st).html ++
            [['<', 'p', '>'] ++ collapseRuns isSpace false (trim raw) ++ ['<', '/', 'p', '>']],
          inUl := false, inOl := false }) ∧
    (∀ g, h3Match (trim raw) = some g ∨
        (h3Match (trim raw) = none ∧ h2Match (trim raw) = some g) ∨
        (h3Match (trim raw) = none ∧ h2Match (trim raw) = none ∧
          (ulMatch (trim raw) = some g ∨
            (ulMatch (trim raw) = none ∧ olMatch (trim raw) = some g))) →
      trim raw ≠ [] →
      (∃ pre, trim raw = pre ++ g) ∧
      ∃ o c, (renderLine st raw).html.getLast? = some (o ++ g ++ c) ∧
        (o, c) ∈ [(['<', 'h', '3', '>'], ['<', '/', 'h', '3', '>']),
                  (['<', 'h', '2', '>'], ['<', '/', 'h', '2', '>']),
                  (['<', 'l', 'i', '>'], ['<', '/', 'l', 'i', '>'])]) := by
  constructor
  · intro hne h3 h2 hu ho
    rw [renderLine_eq_emit, classify_para _ hne h3 h2 hu ho, ← collapseSpaces_eq]
    simp only [emit, pushLine]
    rw [closeLists_flags st]
  · intro g hg hne
    have he : (trim raw).isEmpty = false := by
      cases h : trim raw with
      | nil => exact absurd h hne
      | cons c r => rfl
    have hcl : classify (trim raw) = .heading3 g ∨ classify (trim raw) = .heading2 g ∨
        classify (trim raw) = .ulItem g ∨ classify (trim raw) = .olItem g := by
      rcases hg with h | ⟨h3, h⟩ | ⟨h3, h2, h | ⟨hu, h⟩⟩
      · left; simp [classify, he, h]
      · right; left; simp [classify, he, h3, h]
      · right; right; left; simp [classify, he, h3, h2, h]
      · right; right; right; simp [classify, he, h3, h2, hu, h]
    constructor
    · rcases classify_text (trim raw) with ⟨g2, pre, hb, hpre, _⟩ | hb | hb
      · have : g2 = g := by
          simp only [List.mem_cons, List.mem_singleton, List.not_mem_nil, or_false] at hb
          rcases hcl with h | h | h | h <;> rw [h] at hb <;> simp at hb <;> exact hb.symm
        rw [← this]
        exact ⟨pre, hpre⟩
      · rcases hcl with h | h | h | h <;> rw [h] at hb <;> cases hb
      · rcases hcl with h | h | h | h <;> rw [h] at hb <;> cases hb
    · rw [renderLine_eq_emit]
      rcases hcl with h | h | h | h
      · exact ⟨_, _, emit_last st _ _ (by rw [h]; rfl), by simp⟩
      · exact ⟨_, _, emit_last st _ _ (by rw [h]; rfl), by simp⟩
      · exact ⟨_, _, emit_last st _ _ (by rw [h]; rfl), by simp⟩
      · exact ⟨_, _, emit_last st _ _ (by rw [h]; rfl), by simp⟩

/-- Witness of C23 (amended): the line `a`, tab, tab, `b` after an item of an unordered
list. -/
theorem paragraph_rule_witness :
    renderLine { html := [['<', 'u', 'l', '>'], "<li>x</li>".toList], inUl := true, inOl := false }
        "a\t\tb".toList =
      { html := [['<', 'u', 'l', '>'], "<li>x</li>".toList, "</ul>".toList, "<p>a b</p>".toList],
        inUl := false, inOl := false } :=
  (paragraph_rule
    { html := [['<', 'u', 'l', '>'], "<li>x</li>".toList], inUl := true, inOl := false }
    "a\t\tb".toList).1 (by decide) (by decide) (by decide) (by decide) (by decide)

theorem startsWith_stars_append_newline (x b : Str) :
    startsWith (x ++ '\n' :: b) ['*', '*'] = startsWith x ['*', '*'] := by
  rcases x with _ | ⟨c, _ | ⟨d, r⟩⟩ <;> simp [startsWith]

theorem boldRest_append_newline (x b : Str) : boldRest (x ++ '\n' :: b) = boldRest x := by
  induction x with
  | nil => simp [boldRest, startsWith, isLineTerminator]
  | cons c cs ih =>
    have hs := startsWith_stars_append_newline (c :: cs) b
    simp only [List.cons_append] at hs ⊢
    conv_lhs => rw [boldRest]
    conv_rhs => rw [boldRest]
    rw [hs, ih]

theorem boldGroup_append_newline (x b : Str) : boldGroup (x ++ '\n' :: b) = boldGroup x := by
  rcases x with _ | ⟨c, _ | ⟨d, _ | ⟨e, r⟩⟩⟩
  · simp [boldGroup, startsWith]
  · simp [boldGroup, startsWith]
  · simp [boldGroup, startsWith, isLineTerminator]
  · have h := boldRest_append_newline r b
    simp only [List.cons_append] at h ⊢
    simp [boldGroup, startsWith, h]

theorem matchBold_append_newline (x b : Str) : matchBold (x ++ '\n' :: b) = matchBold x := by
  simp [matchBold, boldGroup_append_newline]

theorem matchBold_length (x rep : Str) (len : Nat) (h : matchBold x = some (rep, len)) :
    len ≤ x.length := by
  simp only [matchBold, Option.map_eq_some'] at h
  obtain ⟨g, hg, heq⟩ := h
  obtain ⟨rest, hx⟩ := boldGroup_some x g hg
  simp only [Prod.mk.injEq] at heq
  rw [← heq.2, hx]
  simp

theorem replaceAll_append_sep (m : Str → Option (Str × Nat)) (sep : Char)
    (hnil : m [] = none) (hm : ∀ x b, m (x ++ sep :: b) = m x)
    (hlen : ∀ x rep len, m x = some (rep, len) → len ≤ x.length) (a b : Str) :
    ∀ k, k ≤ a.length →
      replaceAll m k (a ++ sep :: b) = replaceAll m k a ++ sep :: replaceAll m 0 b := by
  induction a with
  | nil =>
    intro k hk
    have : k = 0 := by simpa using hk
    subst this
    have h0 : m (sep :: b) = none := by
      have := hm [] b
      simpa [hnil] using this
    simp [replaceAll, h0]
  | cons c cs ih =>
    intro k hk
    cases k with
    | succ k =>
      simp only [List.cons_append, replaceAll]
      exact ih k (by simpa using hk)
    | zero =>
      have h1 := hm (c :: cs) b
      simp only [List.cons_append] at h1
      simp only [List.cons_append, replaceAll, List.append_eq]
      rw [h1]
      cases h : m (c :: cs) with
      | none => simp [ih 0 (Nat.zero_le _)]
      | some p =>
        obtain ⟨rep, len⟩ := p
        have hl := hlen _ _ _ h
        simp only [List.length_cons] at hl
        simp [ih (len - 1) (by omega)]

theorem markBold_append_newline (a b : Str) :
    markBold (a ++ '\n' :: b) = markBold a ++ '\n' :: markBold b := by
  have he : escapeSpec (a ++ '\n' :: b) = escapeSpec a ++ '\n' :: escapeSpec b := by
    rw [escapeSpec_append]
    simp [escapeSpec]
  simp only [markBold, escapeHtml_eq, he]
  exact replaceAll_append_sep matchBold '\n' rfl matchBold_append_newline matchBold_length _ _ 0
    (Nat.zero_le _)

theorem boldRest_no_newline (s g : Str) (h : boldRest s = some g) : '\n' ∉ g := by
  induction s generalizing g with
  | nil => simp [boldRest] at h
  | cons c cs ih =>
    rw [boldRest] at h
    split at h
    · simp at h; subst h; simp
    · split at h
      · simp at h
      · rename_i hlt
        simp only [Option.map_eq_some'] at h
        obtain ⟨g2, hg2, rfl⟩ := h
        have := ih g2 hg2
        intro hmem
        rcases List.mem_cons.1 hmem with hc | hc
        · subst hc
          simp [isLineTerminator] at hlt
        · exact this hc

theorem markBold_no_newline (a : Str) (h : '\n' ∉ a) : '\n' ∉ markBold a := by
  have hesc : ∀ c ∈ escapeSpec a, c ≠ '\n' := by
    intro c hc
    rcases mem_escapeSpec a c hc with h1 | h1
    · rintro rfl; exact h h1
    · rintro rfl; simp at h1
  have := mem_replaceAll matchBold (fun c => c ≠ '\n') (by
    intro t rep len hm c hc
    simp only [matchBold, Option.map_eq_some'] at hm
    obtain ⟨g, hg, heq⟩ := hm
    simp only [Prod.mk.injEq] at heq
    rw [← heq.1] at hc
    simp only [List.mem_append] at hc
    rcases hc with (hc | hc) | hc
    · rintro rfl; simp at hc
    · rintro rfl
      revert hc
      simp only [boldGroup] at hg
      split at hg
      · split at hg
        · simp at hg
        · rename_i c0 cs0 _
          split at hg
          · simp at hg
          · rename_i hlt
            simp only [Option.map_eq_some'] at hg
            obtain ⟨g2, hg2, rfl⟩ := hg
            intro hmem
            rcases List.mem_cons.1 hmem with hc | hc
            · subst hc; simp [isLineTerminator] at hlt
            · exact boldRest_no_newline _ _ hg2 hc
      · simp at hg
    · rintro rfl; simp at hc) 0 (escapeSpec a) hesc
  intro hmem
  simp only [markBold, escapeHtml_eq] at hmem
  exact this _ hmem rfl

theorem splitOn_markBold (s : Str) :
    splitOn '\n' (markBold s) = (splitOn '\n' s).map markBold := by
  generalize hn : s.length = n
  induction n using Nat.strong_induction_on generalizing s with
  | _ n ih =>
    by_cases h : '\n' ∈ s
    · obtain ⟨a, b, rfl, ha⟩ := List.eq_append_cons_of_mem h
      rw [markBold_append_newline, splitOn_append_sep _ _ _ (markBold_no_newline a ha),
        splitOn_append_sep _ _ _ ha, List.map_cons,
        ih b.length (by subst hn; simp; omega) b rfl]
    · rw [splitOn_of_not_mem _ _ h, splitOn_of_not_mem _ _ (markBold_no_newline s h)]
      rfl

theorem trimEnd_eq_nil_iff (s : Str) : trimEnd s = [] ↔ ∀ c ∈ s, isSpace c = true := by
  simp [trimEnd, List.dropWhile_eq_nil_iff]

theorem trim_eq_nil_iff (s : Str) : trim s = [] ↔ ∀ c ∈ s, isSpace c = true := by
  constructor
  · intro h
    obtain ⟨a, b, hs, ha, hb⟩ := trim_decomp s
    rw [h] at hs
    intro c hc
    rw [hs] at hc
    simp only [List.append_nil, List.mem_append] at hc
    rcases hc with hc | hc
    · exact ha c hc
    · exact hb c hc
  · intro h
    have : trimStart s = [] := by
      simp [trimStart, List.dropWhile_eq_nil_iff]
      exact h
    simp [trim, this, trimEnd]

theorem replaceAll_exists (m : Str → Option (Str × Nat)) (P : Char → Prop)
    (hm : ∀ t rep len, m t = some (rep, len) → ∃ c ∈ rep, P c) (s : Str) :
    ∀ k, (∃ c ∈ s.drop k, P c) → ∃ c ∈ replaceAll m k s, P c := by
  induction s with
  | nil => intro k h; simp at h
  | cons c cs ih =>
    intro k h
    cases k with
    | succ k =>
      simp only [List.drop_succ_cons] at h
      simpa [replaceAll] using ih k h
    | zero =>
      simp only [replaceAll]
      cases hmc : m (c :: cs) with
      | some p =>
        obtain ⟨rep, len⟩ := p
        obtain ⟨d, hd, hP⟩ := hm _ _ _ hmc
        exact ⟨d, by simp [hd], hP⟩
      | none =>
        obtain ⟨d, hd, hP⟩ := h
        simp only [List.drop_zero, List.mem_cons] at hd
        rcases hd with rfl | hd
        · exact ⟨d, by simp, hP⟩
        · obtain ⟨e, he, hPe⟩ := ih 0 ⟨d, by simpa using hd, hP⟩
          exact ⟨e, by simp [he], hPe⟩

theorem space_not_markup (c : Char) (h : isSpace c = true) :
    c ≠ '&' ∧ c ≠ '<' ∧ c ≠ '>' ∧ c ≠ '*' := by
  refine ⟨?_, ?_, ?_, ?_⟩ <;> rintro rfl <;> simp [isSpace] at h

theorem trim_markBold_eq_nil_iff (l : Str) : trim (markBold l) = [] ↔ trim l = [] := by
  constructor
  · intro h
    by_contra hne
    rw [trim_eq_nil_iff] at hne h
    push_neg at hne
    obtain ⟨c, hc, hsp⟩ := hne
    have hesc : ∃ d ∈ (escapeSpec l).drop 0, isSpace d = false := by
      obtain ⟨a, b, rfl⟩ := List.append_of_mem hc
      simp only [List.drop_zero, escapeSpec_append]
      have hcons : escapeSpec (c :: b) = escapeSpec [c] ++ escapeSpec b :=
        escapeSpec_append [c] b
      rw [hcons]
      by_cases h1 : c = '&'
      · exact ⟨'&', by simp [escapeSpec, h1], by decide⟩
      by_cases h2 : c = '<'
      · exact ⟨'&', by simp [escapeSpec, h2], by decide⟩
      by_cases h3 : c = '>'
      · exact ⟨'&', by simp [escapeSpec, h3], by decide⟩
      · exact ⟨c, by simp [escapeSpec, h1, h2, h3], by simpa using hsp⟩
    obtain ⟨d, hd, hdsp⟩ := replaceAll_exists matchBold (fun d => isSpace d = false) (by
      intro t rep len hm
      simp only [matchBold, Option.map_eq_some'] at hm
      obtain ⟨g, _, heq⟩ := hm
      simp only [Prod.mk.injEq] at heq
      exact ⟨'<', by rw [← heq.1]; simp, by decide⟩) (escapeSpec l) 0 hesc
    have := h d (by simpa [markBold, escapeHtml_eq] using hd)
    rw [this] at hdsp
    cases hdsp
  · intro h
    rw [markBold_of_plain l (fun c hc => space_not_markup c ((trim_eq_nil_iff l).1 h c hc))]
    exact h

theorem elementOf_classify_eq_none_iff (line : Str) :
    elementOf (classify line) = none ↔ line = [] := by
  constructor
  · intro h
    rcases classify_text line with ⟨g, pre, hb, _, _⟩ | hb | hb
    · simp only [List.mem_cons, List.mem_singleton, List.not_mem_nil, or_false] at hb
      rcases hb with hb | hb | hb | hb <;> rw [hb] at h <;> simp [elementOf] at h
    · cases line with
      | nil => rfl
      | cons c r =>
        simp only [classify, List.isEmpty_cons] at hb
        revert hb
        simp only [Bool.false_eq_true, if_false]
        split
        · simp
        · split
          · simp
          · split
            · simp
            · split <;> simp
    · rw [hb] at h
      simp [elementOf] at h
  · rintro rfl
    rfl

theorem elementOfLine_eq_none_iff (l : Str) :
    elementOfLine l = none ↔ (!(trim l).isEmpty) = false := by
  rw [elementOfLine, elementOf_classify_eq_none_iff, trim_markBold_eq_nil_iff]
  cases trim l <;> simp

theorem filter_emit (st : RenderState) (b : Block) :
    (emit st b).html.filter isElementLine =
      st.html.filter isElementLine ++ (elementOf b).toList := by
  obtain ⟨html, inUl, inOl⟩ := st
  cases b <;> cases inUl <;> cases inOl <;>
    simp [emit, closeLists, pushLine, elementOf, List.filter_append, isElementLine, startsWith]

theorem filter_foldl_renderLine (lines : List Str) (st : RenderState) :
    (lines.foldl renderLine st).html.filter isElementLine =
      st.html.filter isElementLine ++
        lines.filterMap (fun raw => elementOf (classify (trim raw))) := by
  induction lines generalizing st with
  | nil => simp
  | cons l ls ih =>
    rw [List.foldl_cons, ih, renderLine_eq_emit, filter_emit, List.filterMap_cons]
    cases elementOf (classify (trim l)) <;> simp

theorem filter_renderLines (lines : List Str) :
    (renderLines lines).filter isElementLine =
      lines.filterMap (fun raw => elementOf (classify (trim raw))) := by
  rw [renderLines, closeLists_eq_emit, filter_emit, filter_foldl_renderLine]
  simp [elementOf]

theorem map_some_filterMap {α β : Type} (f : α → Option β) (p : α → Bool)
    (h : ∀ x, f x = none ↔ p x = false) (l : List α) :
    (l.filterMap f).map some = (l.filter p).map f := by
  induction l with
  | nil => rfl
  | cons x xs ih =>
    cases hf : f x with
    | none =>
      have hp := (h x).1 hf
      simp [List.filterMap_cons, hf, hp, ih]
    | some y =>
      have hp : p x = true := by
        cases hpx : p x with
        | true => rfl
        | false => rw [(h x).2 hpx] at hf; cases hf
      simp [List.filterMap_cons, hf, hp, ih]

theorem elementLines_join (html : List Str) (h : ∀ l ∈ html, '\n' ∉ l) :
    elementLines (join '\n' html) = html.filter isElementLine := by
  cases html with
  | nil => rfl
  | cons l ls => rw [elementLines, splitOn_join _ _ (by simp) h]

theorem elementLines_formatSummaryAsHtml (s : Str) :
    elementLines (formatSummaryAsHtml s) = (splitOn '\n' s).filterMap elementOfLine := by
  cases s with
  | nil => rfl
  | cons c r =>
    simp only [formatSummaryAsHtml, List.isEmpty_cons, Bool.false_eq_true, if_false]
    rw [elementLines_join _ (renderLines_no_newline _ (not_mem_of_mem_splitOn _ _)),
      filter_renderLines, splitOn_markBold, List.filterMap_map]
    rfl

theorem renderLines_of_blank (lines : List Str) (h : ∀ l ∈ lines, trim l = []) :
    renderLines lines = [] := by
  have := foldl_renderLine_inv (fun st => st = { html := [], inUl := false, inOl := false })
    lines { html := [], inUl := false, inOl := false } rfl (by
      intro st raw hraw hst
      rw [renderLine_eq_emit, h raw hraw, hst]
      rfl)
  rw [renderLines, this]
  rfl

/-- C24: the element lines of the output (the lines that start with `<h2>`, `<h3>`,
`<li>` or `<p>`) are, in their order, the elements that the lines of the input that are
not blank after trimming make, one for each of them, so that there are as many; a blank
line changes nothing but the open list, which it closes; and an input with no line that
is not blank, the empty one for instance, gives the empty output. -/
theorem formatSummaryAsHtml_element_lines (s : Str) :
    (elementLines (formatSummaryAsHtml s)).map some = (nonBlankLines s).map elementOfLine ∧
    (elementLines (formatSummaryAsHtml s)).length = (nonBlankLines s).length ∧
    (∀ st raw, trim raw = [] → renderLine st raw = closeLists st ∧
      (renderLine st raw).html.filter isElementLine = st.html.filter isElementLine) ∧
    (nonBlankLines s = [] → formatSummaryAsHtml s = []) ∧
    formatSummaryAsHtml [] = [] := by
  have h1 : (elementLines (formatSummaryAsHtml s)).map some =
      (nonBlankLines s).map elementOfLine := by
    rw [elementLines_formatSummaryAsHtml, nonBlankLines]
    exact map_some_filterMap elementOfLine _ elementOfLine_eq_none_iff _
  refine ⟨h1, ?_, ?_, ?_, rfl⟩
  · have := congrArg List.length h1
    simpa using this
  · intro st raw hraw
    have hr : renderLine st raw = closeLists st := by
      rw [renderLine_eq_emit, hraw]
      rfl
    refine ⟨hr, ?_⟩
    rw [hr, closeLists_eq_emit, filter_emit]
    simp [elementOf]
  · intro h
    cases s with
    | nil => rfl
    | cons c r =>
      simp only [formatSummaryAsHtml, List.isEmpty_cons, Bool.false_eq_true, if_false]
      rw [renderLines_of_blank]
      · rfl
      · intro l hl
        rw [splitOn_markBold] at hl
        obtain ⟨l0, hl0, rfl⟩ := List.mem_map.1 hl
        rw [trim_markBold_eq_nil_iff]
        have := (List.filter_eq_nil_iff.1 h) l0 hl0
        cases ht : trim l0 with
        | nil => rfl
        | cons d ds => simp [ht] at this

/-- Witness of C24: four lines, the second one blank, the last one made of a space and
a tab: three elements, and the empty output for a line of whitespace. -/
theorem formatSummaryAsHtml_element_lines_witness :
    elementLines (formatSummaryAsHtml "## T\n \n- a\nb\n \t".toList)
      = ["<h2>T</h2>".toList, "<li>a</li>".toList, "<p>b</p>".toList] ∧
    nonBlankLines "## T\n \n- a\nb\n \t".toList = ["## T".toList, "- a".toList, "b".toList] ∧
    nonBlankLines " \t".toList = [] ∧
    formatSummaryAsHtml " \t".toList = [] :=
  ⟨by decide, by decide, by decide,
    (formatSummaryAsHtml_element_lines " \t".toList).2.2.2.1 (by decide)⟩

end ZoteroAI
